import Mathlib

/-!
# ydpdict: index loader and markup interpreter

A shallow embedding of `src/tools/src/ydpdict.c`.

Conventions of the embedding:

* a byte is a `Nat` below 256; a byte string (a C string without its
  terminator, or the contents of a file) is a `List Nat`;
* a `FILE *` positioned at some offset is the list of bytes from that offset
  to the end of the file (`fseek(f, n, SEEK_SET)` is `List.drop n` on the whole
  file, `fseek(f, n, SEEK_CUR)` is `List.drop n` on the current position);
  `long` is taken to be 64 bits wide, so that no `fseek` to a 32-bit offset
  fails;
* memory allocation (`calloc`, `malloc`, `realloc`, `strdup`) is taken to
  succeed, so the macro `APPEND` never takes its failure path and the output
  string is a plain list of bytes;
* `isalnum` and `isspace` are those of the "C" locale;
* a write or read outside an object is not given a meaning: the result of
  the function is `Res.undefined` with the fault that occurred.
-/

namespace Ydpdict

/-! ## Constants and tables -/

/-- Bytes of an ASCII string literal (without the terminating NUL). -/
def str (s : String) : List Nat := s.toList.map Char.toNat

/-- Index file magic: `YDPDICT_IDX_MAGIC`. -/
def YDPDICT_IDX_MAGIC : Nat := 0x8d4e11d5

/-- Output encoding type. -/
inductive ydpdict_encoding_t
  | YDPDICT_ENCODING_WINDOWS1250
  | YDPDICT_ENCODING_UTF8
  deriving DecidableEq, Repr

open ydpdict_encoding_t

/-- Bold: `1 << 0`. -/
def ATTR_B : Nat := 1
/-- Color #0: `1 << 1`. -/
def ATTR_CF0 : Nat := 2
/-- Color #1: `1 << 2`. -/
def ATTR_CF1 : Nat := 4
/-- Color #2: `1 << 3`. -/
def ATTR_CF2 : Nat := 8
/-- Comment: `1 << 4`. -/
def ATTR_QC : Nat := 16
/-- Superscript: `1 << 5`. -/
def ATTR_SUPER : Nat := 32
/-- Font: `1 << 6`. -/
def ATTR_F : Nat := 64
/-- Phonetic font: `1 << 7`. -/
def ATTR_F1 : Nat := 128
/-- Italic: `1 << 8`. -/
def ATTR_I : Nat := 256
/-- Color #5: `1 << 9`. -/
def ATTR_CF5 : Nat := 512
/-- Margin: `1 << 10`. -/
def ATTR_SA : Nat := 1024
/-- No bold: `1 << 11`. -/
def ATTR_B0 : Nat := 2048
/-- No italic: `1 << 12`. -/
def ATTR_I0 : Nat := 4096

/-- Conversion table from phonetic characters (bytes 128..159) to UTF-8. -/
def ydpdict_phonetic_to_utf8_table : List (List Nat) := [
  [63], [63], [201, 148], [202, 146], [63], [202, 131], [201, 155], [202, 140],
  [201, 153], [206, 184], [201, 170], [201, 145], [63], [203, 144], [203, 136], [63],
  [197, 139], [63], [63], [63], [63], [63], [63], [195, 176],
  [195, 166], [63], [63], [63], [63], [63], [63], [63]]

/-- Table of superscript digits 0..9 in UTF-8. -/
def ydpdict_superscript_to_utf8_table : List (List Nat) := [
  [226, 129, 176], [194, 185], [194, 178], [194, 179], [226, 129, 180], [226, 129, 181], [226, 129, 182], [226, 129, 183], [226, 129, 184], [226, 129, 185]]

/-- Conversion table from windows-1250 (bytes 128..255) to UTF-8. -/
def ydpdict_windows1250_to_utf8_table : List (List Nat) := [
  [226, 130, 172], [63], [226, 128, 154], [63], [226, 128, 158], [226, 128, 166], [226, 128, 160], [226, 128, 161],
  [63], [226, 128, 176], [197, 160], [226, 128, 185], [197, 154], [197, 164], [197, 189], [197, 185],
  [63], [226, 128, 152], [226, 128, 153], [226, 128, 156], [226, 128, 157], [226, 128, 162], [226, 128, 147], [226, 128, 148],
  [63], [226, 132, 162], [197, 161], [226, 128, 186], [197, 155], [197, 165], [197, 190], [197, 186],
  [194, 160], [203, 135], [203, 152], [197, 129], [194, 164], [196, 132], [194, 166], [194, 167],
  [194, 168], [194, 169], [197, 158], [194, 171], [194, 172], [194, 173], [194, 174], [197, 187],
  [194, 176], [194, 177], [203, 155], [197, 130], [194, 180], [194, 181], [194, 182], [194, 183],
  [194, 184], [196, 133], [197, 159], [194, 187], [196, 189], [203, 157], [196, 190], [197, 188],
  [197, 148], [195, 129], [195, 130], [196, 130], [195, 132], [196, 185], [196, 134], [195, 135],
  [196, 140], [195, 137], [196, 152], [195, 139], [196, 154], [195, 141], [195, 142], [196, 142],
  [196, 144], [197, 131], [197, 135], [195, 147], [195, 148], [197, 144], [195, 150], [195, 151],
  [197, 152], [197, 174], [195, 154], [197, 176], [195, 156], [195, 157], [197, 162], [195, 159],
  [195, 160], [195, 161], [195, 162], [196, 131], [195, 164], [196, 186], [196, 135], [195, 167],
  [196, 141], [195, 169], [196, 153], [195, 171], [196, 155], [195, 173], [195, 174], [195, 175],
  [196, 145], [197, 132], [197, 136], [195, 179], [195, 180], [197, 145], [195, 182], [195, 183],
  [197, 153], [197, 175], [195, 186], [197, 177], [195, 188], [195, 189], [197, 163], [203, 153]]

/-! ## Files and machine integers -/

/-- Value of a 4-byte field read by `fread` and passed through
`ydpdict_fix32`: the little-endian reading of the four bytes. -/
def ydpdict_fix32 (b : List Nat) : Nat :=
  b.getD 0 0 + 256 * b.getD 1 0 + 65536 * b.getD 2 0 + 16777216 * b.getD 3 0

/-- Value of a 2-byte field read by `fread` and passed through
`ydpdict_fix16`: the little-endian reading of the two bytes. -/
def ydpdict_fix16 (b : List Nat) : Nat :=
  b.getD 0 0 + 256 * b.getD 1 0

/-- The call `fread(ptr, n, 1, f)`: the `n` bytes read and the new position,
or `none` when fewer than `n` bytes remain (the call does not return 1). -/
def fread (n : Nat) (f : List Nat) : Option (List Nat × List Nat) :=
  if n ≤ f.length then some (f.take n, f.drop n) else none

/-- The call `fseek(f, n, SEEK_SET)` on the file with contents `file`. -/
def fseek_set (file : List Nat) (n : Nat) : List Nat := file.drop n

/-- The call `fseek(f, n, SEEK_CUR)` from position `f`. -/
def fseek_cur (f : List Nat) (n : Nat) : List Nat := f.drop n

/-- What went wrong when a function left the defined behaviour of C. -/
inductive Fault
  /-- Store to `buf[j]` with `j` not below `sizeof(buf)`; `buf` is the
  buffer at that moment. -/
  | buf_overflow (buf : List (Option Nat)) (j : Nat)
  /-- Read of a cell of `buf` that was never written. -/
  | buf_uninit
  /-- A string function ran past the end of `buf` without meeting a NUL. -/
  | buf_overread
  /-- Access to `words[i]` outside the allocated array. -/
  | words_bounds (i : Int)
  /-- Read into the `text` buffer of `ydpdict_read_rtf` past its end. -/
  | text_overflow
  /-- Access to `attr_stack` outside the array, or read of a cell of it
  that was never written. -/
  | stack_bounds
  /-- The `strcpy` of `ydpdict_append` wrote past the capacity of the
  buffer. -/
  | append_overflow
  /-- A string function was given the `NULL` word of a word array entry. -/
  | null_word
  /-- An `int` of `ydpdict_append` (a length, the sum of the two lengths or
  the doubled capacity) left the range of `int`. -/
  | int_overflow
  deriving DecidableEq, Repr

/-- Outcome of a function of the library. -/
inductive Res (α : Type)
  /-- The function returned normally with a value. -/
  | ok (a : α)
  /-- The function took its failure path and returned `NULL`. -/
  | failure
  /-- The function left the defined behaviour of C. -/
  | undefined (f : Fault)
  /-- The bound on loop iterations given to the model was too small. -/
  | timeout
  deriving DecidableEq, Repr

/-! ## Index loader -/

/-- Word array entry. -/
structure ydpdict_word_t where
  /-- Word in output encoding (`NULL` until set). -/
  word : Option (List Nat)
  /-- Word definition index in database. -/
  index : Nat
  deriving DecidableEq, Repr

/-- Dictionary structure. -/
structure ydpdict_priv_t where
  /-- Database file contents. -/
  dat : List Nat
  /-- Index file contents. -/
  idx : List Nat
  /-- Word count. -/
  count : Int
  /-- Word array. -/
  words : List ydpdict_word_t
  /-- Output encoding. -/
  encoding : ydpdict_encoding_t
  /-- XHTML header output flag. -/
  xhtml_header : Int
  /-- XHTML title. -/
  xhtml_title : Option (List Nat)
  /-- XHTML custom style. -/
  xhtml_style : Option (List Nat)
  /-- XHTML style usage flag. -/
  xhtml_use_style : Int
  deriving DecidableEq, Repr

/-- Size of the word buffer: `sizeof(buf)` for `char buf[256]`. -/
def BUF_SIZE : Nat := 256

/-- The loop `for (k = 0; str[k] && j < sizeof(buf); k++) buf[j++] = str[k];`
on the table entry `s`: the buffer and `j` after it. -/
def copy_entry : List Nat → List (Option Nat) → Nat → List (Option Nat) × Nat
  | [], buf, j => (buf, j)
  | c :: s, buf, j =>
    if j < BUF_SIZE then copy_entry s (buf.set j (some c)) (j + 1) else (buf, j)

/-- The store `buf[j] = ch`. -/
def buf_store (buf : List (Option Nat)) (j ch : Nat) : Res (List (Option Nat) × Nat) :=
  if j < BUF_SIZE then .ok (buf.set j (some ch), j) else .undefined (.buf_overflow buf j)

/-- Body of the inner `do` loop of `ydpdict_open` after the byte `ch` was
read: the buffer and `j` before the loop condition is evaluated. -/
def word_body (encoding : ydpdict_encoding_t) (ch : Nat) (buf : List (Option Nat)) (j : Nat) :
    Res (List (Option Nat) × Nat) :=
  if encoding = YDPDICT_ENCODING_WINDOWS1250 then
    buf_store buf j ch
  else if ch > 127 then
    let r := copy_entry (ydpdict_windows1250_to_utf8_table.getD (ch - 128) []) buf j
    .ok (r.1, r.2 - 1)
  else
    buf_store buf j ch

/-- The call `strdup(buf)`: the bytes of `buf` before its first NUL. -/
def strdup : List (Option Nat) → Res (List Nat)
  | [] => .undefined .buf_overread
  | none :: _ => .undefined .buf_uninit
  | some c :: rest =>
    if c = 0 then .ok []
    else
      match strdup rest with
      | .ok w => .ok (c :: w)
      | r => r

/-- The inner `do { ... } while (j < sizeof(buf) && buf[j++]);` loop of
`ydpdict_open` followed by `strdup(buf)`, from file position `f`: the word
and the file position after it. -/
def read_word (encoding : ydpdict_encoding_t) :
    List Nat → List (Option Nat) → Nat → Res (List Nat × List Nat)
  | [], _, _ => .failure
  | ch :: f, buf, j =>
    match word_body encoding ch buf j with
    | .ok (buf, j) =>
      if j < BUF_SIZE then
        match buf.getD j none with
        | none => .undefined .buf_uninit
        | some c =>
          if c ≠ 0 then read_word encoding f buf (j + 1)
          else
            match strdup buf with
            | .ok w => .ok (w, f)
            | .failure => .failure
            | .undefined e => .undefined e
            | .timeout => .timeout
      else
        match strdup buf with
        | .ok w => .ok (w, f)
        | .failure => .failure
        | .undefined e => .undefined e
        | .timeout => .timeout
    | .failure => .failure
    | .undefined e => .undefined e
    | .timeout => .timeout

/-- The store `words[i] = w`. -/
def words_store (words : List ydpdict_word_t) (i : Nat) (w : ydpdict_word_t) :
    Res (List ydpdict_word_t) :=
  if i < words.length then .ok (words.set i w) else .undefined (.words_bounds i)

/-- The outer `do { ... } while (++i < dict->count);` loop of `ydpdict_open`
from file position `f`, at most `fuel` iterations. -/
def read_index (encoding : ydpdict_encoding_t) (count : Nat) :
    Nat → Nat → List Nat → List ydpdict_word_t → Res (List ydpdict_word_t)
  | 0, _, _, _ => .timeout
  | fuel + 1, i, f, words =>
    match fread 4 (fseek_cur f 4) with
    | none => .failure
    | some (index, f) =>
      match words_store words i ⟨none, ydpdict_fix32 index⟩ with
      | .ok words =>
        match read_word encoding f (List.replicate BUF_SIZE none) 0 with
        | .ok (w, f) =>
          match words_store words i ⟨some w, ydpdict_fix32 index⟩ with
          | .ok words =>
            if i + 1 < count then read_index encoding count fuel (i + 1) f words
            else .ok words
          | .failure => .failure
          | .undefined e => .undefined e
          | .timeout => .timeout
        | .failure => .failure
        | .undefined e => .undefined e
        | .timeout => .timeout
      | .failure => .failure
      | .undefined e => .undefined e
      | .timeout => .timeout

/-- Open dictionary and read index. `dat` and `idx` are the contents of the
two files, `none` for a file that `fopen` cannot open. The word array is
`calloc(count, ...)`: `count` entries with `word = NULL` and `index = 0`
(taken to be a valid, empty array when `count` is 0). The loop over the
table is given `count + 1` iterations, one more than it can need. -/
def ydpdict_open (dat idx : Option (List Nat)) (encoding : ydpdict_encoding_t) :
    Res ydpdict_priv_t :=
  match idx with
  | none => .failure
  | some idxf =>
    match dat with
    | none => .failure
    | some datf =>
      match fread 4 idxf with
      | none => .failure
      | some (magic, _) =>
        if ydpdict_fix32 magic ≠ YDPDICT_IDX_MAGIC then .failure
        else
          match fread 2 (fseek_set idxf 8) with
          | none => .failure
          | some (count, _) =>
            let count := ydpdict_fix16 count
            let words : List ydpdict_word_t := List.replicate count ⟨none, 0⟩
            match fread 4 (fseek_set idxf 16) with
            | none => .failure
            | some (index, _) =>
              match read_index encoding count (count + 1) 0
                  (fseek_set idxf (ydpdict_fix32 index)) words with
              | .ok words =>
                .ok { dat := datf, idx := idxf, count := count, words := words,
                      encoding := encoding, xhtml_header := 0, xhtml_title := none,
                      xhtml_style := none, xhtml_use_style := 0 }
              | .failure => .failure
              | .undefined e => .undefined e
              | .timeout => .timeout

/-- Returns number of words in dictionary (-1 for a `NULL` handle). -/
def ydpdict_get_count (pdict : Option ydpdict_priv_t) : Int :=
  match pdict with
  | none => -1
  | some dict => dict.count

/-- Read word from dictionary: `NULL` (`failure`) for a `NULL` handle or
`def >= dict->count`, otherwise `dict->words[def].word`. -/
def ydpdict_get_word (pdict : Option ydpdict_priv_t) (de : Int) : Res (List Nat) :=
  match pdict with
  | none => .failure
  | some dict =>
    if de ≥ dict.count then .failure
    else if 0 ≤ de ∧ de.toNat < dict.words.length then
      match (dict.words.getD de.toNat ⟨none, 0⟩).word with
      | none => .failure
      | some w => .ok w
    else .undefined (.words_bounds de)

/-! ## Definition reader -/

/-- A call on the data stream `dict->dat`. -/
inductive dat_op
  /-- The call `fseek(dict->dat, offset, SEEK_SET)`. -/
  | fseek (offset : Nat)
  /-- A call of `fread` on `dict->dat` for `size` bytes. -/
  | fread (size : Nat)
  deriving DecidableEq, Repr

/-- Read word definition in original RTF format, without charset conversion:
what `ydpdict_read_rtf` returns, and the calls it made on the data stream,
in order. The buffer returned holds the `len` bytes of the record followed
by a NUL (`text[len] = 0`). The buffer is `malloc(len + 1)` with the sum
computed on 32 bits: for `len` = 0xFFFFFFFF it has no room at all, and the
`fread` into it stores past its end as soon as one byte can be read. -/
def ydpdict_read_rtf_io (pdict : Option ydpdict_priv_t) (de : Int) :
    Res (List Nat) × List dat_op :=
  match pdict with
  | none => (.failure, [])
  | some dict =>
    if de ≥ dict.count then (.failure, [])
    else if 0 ≤ de ∧ de.toNat < dict.words.length then
      let index := (dict.words.getD de.toNat ⟨none, 0⟩).index
      match fread 4 (fseek_set dict.dat index) with
      | none => (.failure, [.fseek index, .fread 4])
      | some (len, f) =>
        let len := ydpdict_fix32 len
        if (len + 1) % 4294967296 = 0 then
          (if f = [] then .failure else .undefined .text_overflow,
            [.fseek index, .fread 4, .fread len])
        else
          match fread len f with
          | none => (.failure, [.fseek index, .fread 4, .fread len])
          | some (text, _) => (.ok (text ++ [0]), [.fseek index, .fread 4, .fread len])
    else (.undefined (.words_bounds de), [])

/-- Read word definition in original RTF format: the value returned. -/
def ydpdict_read_rtf (pdict : Option ydpdict_priv_t) (de : Int) : Res (List Nat) :=
  (ydpdict_read_rtf_io pdict de).1

/-! ## Markup interpreter -/

/-- The C library `isalnum` in the "C" locale. -/
def isalnum (c : Nat) : Bool :=
  (48 ≤ c && c ≤ 57) || (65 ≤ c && c ≤ 90) || (97 ≤ c && c ≤ 122)

/-- The C library `isspace` in the "C" locale. -/
def isspace (c : Nat) : Bool :=
  c = 32 || (9 ≤ c && c ≤ 13)

/-- The expression `a & ~m` on 32-bit attribute words. -/
def and_not (a m : Nat) : Nat := a &&& (0xFFFFFFFF ^^^ m)

/-- Size of the attribute stack: `attr_stack[32]`. -/
def STACK_SIZE : Nat := 32

/-- Local variables of `ydpdict_read_xhtml`. -/
structure State where
  /-- Input not yet consumed: the bytes `rtf` points at (the list ends at
  the terminating NUL). -/
  rtf : List Nat
  /-- Output string built so far. -/
  buf : List Nat
  /-- Applied attributes. -/
  attr : Nat
  /-- Pending attributes. -/
  attr_pending : Nat
  /-- Saved attributes of the open groups: the 32 cells of `attr_stack`,
  `none` for a cell never written. -/
  attr_stack : List (Option Nat)
  /-- Number of saved attribute sets. -/
  level : Int
  /-- Pending paragraph break: 0 none, 1 paragraph, 2 margin block. -/
  paragraph : Int
  /-- Inside a margin block. -/
  margin : Int
  /-- Set when `attr_stack` was accessed outside its 32 cells, or a cell
  never written was read. -/
  stack_fault : Bool
  deriving DecidableEq, Repr

/-- The byte `*rtf`. -/
def peek (rtf : List Nat) : Nat := rtf.headD 0

/-- The macro `APPEND(x)`: `x` is appended to the output string. This is
the text that a successful `ydpdict_append` leaves; the capacity `buf_len`
of the buffer, an `int`, is not part of the state (`ydpdict_append_int` and
`xhtml_prologue_int` keep it). -/
def APPEND (st : State) (x : List Nat) : State :=
  { st with buf := st.buf ++ x }

/-- The macro `APPEND_SPAN(class, color)`. -/
def APPEND_SPAN (dict : ydpdict_priv_t) (st : State) (cls color : List Nat) : State :=
  if dict.xhtml_use_style ≠ 0 then
    APPEND (APPEND (APPEND st (str "<font class=\"")) cls) (str "\">")
  else
    APPEND (APPEND (APPEND st (str "<font color=\"")) color) (str "\">")

/-- One line of `CLOSE_TAGS()`: `if ((attr & mask) != 0) APPEND(tag);`. -/
def close_tag (mask : Nat) (tag : List Nat) (st : State) : State :=
  if (st.attr &&& mask) ≠ 0 then APPEND st tag else st

/-- The colour flags `ATTR_CF0 | ATTR_CF1 | ATTR_CF2 | ATTR_CF5`. -/
def ATTR_CF_ALL : Nat := ATTR_CF0 ||| ATTR_CF1 ||| ATTR_CF2 ||| ATTR_CF5

/-- The macro `CLOSE_TAGS()`. -/
def CLOSE_TAGS (st : State) : State :=
  let st := close_tag ATTR_SUPER (str "</sup>") st
  let st := close_tag ATTR_CF_ALL (str "</font>") st
  let st := close_tag ATTR_I (str "</i>") st
  close_tag ATTR_B (str "</b>") st

/-- The store `attr_stack[i] = v`. -/
def stack_store (st : State) (i : Int) (v : Nat) : State :=
  if 0 ≤ i ∧ i < STACK_SIZE then
    { st with attr_stack := st.attr_stack.set i.toNat (some v) }
  else { st with stack_fault := true }

/-- The value `attr_stack[i]`, and whether the read is defined: `i` is
inside the array and the cell was written. -/
def stack_load (st : State) (i : Int) : Nat × Bool :=
  if 0 ≤ i ∧ i < STACK_SIZE then
    match st.attr_stack.getD i.toNat none with
    | some v => (v, true)
    | none => (0, false)
  else (0, false)

/-- Case `'\x7b'` of the switch; `st.rtf` points at the brace. -/
def step_open (st : State) : State :=
  let st := if st.level < 16 then
      { stack_store st st.level st.attr_pending with level := st.level + 1 } else st
  let st := if st.margin ≠ 0 then
      let top := stack_load st (st.level - 1)
      let st := if top.2 then st else { st with stack_fault := true }
      if (top.1 &&& ATTR_SA) = 0 then { st with attr := st.attr ||| ATTR_SA } else st
    else st
  { st with rtf := st.rtf.tail }

/-- Case `'\x7d'` of the switch; `st.rtf` points at the brace. With
`level < 1` the `break` leaves the switch with nothing changed, `rtf`
included. -/
def step_close (st : State) : State :=
  if st.level < 1 then st
  else
    let st := if st.margin ≠ 0 ∧ (st.attr &&& ATTR_SA) ≠ 0 then
        { CLOSE_TAGS st with attr := 0, margin := 0 } else st
    let st := { st with level := st.level - 1 }
    let top := stack_load st st.level
    let st := if top.2 then st else { st with stack_fault := true }
    { st with attr_pending := top.1, rtf := st.rtf.tail }

/-- The loop `while (isalnum(*rtf)) { if (len < sizeof(token) - 1)
token[len++] = *rtf; rtf++; }`: the token collected and the new `rtf`. -/
def read_token : List Nat → List Nat → List Nat × List Nat
  | [], token => (token, [])
  | c :: rtf, token =>
    if isalnum c then
      read_token rtf (if token.length < 15 then token ++ [c] else token)
    else (token, c :: rtf)

/-- The test on `par` and `pard`:
`if (strncmp(token, "par", 3) == 0 && (attr & ATTR_QC) == 0) { paragraph = 1;
if (strcmp(token, "pard") == 0) attr_pending = 0; }`. -/
def tok_par (token : List Nat) (st : State) : State :=
  if token.take 3 = str "par" ∧ (st.attr &&& ATTR_QC) = 0 then
    if token = str "pard" then { st with paragraph := 1, attr_pending := 0 }
    else { st with paragraph := 1 }
  else st

/-- The test on `line`:
`if (strcmp(token, "line") == 0 && !paragraph) APPEND("<br>");`. -/
def tok_line (token : List Nat) (st : State) : State :=
  if token = str "line" ∧ st.paragraph = 0 then APPEND st (str "<br>") else st

/-- A test `if (strcmp(token, name) == 0) attr_pending |= flag;`. -/
def tok_set (name : List Nat) (flag : Nat) (token : List Nat) (st : State) : State :=
  if token = name then { st with attr_pending := st.attr_pending ||| flag } else st

/-- A test `if (strcmp(token, name) == 0) attr_pending &= ~flag;`. -/
def tok_clear (name : List Nat) (flag : Nat) (token : List Nat) (st : State) : State :=
  if token = name then { st with attr_pending := and_not st.attr_pending flag } else st

/-- A test `if (strcmp(token, name) == 0) { attr_pending &= ~(ATTR_CF0 |
ATTR_CF1 | ATTR_CF2 | ATTR_CF5); attr_pending |= flag; }`. -/
def tok_cf (name : List Nat) (flag : Nat) (token : List Nat) (st : State) : State :=
  if token = name then
    { st with attr_pending := and_not st.attr_pending ATTR_CF_ALL ||| flag }
  else st

/-- The test on `qc`:
`if (strcmp(token, "qc") == 0) { attr_pending |= ATTR_QC; attr |= ATTR_QC; }`. -/
def tok_qc (token : List Nat) (st : State) : State :=
  if token = str "qc" then
    { st with attr_pending := st.attr_pending ||| ATTR_QC, attr := st.attr ||| ATTR_QC }
  else st

/-- The test on the font tokens other than `f1`:
`if (strncmp(token, "f", 1) == 0 && strcmp(token, "f1") != 0)
{ attr_pending |= ATTR_F; attr |= ATTR_F; }`. -/
def tok_f (token : List Nat) (st : State) : State :=
  if token.take 1 = str "f" ∧ token ≠ str "f1" then
    { st with attr_pending := st.attr_pending ||| ATTR_F, attr := st.attr ||| ATTR_F }
  else st

/-- The test on `f1`:
`if (strcmp(token, "f1") == 0) { attr_pending |= ATTR_F1; attr |= ATTR_F1; }`. -/
def tok_f1 (token : List Nat) (st : State) : State :=
  if token = str "f1" then
    { st with attr_pending := st.attr_pending ||| ATTR_F1, attr := st.attr ||| ATTR_F1 }
  else st

/-- The test on the `sa` tokens:
`if (strncmp(token, "sa", 2) == 0) { if (!margin) paragraph = 2; }`. -/
def tok_sa (token : List Nat) (st : State) : State :=
  if token.take 2 = str "sa" then
    if st.margin = 0 then { st with paragraph := 2 } else st
  else st

/-- The chain of `if`s that follows the reading of `token`, in the order of
the source. -/
def apply_token (token : List Nat) (st : State) : State :=
  let st := tok_par token st
  let st := tok_line token st
  let st := tok_set (str "b") ATTR_B token st
  let st := tok_clear (str "b0") ATTR_B token st
  let st := tok_set (str "i") ATTR_I token st
  let st := tok_clear (str "i0") ATTR_I token st
  let st := tok_cf (str "cf0") ATTR_CF0 token st
  let st := tok_cf (str "cf1") ATTR_CF1 token st
  let st := tok_cf (str "cf2") ATTR_CF2 token st
  let st := tok_cf (str "cf5") ATTR_CF5 token st
  let st := tok_set (str "super") ATTR_SUPER token st
  let st := tok_qc token st
  let st := tok_f token st
  let st := tok_f1 token st
  tok_sa token st

/-- Case `'\\'` of the switch; `st.rtf` points at the backslash. -/
def step_token (st : State) : State :=
  let r := read_token st.rtf.tail []
  let rtf := if peek r.2 = 32 then r.2.tail else r.2
  apply_token r.1 { st with rtf := rtf }

/-- Default case, first part: the workaround for the square bracket. -/
def char_bracket (c : Nat) (st : State) : State :=
  if c = 93 ∧ (st.attr &&& ATTR_F1) ≠ 0 ∧ (st.attr &&& ATTR_CF5) ≠ 0 then
    { st with attr_pending := and_not st.attr_pending ATTR_CF5 }
  else st

/-- Default case, second part: a pending paragraph break is materialised. -/
def char_paragraph (dict : ydpdict_priv_t) (c : Nat) (st : State) : State :=
  if ¬ isspace c ∧ st.paragraph ≠ 0 then
    let st := CLOSE_TAGS st
    let st := if st.margin ≠ 0 then
        { st with attr := and_not st.attr ATTR_SA, margin := 0 } else st
    let st := if st.paragraph = 2 then
        { APPEND st (if dict.xhtml_use_style ≠ 0 then str "<div class=\"example\">"
            else str "<br>") with margin := 1 }
      else APPEND st (str "<br><br>")
    { st with attr := 0, paragraph := 0 }
  else st

/-- A test `if ((attr_pending & flag) != 0) APPEND(tag);`. -/
def open_tag (flag : Nat) (tag : List Nat) (st : State) : State :=
  if (st.attr_pending &&& flag) ≠ 0 then APPEND st tag else st

/-- A test `if ((attr_pending & flag) != 0) APPEND_SPAN(class, color);`. -/
def open_span (dict : ydpdict_priv_t) (flag : Nat) (cls color : List Nat) (st : State) :
    State :=
  if (st.attr_pending &&& flag) ≠ 0 then APPEND_SPAN dict st cls color else st

/-- The test `if ((attr_pending & ATTR_SUPER) != 0 && (attr & ATTR_SUPER) == 0)
APPEND("<sup>");`. -/
def open_sup (st : State) : State :=
  if (st.attr_pending &&& ATTR_SUPER) ≠ 0 ∧ (st.attr &&& ATTR_SUPER) = 0 then
    APPEND st (str "<sup>")
  else st

/-- Default case, third part: the pending attributes are applied. -/
def char_attr (dict : ydpdict_priv_t) (c : Nat) (st : State) : State :=
  if ¬ isspace c ∧ st.attr ≠ st.attr_pending then
    let st := CLOSE_TAGS st
    let st := open_tag ATTR_B (str "<b>") st
    let st := open_tag ATTR_I (str "<i>") st
    let st := open_span dict ATTR_CF0 (str "cf0") (str "blue") st
    let st := open_span dict ATTR_CF1 (str "cf1") (str "green") st
    let st := open_span dict ATTR_CF2 (str "cf2") (str "red") st
    let st := open_span dict ATTR_CF5 (str "cf5") (str "magenta") st
    let st := open_sup st
    { st with attr := st.attr_pending }
  else st

/-- Default case, fourth part: what is appended for the content byte `c`
under applied attributes `attr`. -/
def char_text (encoding : ydpdict_encoding_t) (attr c : Nat) : List Nat :=
  (if (attr &&& ATTR_QC) = 0 ∧ encoding = YDPDICT_ENCODING_UTF8 then
    if (attr &&& ATTR_F1) ≠ 0 ∧ c > 127 ∧ c < 160 then
      ydpdict_phonetic_to_utf8_table.getD (c - 128) []
    else if ((attr &&& ATTR_F1) ≠ 0 ∧ c > 160) ∨ c > 127 then
      ydpdict_windows1250_to_utf8_table.getD (c - 128) []
    else if c = 127 then str "~"
    else if c = 38 then str "&amp;"
    else if c = 60 then str "&lt;"
    else if c = 62 then str "&gt;"
    else [c]
  else []) ++
  (if (attr &&& ATTR_QC) = 0 ∧ encoding = YDPDICT_ENCODING_WINDOWS1250 then
    if c = 127 then str "~" else [c]
  else [])

/-- Default case of the switch; `st.rtf` points at the content byte `c`. -/
def step_char (dict : ydpdict_priv_t) (c : Nat) (st : State) : State :=
  let st := char_bracket c st
  let st := char_paragraph dict c st
  let st := char_attr dict c st
  let st := APPEND st (char_text dict.encoding st.attr c)
  { st with rtf := st.rtf.tail }

/-- One iteration of the loop `while (*rtf != 0) { switch (*rtf) ... }`. -/
def step (dict : ydpdict_priv_t) (st : State) : State :=
  let c := peek st.rtf
  if c = 123 then step_open st
  else if c = 125 then step_close st
  else if c = 92 then step_token st
  else step_char dict c st

/-- The loop `while (*rtf != 0) { ... }`, at most `fuel` iterations: the
state when the loop is left, `none` when it is not left within `fuel`
iterations. -/
def xhtml_loop (dict : ydpdict_priv_t) : Nat → State → Option State
  | 0, _ => none
  | fuel + 1, st =>
    if peek st.rtf = 0 then some st else xhtml_loop dict fuel (step dict st)

/-- The document prologue appended when `xhtml_header` is set. -/
def xhtml_prologue (dict : ydpdict_priv_t) (st : State) : State :=
  if dict.xhtml_header ≠ 0 then
    let charset : Option (List Nat) :=
      match dict.encoding with
      | YDPDICT_ENCODING_UTF8 => some (str "utf-8")
      | YDPDICT_ENCODING_WINDOWS1250 => some (str "windows-1250")
    let st := APPEND st (str "<?xml version=\"1.0\"?>\n<!DOCTYPE html PUBLIC \"-//W3C//DTD XHTML 1.1//EN\" \"http://www.w3.org/TR/xhtml11/DTD/xhtml11.dtd\">\n<html xmlns=\"http://www.w3.org/1999/xhtml\"><head>")
    let st := APPEND st (str "<title>")
    let st := APPEND st (match dict.xhtml_title with | some t => t | none => [])
    let st := APPEND st (str "</title>")
    let st := match charset with
      | some cs =>
        APPEND (APPEND (APPEND st
          (str "<meta http-equiv=\"Content-type\" content=\"text/html; charset=")) cs)
          (str "\" />")
      | none => st
    let st := match dict.xhtml_style with
      | some s => APPEND (APPEND (APPEND st (str "<style>")) s) (str "</style>")
      | none => st
    APPEND st (str "</head><body>")
  else st

/-- Initial values of the local variables for the markup blob `rtf`. -/
def init_state (rtf : List Nat) : State :=
  { rtf := rtf, buf := [], attr := 0, attr_pending := 0,
    attr_stack := List.replicate STACK_SIZE none, level := 0, paragraph := 0,
    margin := 0, stack_fault := false }

/-- The part of `ydpdict_read_xhtml` that follows the reading of the markup
blob `rtf`: the text returned. The loop is given `rtf.length + 1`
iterations; every iteration but the one on an unmatched closing brace
consumes a byte, so `timeout` stands for a loop that never ends. The text
is the one built when every `ydpdict_append` succeeds; the `int` capacity of
the buffer is kept by `xhtml_prologue_int`. -/
def xhtml_of_rtf (dict : ydpdict_priv_t) (rtf : List Nat) : Res (List Nat) :=
  match xhtml_loop dict (rtf.length + 1) (xhtml_prologue dict (init_state rtf)) with
  | none => .timeout
  | some st =>
    let st := CLOSE_TAGS st
    let st := if dict.xhtml_header ≠ 0 then APPEND st (str "</body></html>") else st
    if st.stack_fault then .undefined .stack_bounds else .ok st.buf

/-- Read word definition in XHTML format: what `ydpdict_read_xhtml` returns,
and the calls it made on the data stream (those of `ydpdict_read_rtf`; the
conversion itself makes none). -/
def ydpdict_read_xhtml_io (pdict : Option ydpdict_priv_t) (de : Int) :
    Res (List Nat) × List dat_op :=
  match pdict with
  | none => (.failure, [])
  | some dict =>
    match ydpdict_read_rtf_io pdict de with
    | (.ok rtf, ops) => (xhtml_of_rtf dict rtf, ops)
    | (.failure, ops) => (.failure, ops)
    | (.undefined e, ops) => (.undefined e, ops)
    | (.timeout, ops) => (.timeout, ops)

/-- Read word definition in XHTML format: the value returned. -/
def ydpdict_read_xhtml (pdict : Option ydpdict_priv_t) (de : Int) : Res (List Nat) :=
  (ydpdict_read_xhtml_io pdict de).1

/-! ## String conversion helpers -/

/-- First loop of `ydpdict_windows1250_to_utf8`: the length `len` computed
for the result of the conversion of the C string `input`. -/
def windows1250_to_utf8_len : List Nat → Nat
  | [] => 0
  | c :: input =>
    if c = 0 then 0
    else
      (if c ≥ 128 then (ydpdict_windows1250_to_utf8_table.getD (c - 128) []).length else 1)
        + windows1250_to_utf8_len input

/-- Converts windows1250 string to UTF-8: the string built by the second
loop of `ydpdict_windows1250_to_utf8` from the C string `input`. -/
def ydpdict_windows1250_to_utf8 : List Nat → List Nat
  | [] => []
  | c :: input =>
    if c = 0 then []
    else
      (if c ≥ 128 then ydpdict_windows1250_to_utf8_table.getD (c - 128) [] else [c])
        ++ ydpdict_windows1250_to_utf8 input

/-- First loop of `ydpdict_windows1250_super_to_utf8`: the length `len`
computed for the result. -/
def windows1250_super_to_utf8_len : List Nat → Nat
  | [] => 0
  | c :: input =>
    if c = 0 then 0
    else
      (if c < 10 then (ydpdict_superscript_to_utf8_table.getD c []).length
        else if c ≥ 128 then (ydpdict_windows1250_to_utf8_table.getD (c - 128) []).length
        else 1)
        + windows1250_super_to_utf8_len input

/-- Converts windows1250 string with superscript codes to UTF-8: the string
built by the second loop of `ydpdict_windows1250_super_to_utf8` from the C
string `input`. -/
def ydpdict_windows1250_super_to_utf8 : List Nat → List Nat
  | [] => []
  | c :: input =>
    if c = 0 then []
    else
      (if c < 10 then ydpdict_superscript_to_utf8_table.getD c []
        else if c ≥ 128 then ydpdict_windows1250_to_utf8_table.getD (c - 128) []
        else [c])
        ++ ydpdict_windows1250_super_to_utf8 input

/-! ## Output buffer -/

/-- The C library `strlen`: the number of bytes before the first NUL (the
end of the list stands for the terminator). -/
def strlen : List Nat → Nat
  | [] => 0
  | c :: s => if c = 0 then 0 else strlen s + 1

/-- The loop `while (len1 + len2 > *len - 1) *len <<= 1;` of
`ydpdict_append`, with `need` for `len1 + len2` and exact integers, at most
`fuel` iterations. -/
def append_grow (need : Int) : Nat → Int → Option Int
  | 0, _ => none
  | fuel + 1, len =>
    if need > len - 1 then append_grow need fuel (len * 2) else some len

/-- The call `strcpy(*buf + len1, str)` into a buffer of `len` bytes that
holds the string `buf`. -/
def append_strcpy (buf : List Nat) (len : Int) (s : List Nat) : Res (List Nat × Int) :=
  if ((strlen buf + strlen s + 1 : Nat) : Int) ≤ len then
    .ok (buf.take (strlen buf) ++ s.take (strlen s), len)
  else .undefined .append_overflow

/-- Append text to a string: the string held by `*buf` and the capacity
`*len` after the call, `failure` for the return value -1. `realloc_ok`
tells whether `realloc` succeeds; integers are exact. The growth loop is
given `len1 + len2 + 2` iterations. -/
def ydpdict_append (realloc_ok : Bool) (buf : List Nat) (len : Int) (s : List Nat) :
    Res (List Nat × Int) :=
  let len1 := strlen buf
  let len2 := strlen s
  if ((len1 + len2 : Nat) : Int) > len - 1 then
    match append_grow ((len1 + len2 : Nat) : Int) (len1 + len2 + 2) len with
    | none => .timeout
    | some len =>
      if realloc_ok then append_strcpy buf len s else .failure
  else append_strcpy buf len s

/-- Largest value of `int` (32 bits). -/
def INT_MAX : Int := 2147483647

/-- The loop `while (len1 + len2 > *len - 1) *len <<= 1;` of
`ydpdict_append` on the `int` capacity `len`, with `need` for `len1 + len2`:
the capacity when the loop is left. The shift of a negative capacity, or
one whose double is above `INT_MAX`, is undefined. A capacity of at least 1
is doubled at most 31 times before that; the loop is given 33 iterations,
and `timeout` is returned for the capacity 0, which no shift changes. -/
def append_grow_int (need : Int) : Nat → Int → Res Int
  | 0, _ => .timeout
  | fuel + 1, len =>
    if need > len - 1 then
      if len < 0 ∨ len * 2 > INT_MAX then .undefined .int_overflow
      else append_grow_int need fuel (len * 2)
    else .ok len

/-- Append text to a string, with `len1`, `len2` and `*len` of type `int`:
the string held by `*buf` and the capacity `*len` after the call. The
lengths and their sum have to be within `int`; `realloc` is taken to
succeed. -/
def ydpdict_append_int (buf : List Nat) (len : Int) (s : List Nat) : Res (List Nat × Int) :=
  let len1 := strlen buf
  let len2 := strlen s
  if (len1 : Int) > INT_MAX ∨ (len2 : Int) > INT_MAX ∨ ((len1 + len2 : Nat) : Int) > INT_MAX then
    .undefined .int_overflow
  else if ((len1 + len2 : Nat) : Int) > len - 1 then
    match append_grow_int ((len1 + len2 : Nat) : Int) 33 len with
    | .ok len => append_strcpy buf len s
    | .failure => .failure
    | .undefined e => .undefined e
    | .timeout => .timeout
  else append_strcpy buf len s

/-- The macro `APPEND(x)` on the buffer and its capacity:
`if (ydpdict_append(&buf, &buf_len, x) == -1) goto failure;`, once an
earlier `APPEND` has left the function nothing more is done. -/
def APPEND_int (r : Res (List Nat × Int)) (x : List Nat) : Res (List Nat × Int) :=
  match r with
  | .ok (buf, len) => ydpdict_append_int buf len x
  | .failure => .failure
  | .undefined e => .undefined e
  | .timeout => .timeout

/-- The start of `ydpdict_read_xhtml` after the blob is read, with the
capacity of the output buffer: `buf_len = 256; buf = malloc(buf_len);
buf[0] = 0;` and the document prologue appended when `xhtml_header` is set.
The result is the buffer and its capacity when the loop over the blob is
entered. -/
def xhtml_prologue_int (dict : ydpdict_priv_t) : Res (List Nat × Int) :=
  let r : Res (List Nat × Int) := .ok ([], 256)
  if dict.xhtml_header ≠ 0 then
    let charset : Option (List Nat) :=
      match dict.encoding with
      | .YDPDICT_ENCODING_UTF8 => some (str "utf-8")
      | .YDPDICT_ENCODING_WINDOWS1250 => some (str "windows-1250")
    let r := APPEND_int r (str "<?xml version=\"1.0\"?>\n<!DOCTYPE html PUBLIC \"-//W3C//DTD XHTML 1.1//EN\" \"http://www.w3.org/TR/xhtml11/DTD/xhtml11.dtd\">\n<html xmlns=\"http://www.w3.org/1999/xhtml\"><head>")
    let r := APPEND_int r (str "<title>")
    let r := APPEND_int r (match dict.xhtml_title with | some t => t | none => [])
    let r := APPEND_int r (str "</title>")
    let r := match charset with
      | some cs =>
        APPEND_int (APPEND_int (APPEND_int r
          (str "<meta http-equiv=\"Content-type\" content=\"text/html; charset=")) cs)
          (str "\" />")
      | none => r
    let r := match dict.xhtml_style with
      | some s => APPEND_int (APPEND_int (APPEND_int r (str "<style>")) s) (str "</style>")
      | none => r
    APPEND_int r (str "</head><body>")
  else r

/-! ## Word search -/

/-- The C library `tolower` in the "C" locale. -/
def tolower (c : Nat) : Nat := if 65 ≤ c ∧ c ≤ 90 then c + 32 else c

/-- The C library `strncasecmp(s1, s2, n)` in the "C" locale: the
difference of the first two bytes that differ once lowered, among the first
`n` bytes and up to the first NUL of `s1`; 0 when there are none. -/
def strncasecmp : List Nat → List Nat → Nat → Int
  | _, _, 0 => 0
  | s1, s2, n + 1 =>
    if tolower (peek s1) ≠ tolower (peek s2) then
      (tolower (peek s1) : Int) - (tolower (peek s2) : Int)
    else if peek s1 = 0 then 0
    else strncasecmp s1.tail s2.tail n

/-- The loop `for (; i < dict->count; i++)` of `ydpdict_find_word`, at most
`fuel` iterations, and the `return -1` that follows it. -/
def find_word_loop (dict : ydpdict_priv_t) (word : List Nat) : Nat → Nat → Res Int
  | 0, _ => .timeout
  | fuel + 1, i =>
    if (i : Int) < dict.count then
      if i < dict.words.length then
        match (dict.words.getD i ⟨none, 0⟩).word with
        | none => .undefined .null_word
        | some w =>
          if strncasecmp w word (strlen word) = 0 then .ok (i : Int)
          else find_word_loop dict word fuel (i + 1)
      else .undefined (.words_bounds i)
    else .ok (-1)

/-- Find specified word's index in dictionary: the definition index, -1 on
error. The loop is given `count + 1` iterations. -/
def ydpdict_find_word (pdict : Option ydpdict_priv_t) (word : List Nat) : Res Int :=
  match pdict with
  | none => .ok (-1)
  | some dict => find_word_loop dict word (dict.count.toNat + 1) 0

/-! ## Definitions used to state the properties -/

/-- A handle with the given output encoding and style usage flag, header
output disabled, no title and no custom style, and an empty word table. -/
def plain_dict (encoding : ydpdict_encoding_t) (use_style : Bool) : ydpdict_priv_t :=
  { dat := [], idx := [], count := 0, words := [], encoding := encoding,
    xhtml_header := 0, xhtml_title := none, xhtml_style := none,
    xhtml_use_style := if use_style then 1 else 0 }

/-- Number of positions of `s` at which `pat` occurs. -/
def occurrences (pat : List Nat) : List Nat → Nat
  | [] => 0
  | c :: s => (if pat.isPrefixOf (c :: s) then 1 else 0) + occurrences pat s

/-- The tags the interpreter generates in the body of the document. -/
def xhtml_tags : List (List Nat) :=
  [str "<b>", str "</b>", str "<i>", str "</i>", str "<sup>", str "</sup>",
   str "</font>", str "<br>", str "<div class=\"example\">",
   str "<font class=\"cf0\">", str "<font class=\"cf1\">",
   str "<font class=\"cf2\">", str "<font class=\"cf5\">",
   str "<font color=\"blue\">", str "<font color=\"green\">",
   str "<font color=\"red\">", str "<font color=\"magenta\">"]

/-- A text made of generated tags and of bytes other than `<` (60) and
`>` (62): every `<` and `>` in it belongs to a generated tag. -/
inductive TagsAndText : List Nat → Prop
  | nil : TagsAndText []
  | tag {t rest : List Nat} : t ∈ xhtml_tags → TagsAndText rest → TagsAndText (t ++ rest)
  | byte {c : Nat} {rest : List Nat} : c ≠ 60 → c ≠ 62 → TagsAndText rest →
      TagsAndText (c :: rest)

/-- The state `st2` has the output of `st1` followed by generated tags and
bytes other than `<` and `>`. -/
def AppendsTags (st1 st2 : State) : Prop :=
  ∃ t, st2.buf = st1.buf ++ t ∧ TagsAndText t

/-- The XHTML entity of the byte `&` (38), `<` (60) or `>` (62). -/
def xhtml_entity (c : Nat) : List Nat :=
  if c = 38 then str "&amp;" else if c = 60 then str "&lt;" else str "&gt;"

/-- The four bytes of a 32-bit value in little-endian order. -/
def le32_bytes (n : Nat) : List Nat :=
  [n % 256, n / 256 % 256, n / 65536 % 256, n / 16777216 % 256]

/-- The two bytes of a 16-bit value in little-endian order. -/
def le16_bytes (n : Nat) : List Nat := [n % 256, n / 256 % 256]

/-- An entry of the index table: the reserved bytes, the definition offset
and the word as stored on disk. -/
structure index_entry where
  /-- The four reserved bytes. -/
  reserved : List Nat
  /-- Offset of the definition in the data file. -/
  offset : Nat
  /-- The word on disk, without its terminating NUL. -/
  word : List Nat
  deriving DecidableEq, Repr

/-- The bytes of an index table entry: 4 reserved bytes, the 4-byte
little-endian offset, the word and its terminating NUL. -/
def encode_entry (e : index_entry) : List Nat :=
  e.reserved ++ (le32_bytes e.offset ++ (e.word ++ [0]))

/-- The bytes of an index table. -/
def encode_table : List index_entry → List Nat
  | [] => []
  | e :: es => encode_entry e ++ encode_table es

/-- An index file that encodes the entries `es`: magic at byte 0, the bytes
`gap1` (4 of them), the 16-bit count at byte 8, the bytes `gap2` (6 of them),
the table offset at byte 16, the bytes `gap3` up to the table, the table,
and whatever follows it. -/
def encode_index (gap1 gap2 gap3 rest : List Nat) (es : List index_entry) : List Nat :=
  le32_bytes YDPDICT_IDX_MAGIC ++ (gap1 ++ (le16_bytes es.length ++ (gap2 ++
    (le32_bytes (20 + gap3.length) ++ (gap3 ++ (encode_table es ++ rest))))))

/-- The word buffer in which exactly the bytes `pre` were stored, from
index 0 on. -/
def buf_of (pre : List Nat) : List (Option Nat) :=
  pre.map some ++ List.replicate (BUF_SIZE - pre.length) none

/-- The decoding of an on-disk word in the words of the specification: the
concatenation, byte by byte, of the byte itself when it is below 128 and of
the windows-1250 table entry for it when it is 128 or above. -/
def decode_word_spec (w : List Nat) : List Nat :=
  (w.map (fun c =>
    if c < 128 then [c] else ydpdict_windows1250_to_utf8_table.getD (c - 128) [])).flatten

/-- The query `q` is a case-insensitive prefix of the word `w`: the first
`strlen(q)` bytes of `w` are there and equal those of `q` once ASCII upper
case letters are lowered. -/
def ci_prefix (q w : List Nat) : Prop :=
  (w.take q.length).map tolower = q.map tolower

/-- The states `st1` and `st2` have the same attribute stack, the same depth
and the same fault flag. -/
def same_stack (st1 st2 : State) : Prop :=
  st2.attr_stack = st1.attr_stack ∧ st2.level = st1.level ∧
  st2.stack_fault = st1.stack_fault

/-- The attribute stack is sound: the depth is within 0..16, no access
outside the array or to an unwritten cell has happened, the cells below the
depth were written, and no cell from index 16 on was ever written. -/
def stack_inv (st : State) : Prop :=
  0 ≤ st.level ∧ st.level ≤ 16 ∧ st.stack_fault = false ∧
  st.attr_stack.length = STACK_SIZE ∧
  (∀ i : Nat, (i : Int) < st.level → st.attr_stack.getD i none ≠ none) ∧
  (∀ i : Nat, 16 ≤ i → st.attr_stack.getD i none = none)

/-- The number of bytes the word loop of `ydpdict_open` stores for the
on-disk word `w`: its length in windows-1250 mode, the length of its decoded
form in UTF-8 mode. -/
def stored_length (encoding : ydpdict_encoding_t) (w : List Nat) : Nat :=
  match encoding with
  | YDPDICT_ENCODING_WINDOWS1250 => w.length
  | YDPDICT_ENCODING_UTF8 => (decode_word_spec w).length

/-- The document prologue in the words of the specification: the XML
declaration, the DOCTYPE and the opening of `html` and `head`, the `title`
element with the configured title (empty when none is set), the `meta`
element with the charset of the output encoding, the `style` element when a
style is set, and `</head><body>`. -/
def prologue_spec (dict : ydpdict_priv_t) : List Nat :=
  str "<?xml version=\"1.0\"?>\n<!DOCTYPE html PUBLIC \"-//W3C//DTD XHTML 1.1//EN\" \"http://www.w3.org/TR/xhtml11/DTD/xhtml11.dtd\">\n<html xmlns=\"http://www.w3.org/1999/xhtml\"><head>"
  ++ (str "<title>" ++ dict.xhtml_title.getD [] ++ str "</title>")
  ++ (str "<meta http-equiv=\"Content-type\" content=\"text/html; charset="
      ++ (match dict.encoding with
          | .YDPDICT_ENCODING_UTF8 => str "utf-8"
          | .YDPDICT_ENCODING_WINDOWS1250 => str "windows-1250")
      ++ str "\" />")
  ++ (match dict.xhtml_style with
      | some s => str "<style>" ++ s ++ str "</style>"
      | none => [])
  ++ str "</head><body>"

/-- The state `st` with the text `p` put in front of its output. -/
def prepend_buf (p : List Nat) (st : State) : State :=
  { st with buf := p ++ st.buf }

/-- The value returned with the document wrapper, from the value returned
without it: a returned text is put between the prologue and
`</body></html>`, any other outcome is kept. -/
def wrap_document (dict : ydpdict_priv_t) : Res (List Nat) → Res (List Nat)
  | .ok body => .ok (prologue_spec dict ++ body ++ str "</body></html>")
  | r => r

/-- The colour flags that are set in the attribute set `a`, in the order
cf0, cf1, cf2, cf5. -/
def colour_flags (a : Nat) : List Nat :=
  (if a &&& ATTR_CF0 ≠ 0 then [ATTR_CF0] else []) ++
  ((if a &&& ATTR_CF1 ≠ 0 then [ATTR_CF1] else []) ++
  ((if a &&& ATTR_CF2 ≠ 0 then [ATTR_CF2] else []) ++
  (if a &&& ATTR_CF5 ≠ 0 then [ATTR_CF5] else [])))

/-- The attribute set `a` contains at most one of the four colour flags. -/
def one_colour (a : Nat) : Prop := (colour_flags a).length ≤ 1

/-- The colour part of the attribute set `a`: `a & (ATTR_CF0 | ATTR_CF1 |
ATTR_CF2 | ATTR_CF5)`. -/
def colour_bits (a : Nat) : Nat := a &&& ATTR_CF_ALL

/-- The colour part of `a` is empty or is a single colour flag. -/
def colour_ok (a : Nat) : Prop :=
  colour_bits a = 0 ∨ colour_bits a = ATTR_CF0 ∨ colour_bits a = ATTR_CF1 ∨
  colour_bits a = ATTR_CF2 ∨ colour_bits a = ATTR_CF5

/-- The applied set, the pending set and every saved set of the state have
a colour part that is empty or a single colour flag. -/
def colour_inv (st : State) : Prop :=
  colour_ok st.attr ∧ colour_ok st.attr_pending ∧
  ∀ v : Nat, some v ∈ st.attr_stack → colour_ok v

/-- The colour tokens and the flag of each. -/
def colour_tokens : List (List Nat × Nat) :=
  [(str "cf0", ATTR_CF0), (str "cf1", ATTR_CF1), (str "cf2", ATTR_CF2), (str "cf5", ATTR_CF5)]

/-- A state in which a paragraph break is pending and the next byte is a
space: the one reached on the blob `a\par  b` after the token `par`. -/
def break_pending_state : State :=
  { init_state (str " b") with buf := str "a", paragraph := 1 }

/-- The strings that `ydpdict_read_xhtml` appends for the document
prologue, in the order of the calls. -/
def prologue_pieces (dict : ydpdict_priv_t) : List (List Nat) :=
  [str "<?xml version=\"1.0\"?>\n<!DOCTYPE html PUBLIC \"-//W3C//DTD XHTML 1.1//EN\" \"http://www.w3.org/TR/xhtml11/DTD/xhtml11.dtd\">\n<html xmlns=\"http://www.w3.org/1999/xhtml\"><head>",
   str "<title>", dict.xhtml_title.getD [], str "</title>",
   str "<meta http-equiv=\"Content-type\" content=\"text/html; charset=",
   (match dict.encoding with
    | .YDPDICT_ENCODING_UTF8 => str "utf-8"
    | .YDPDICT_ENCODING_WINDOWS1250 => str "windows-1250"),
   str "\" />"] ++
  ((match dict.xhtml_style with
    | some s => [str "<style>", s, str "</style>"]
    | none => []) ++
  [str "</head><body>"])

/-! ## Properties of the markup interpreter -/

theorem APPEND_SPAN_plain (dict : ydpdict_priv_t) (st : State) (cls color : List Nat) :
    APPEND_SPAN dict st cls color
      = APPEND_SPAN (plain_dict dict.encoding (decide (dict.xhtml_use_style ≠ 0))) st cls color := by
  by_cases h : dict.xhtml_use_style = 0 <;> simp [APPEND_SPAN, plain_dict, h]

theorem step_plain (dict : ydpdict_priv_t) (st : State) :
    step dict st = step (plain_dict dict.encoding (decide (dict.xhtml_use_style ≠ 0))) st := by
  have hspan : ∀ flag cls color s, open_span dict flag cls color s
      = open_span (plain_dict dict.encoding (decide (dict.xhtml_use_style ≠ 0))) flag cls color s := by
    intro flag cls color s
    unfold open_span
    rw [← APPEND_SPAN_plain]
  have hattr : ∀ c s, char_attr dict c s
      = char_attr (plain_dict dict.encoding (decide (dict.xhtml_use_style ≠ 0))) c s := by
    intro c s
    unfold char_attr
    simp only [hspan]
  have hpar : ∀ c s, char_paragraph dict c s
      = char_paragraph (plain_dict dict.encoding (decide (dict.xhtml_use_style ≠ 0))) c s := by
    intro c s
    unfold char_paragraph
    by_cases h : dict.xhtml_use_style = 0 <;> simp [plain_dict, h]
  unfold step step_char
  simp only [hattr, hpar]
  rfl

theorem xhtml_loop_plain (dict : ydpdict_priv_t) (fuel : Nat) (st : State) :
    xhtml_loop dict fuel st
      = xhtml_loop (plain_dict dict.encoding (decide (dict.xhtml_use_style ≠ 0))) fuel st := by
  induction fuel generalizing st with
  | zero => rfl
  | succ n ih =>
    unfold xhtml_loop
    rw [ih, ← step_plain]

/-- With header output disabled, the text produced depends on the handle
only through its output encoding and on whether its style usage flag is
set. -/
theorem xhtml_of_rtf_plain (dict : ydpdict_priv_t) (h : dict.xhtml_header = 0)
    (rtf : List Nat) :
    xhtml_of_rtf dict rtf
      = xhtml_of_rtf (plain_dict dict.encoding (decide (dict.xhtml_use_style ≠ 0))) rtf := by
  unfold xhtml_of_rtf
  rw [xhtml_loop_plain]
  simp [xhtml_prologue, h, plain_dict]

/-- C2: with the document wrapper disabled, the markup blob `{\b bold\b0}`
is converted to exactly `<b>bold</b>`, whatever the output encoding and the
other options of the handle. -/
theorem C2_bold_blob (dict : ydpdict_priv_t) (h : dict.xhtml_header = 0) :
    xhtml_of_rtf dict (str "\x7b\\b bold\\b0\x7d") = .ok (str "<b>bold</b>") := by
  rw [xhtml_of_rtf_plain dict h]
  cases dict.encoding <;> cases decide (dict.xhtml_use_style ≠ 0) <;> decide

theorem C2_bold_blob_witness :
    xhtml_of_rtf (plain_dict .YDPDICT_ENCODING_UTF8 false) (str "\x7b\\b bold\\b0\x7d")
      = .ok (str "<b>bold</b>") :=
  C2_bold_blob (plain_dict .YDPDICT_ENCODING_UTF8 false) (by decide)

/-- C5: the blob made of the single content byte 0x80 is converted, with the
wrapper disabled, to the byte 0x80 itself in windows-1250 output mode and to
the three bytes E2 82 AC (the euro sign in UTF-8) in UTF-8 output mode,
whatever the other options of the handle. -/
theorem C5_byte_0x80 (dict : ydpdict_priv_t) (h : dict.xhtml_header = 0) :
    xhtml_of_rtf { dict with encoding := .YDPDICT_ENCODING_WINDOWS1250 } [0x80]
      = .ok [0x80] ∧
    xhtml_of_rtf { dict with encoding := .YDPDICT_ENCODING_UTF8 } [0x80]
      = .ok [0xE2, 0x82, 0xAC] := by
  rw [xhtml_of_rtf_plain { dict with encoding := .YDPDICT_ENCODING_WINDOWS1250 } h,
    xhtml_of_rtf_plain { dict with encoding := .YDPDICT_ENCODING_UTF8 } h]
  dsimp only
  constructor <;> cases decide (dict.xhtml_use_style ≠ 0) <;> decide

theorem C5_byte_0x80_witness :
    xhtml_of_rtf { plain_dict .YDPDICT_ENCODING_UTF8 true with
        encoding := .YDPDICT_ENCODING_WINDOWS1250 } [0x80] = .ok [0x80] ∧
    xhtml_of_rtf { plain_dict .YDPDICT_ENCODING_UTF8 true with
        encoding := .YDPDICT_ENCODING_UTF8 } [0x80] = .ok [0xE2, 0x82, 0xAC] :=
  C5_byte_0x80 (plain_dict .YDPDICT_ENCODING_UTF8 true) (by decide)

/-- C1 (the code departs from it): with the wrapper disabled, in UTF-8 output
mode as in windows-1250 output mode, the blob `\super x\b y` is converted to
`<sup>x</sup><b>y</sup></b>`, which holds one `<sup>` and two `</sup>`: the
second `</sup>` closes a tag that is not open. -/
theorem C1_super_unbalanced (dict : ydpdict_priv_t) (h : dict.xhtml_header = 0) :
    xhtml_of_rtf dict (str "\\super x\\b y") = .ok (str "<sup>x</sup><b>y</sup></b>") ∧
    occurrences (str "<sup>") (str "<sup>x</sup><b>y</sup></b>") = 1 ∧
    occurrences (str "</sup>") (str "<sup>x</sup><b>y</sup></b>") = 2 := by
  rw [xhtml_of_rtf_plain dict h]
  refine ⟨?_, by decide, by decide⟩
  cases dict.encoding <;> cases decide (dict.xhtml_use_style ≠ 0) <;> decide

theorem C1_super_unbalanced_witness :
    xhtml_of_rtf (plain_dict .YDPDICT_ENCODING_UTF8 false) (str "\\super x\\b y")
      = .ok (str "<sup>x</sup><b>y</sup></b>") ∧
    occurrences (str "<sup>") (str "<sup>x</sup><b>y</sup></b>") = 1 ∧
    occurrences (str "</sup>") (str "<sup>x</sup><b>y</sup></b>") = 2 :=
  C1_super_unbalanced (plain_dict .YDPDICT_ENCODING_UTF8 false) (by decide)

/-- C4 as stated fails: after a `qc` token the content byte `x` is not
copied to the output, in either output encoding; the output is empty. -/
theorem C4_counterexample :
    xhtml_of_rtf (plain_dict .YDPDICT_ENCODING_UTF8 false) (str "\\qc x") = .ok [] ∧
    xhtml_of_rtf (plain_dict .YDPDICT_ENCODING_WINDOWS1250 false) (str "\\qc x") = .ok [] ∧
    char_text .YDPDICT_ENCODING_UTF8 ATTR_QC 120 ≠ [120] ∧
    char_text .YDPDICT_ENCODING_WINDOWS1250 ATTR_QC 120 ≠ [120] := by
  decide

theorem char_text_comment (encoding : ydpdict_encoding_t) (attr c : Nat)
    (hqc : (attr &&& ATTR_QC) ≠ 0) : char_text encoding attr c = [] := by
  simp [char_text, hqc]

/-- C4 (amended): while the comment flag is in the applied attribute set, a
content byte appends no text to the output, in both output encodings: the
byte is dropped. The step that reads it leaves the output as the tag changes
of that step made it, and leaves it unchanged when no paragraph break and no
attribute change is pending. -/
theorem C4_comment_bytes_dropped (dict : ydpdict_priv_t) (st : State) (c : Nat)
    (hc : peek st.rtf = c) (h1 : c ≠ 123) (h2 : c ≠ 125) (h3 : c ≠ 92)
    (hqc : ((char_attr dict c (char_paragraph dict c (char_bracket c st))).attr
      &&& ATTR_QC) ≠ 0) :
    char_text dict.encoding
        (char_attr dict c (char_paragraph dict c (char_bracket c st))).attr c = [] ∧
    (step dict st).buf = (char_attr dict c (char_paragraph dict c (char_bracket c st))).buf ∧
    (st.paragraph = 0 → st.attr = st.attr_pending → c ≠ 93 → (step dict st).buf = st.buf) := by
  have htext := char_text_comment dict.encoding _ c hqc
  have hstep : (step dict st).buf
      = (char_attr dict c (char_paragraph dict c (char_bracket c st))).buf := by
    simp [step, hc, h1, h2, h3, step_char, APPEND, htext]
  refine ⟨htext, hstep, ?_⟩
  intro hp ha hb
  rw [hstep]
  simp [char_bracket, hb, char_paragraph, hp, char_attr, ha]

theorem C4_comment_bytes_dropped_witness :
    char_text YDPDICT_ENCODING_UTF8
        (char_attr (plain_dict .YDPDICT_ENCODING_UTF8 false) 120
          (char_paragraph (plain_dict .YDPDICT_ENCODING_UTF8 false) 120
            (char_bracket 120
              { init_state [120] with attr := ATTR_QC, attr_pending := ATTR_QC }))).attr 120
      = [] ∧
    (step (plain_dict .YDPDICT_ENCODING_UTF8 false)
        { init_state [120] with attr := ATTR_QC, attr_pending := ATTR_QC }).buf
      = (char_attr (plain_dict .YDPDICT_ENCODING_UTF8 false) 120
          (char_paragraph (plain_dict .YDPDICT_ENCODING_UTF8 false) 120
            (char_bracket 120
              { init_state [120] with attr := ATTR_QC, attr_pending := ATTR_QC }))).buf ∧
    ((0 : Int) = 0 → ATTR_QC = ATTR_QC → 120 ≠ 93 →
      (step (plain_dict .YDPDICT_ENCODING_UTF8 false)
        { init_state [120] with attr := ATTR_QC, attr_pending := ATTR_QC }).buf = []) :=
  C4_comment_bytes_dropped (plain_dict .YDPDICT_ENCODING_UTF8 false)
    { init_state [120] with attr := ATTR_QC, attr_pending := ATTR_QC } 120
    (by decide) (by decide) (by decide) (by decide) (by decide)

theorem TagsAndText.append {a b : List Nat} (ha : TagsAndText a) (hb : TagsAndText b) :
    TagsAndText (a ++ b) := by
  induction ha with
  | nil => simpa using hb
  | tag ht _ ih => rw [List.append_assoc]; exact TagsAndText.tag ht ih
  | byte h1 h2 _ ih => exact TagsAndText.byte h1 h2 ih

theorem TagsAndText.of_tag {t : List Nat} (ht : t ∈ xhtml_tags) : TagsAndText t := by
  have := TagsAndText.tag ht TagsAndText.nil
  simpa using this

theorem TagsAndText.of_text {s : List Nat} (hs : ∀ c ∈ s, c ≠ 60 ∧ c ≠ 62) :
    TagsAndText s := by
  induction s with
  | nil => exact TagsAndText.nil
  | cons c s ih =>
    exact TagsAndText.byte (hs c (by simp)).1 (hs c (by simp)).2
      (ih (fun d hd => hs d (by simp [hd])))

theorem AppendsTags.refl (st : State) : AppendsTags st st :=
  ⟨[], by simp, TagsAndText.nil⟩

theorem AppendsTags.trans {s1 s2 s3 : State} (h12 : AppendsTags s1 s2)
    (h23 : AppendsTags s2 s3) : AppendsTags s1 s3 := by
  obtain ⟨t1, e1, p1⟩ := h12
  obtain ⟨t2, e2, p2⟩ := h23
  exact ⟨t1 ++ t2, by rw [e2, e1, List.append_assoc], p1.append p2⟩

theorem AppendsTags.of_buf_eq {s1 s2 : State} (h : s2.buf = s1.buf) : AppendsTags s1 s2 :=
  ⟨[], by simp [h], TagsAndText.nil⟩

theorem AppendsTags.APPEND (st : State) {x : List Nat} (hx : TagsAndText x) :
    AppendsTags st (APPEND st x) :=
  ⟨x, rfl, hx⟩

theorem close_tag_tags (mask : Nat) {tag : List Nat} (ht : tag ∈ xhtml_tags) (st : State) :
    AppendsTags st (close_tag mask tag st) := by
  unfold close_tag
  split
  · exact AppendsTags.APPEND st (TagsAndText.of_tag ht)
  · exact AppendsTags.refl st

theorem CLOSE_TAGS_tags (st : State) : AppendsTags st (CLOSE_TAGS st) := by
  unfold CLOSE_TAGS
  exact (((close_tag_tags _ (by decide) _).trans (close_tag_tags _ (by decide) _)).trans
    (close_tag_tags _ (by decide) _)).trans (close_tag_tags _ (by decide) _)

theorem open_tag_tags (flag : Nat) {tag : List Nat} (ht : tag ∈ xhtml_tags) (st : State) :
    AppendsTags st (open_tag flag tag st) := by
  unfold open_tag
  split
  · exact AppendsTags.APPEND st (TagsAndText.of_tag ht)
  · exact AppendsTags.refl st

theorem open_span_tags (dict : ydpdict_priv_t) (flag : Nat) {cls color : List Nat}
    (h1 : str "<font class=\"" ++ cls ++ str "\">" ∈ xhtml_tags)
    (h2 : str "<font color=\"" ++ color ++ str "\">" ∈ xhtml_tags) (st : State) :
    AppendsTags st (open_span dict flag cls color st) := by
  unfold open_span APPEND_SPAN
  split
  · split
    · exact ⟨str "<font class=\"" ++ cls ++ str "\">",
        by simp only [APPEND, List.append_assoc], TagsAndText.of_tag h1⟩
    · exact ⟨str "<font color=\"" ++ color ++ str "\">",
        by simp only [APPEND, List.append_assoc], TagsAndText.of_tag h2⟩
  · exact AppendsTags.refl st

theorem open_sup_tags (st : State) : AppendsTags st (open_sup st) := by
  unfold open_sup
  split
  · exact AppendsTags.APPEND st (TagsAndText.of_tag (by decide))
  · exact AppendsTags.refl st

theorem char_bracket_buf (c : Nat) (st : State) : (char_bracket c st).buf = st.buf := by
  unfold char_bracket
  split <;> rfl

theorem char_paragraph_tags (dict : ydpdict_priv_t) (c : Nat) (st : State) :
    AppendsTags st (char_paragraph dict c st) := by
  unfold char_paragraph
  split
  · refine (CLOSE_TAGS_tags st).trans ?_
    have hbr2 : TagsAndText (str "<br><br>") :=
      (TagsAndText.of_tag (t := str "<br>") (by decide)).append
        (TagsAndText.of_tag (t := str "<br>") (by decide))
    have hdiv : TagsAndText (if dict.xhtml_use_style ≠ 0 then str "<div class=\"example\">"
        else str "<br>") := by
      split <;> exact TagsAndText.of_tag (by decide)
    dsimp only
    split <;> split <;>
      first
        | exact ⟨_, rfl, hdiv⟩
        | exact ⟨_, rfl, hbr2⟩
  · exact AppendsTags.refl st

theorem char_attr_tags (dict : ydpdict_priv_t) (c : Nat) (st : State) :
    AppendsTags st (char_attr dict c st) := by
  unfold char_attr
  split
  · have h : AppendsTags st (open_sup (open_span dict ATTR_CF5 (str "cf5") (str "magenta")
        (open_span dict ATTR_CF2 (str "cf2") (str "red")
        (open_span dict ATTR_CF1 (str "cf1") (str "green")
        (open_span dict ATTR_CF0 (str "cf0") (str "blue")
        (open_tag ATTR_I (str "<i>") (open_tag ATTR_B (str "<b>") (CLOSE_TAGS st)))))))) :=
      (((((((CLOSE_TAGS_tags st).trans (open_tag_tags _ (by decide) _)).trans
        (open_tag_tags _ (by decide) _)).trans
        (open_span_tags dict _ (by decide) (by decide) _)).trans
        (open_span_tags dict _ (by decide) (by decide) _)).trans
        (open_span_tags dict _ (by decide) (by decide) _)).trans
        (open_span_tags dict _ (by decide) (by decide) _)).trans (open_sup_tags _)
    exact h.trans (AppendsTags.of_buf_eq rfl)
  · exact AppendsTags.refl st

set_option maxRecDepth 100000 in
theorem windows1250_table_no_angle :
    ∀ e ∈ ydpdict_windows1250_to_utf8_table, ∀ c ∈ e, c ≠ 60 ∧ c ≠ 62 := by
  decide

theorem phonetic_table_no_angle :
    ∀ e ∈ ydpdict_phonetic_to_utf8_table, ∀ c ∈ e, c ≠ 60 ∧ c ≠ 62 := by
  decide

theorem getD_no_angle (tbl : List (List Nat)) (h : ∀ e ∈ tbl, ∀ c ∈ e, c ≠ 60 ∧ c ≠ 62)
    (i : Nat) : ∀ c ∈ tbl.getD i [], c ≠ 60 ∧ c ≠ 62 := by
  by_cases hi : i < tbl.length
  · rw [List.getD_eq_getElem _ _ hi]
    exact h _ (List.getElem_mem hi)
  · rw [List.getD_eq_default _ _ (by omega)]
    simp

theorem char_text_utf8_no_angle (attr c : Nat) :
    ∀ d ∈ char_text .YDPDICT_ENCODING_UTF8 attr c, d ≠ 60 ∧ d ≠ 62 := by
  unfold char_text
  simp only [reduceCtorEq, and_false, if_false, List.append_nil, and_true]
  split
  · split
    · exact getD_no_angle _ phonetic_table_no_angle _
    · split
      · exact getD_no_angle _ windows1250_table_no_angle _
      · split
        · decide
        · split
          · decide
          · split
            · decide
            · split
              · decide
              · intro d hd
                simp only [List.mem_singleton] at hd
                subst hd
                constructor <;> assumption
  · simp

theorem tok_par_buf (token : List Nat) (st : State) : (tok_par token st).buf = st.buf := by
  unfold tok_par
  split
  · split <;> rfl
  · rfl

theorem tok_line_tags (token : List Nat) (st : State) :
    AppendsTags st (tok_line token st) := by
  unfold tok_line
  split
  · exact AppendsTags.APPEND st (TagsAndText.of_tag (by decide))
  · exact AppendsTags.refl st

theorem tok_set_buf (name : List Nat) (flag : Nat) (token : List Nat) (st : State) :
    (tok_set name flag token st).buf = st.buf := by
  unfold tok_set
  split <;> rfl

theorem tok_clear_buf (name : List Nat) (flag : Nat) (token : List Nat) (st : State) :
    (tok_clear name flag token st).buf = st.buf := by
  unfold tok_clear
  split <;> rfl

theorem tok_cf_buf (name : List Nat) (flag : Nat) (token : List Nat) (st : State) :
    (tok_cf name flag token st).buf = st.buf := by
  unfold tok_cf
  split <;> rfl

theorem tok_qc_buf (token : List Nat) (st : State) : (tok_qc token st).buf = st.buf := by
  unfold tok_qc
  split <;> rfl

theorem tok_f_buf (token : List Nat) (st : State) : (tok_f token st).buf = st.buf := by
  unfold tok_f
  split <;> rfl

theorem tok_f1_buf (token : List Nat) (st : State) : (tok_f1 token st).buf = st.buf := by
  unfold tok_f1
  split <;> rfl

theorem tok_sa_buf (token : List Nat) (st : State) : (tok_sa token st).buf = st.buf := by
  unfold tok_sa
  split
  · split <;> rfl
  · rfl

theorem apply_token_tags (token : List Nat) (st : State) :
    AppendsTags st (apply_token token st) := by
  unfold apply_token
  refine (AppendsTags.of_buf_eq (tok_par_buf token st)).trans ?_
  refine (tok_line_tags token _).trans ?_
  refine AppendsTags.of_buf_eq ?_
  simp only [tok_sa_buf, tok_f1_buf, tok_f_buf, tok_qc_buf, tok_set_buf, tok_cf_buf,
    tok_clear_buf]

theorem step_open_buf (st : State) : (step_open st).buf = st.buf := by
  simp only [step_open, stack_store, stack_load]
  split_ifs <;> rfl

theorem step_close_tags (st : State) : AppendsTags st (step_close st) := by
  simp only [step_close, stack_load]
  split_ifs
  all_goals first
    | exact AppendsTags.refl st
    | exact (CLOSE_TAGS_tags st).trans (AppendsTags.of_buf_eq rfl)

theorem step_token_tags (st : State) : AppendsTags st (step_token st) := by
  unfold step_token
  exact (AppendsTags.of_buf_eq rfl).trans (apply_token_tags _ _)

theorem step_char_tags (dict : ydpdict_priv_t)
    (henc : dict.encoding = .YDPDICT_ENCODING_UTF8) (c : Nat) (st : State) :
    AppendsTags st (step_char dict c st) := by
  unfold step_char
  refine (AppendsTags.of_buf_eq (char_bracket_buf c st)).trans ?_
  refine (char_paragraph_tags dict c _).trans ?_
  refine (char_attr_tags dict c _).trans ?_
  rw [henc]
  exact (AppendsTags.APPEND _ (TagsAndText.of_text (char_text_utf8_no_angle _ c))).trans
    (AppendsTags.of_buf_eq rfl)

theorem step_tags (dict : ydpdict_priv_t)
    (henc : dict.encoding = .YDPDICT_ENCODING_UTF8) (st : State) :
    AppendsTags st (step dict st) := by
  unfold step
  dsimp only
  split_ifs
  · exact AppendsTags.of_buf_eq (step_open_buf st)
  · exact step_close_tags st
  · exact step_token_tags st
  · exact step_char_tags dict henc _ st

theorem xhtml_loop_tags (dict : ydpdict_priv_t)
    (henc : dict.encoding = .YDPDICT_ENCODING_UTF8) (fuel : Nat) (st st2 : State)
    (h : xhtml_loop dict fuel st = some st2) : AppendsTags st st2 := by
  induction fuel generalizing st with
  | zero => simp [xhtml_loop] at h
  | succ n ih =>
    unfold xhtml_loop at h
    split at h
    · simp only [Option.some.injEq] at h
      subst h
      exact AppendsTags.refl st
    · exact (step_tags dict henc st).trans (ih _ h)

/-- C3: in UTF-8 output mode, a content byte `&`, `<` or `>` read while the
comment flag is clear in the applied attribute set is appended as `&amp;`,
`&lt;` or `&gt;`; and with the wrapper disabled the text returned is made of
generated tags and of bytes other than `<` and `>`, so that every `<` and
`>` in it belongs to a tag generated by the interpreter. -/
theorem C3_entities_escaped (dict : ydpdict_priv_t)
    (henc : dict.encoding = .YDPDICT_ENCODING_UTF8) :
    (∀ (st : State) (c : Nat), peek st.rtf = c → (c = 38 ∨ c = 60 ∨ c = 62) →
      ((char_attr dict c (char_paragraph dict c (char_bracket c st))).attr &&& ATTR_QC) = 0 →
      (step dict st).buf
        = (char_attr dict c (char_paragraph dict c (char_bracket c st))).buf
            ++ xhtml_entity c) ∧
    (dict.xhtml_header = 0 → ∀ rtf out : List Nat,
      xhtml_of_rtf dict rtf = .ok out → TagsAndText out) := by
  constructor
  · intro st c hc hamp hqc
    have h1 : c ≠ 123 := by omega
    have h2 : c ≠ 125 := by omega
    have h3 : c ≠ 92 := by omega
    simp only [step, hc, h1, h2, h3, if_false, step_char, APPEND, henc]
    congr 1
    rcases hamp with h | h | h <;> subst h <;>
      simp [char_text, hqc, xhtml_entity]
  · intro hh rtf out hout
    unfold xhtml_of_rtf at hout
    split at hout
    · simp at hout
    · rename_i st hloop
      simp only [hh, ne_eq, not_true_eq_false, if_false] at hout
      split at hout
      · simp at hout
      · simp only [Res.ok.injEq] at hout
        have h1 : AppendsTags (xhtml_prologue dict (init_state rtf)) st :=
          xhtml_loop_tags dict henc _ _ _ hloop
        obtain ⟨t, ht, hT⟩ := h1.trans (CLOSE_TAGS_tags st)
        rw [← hout, ht]
        simpa [xhtml_prologue, hh, init_state] using hT

theorem C3_entities_escaped_witness :
    (∀ (st : State) (c : Nat), peek st.rtf = c → (c = 38 ∨ c = 60 ∨ c = 62) →
      ((char_attr (plain_dict .YDPDICT_ENCODING_UTF8 false) c
        (char_paragraph (plain_dict .YDPDICT_ENCODING_UTF8 false) c
          (char_bracket c st))).attr &&& ATTR_QC) = 0 →
      (step (plain_dict .YDPDICT_ENCODING_UTF8 false) st).buf
        = (char_attr (plain_dict .YDPDICT_ENCODING_UTF8 false) c
            (char_paragraph (plain_dict .YDPDICT_ENCODING_UTF8 false) c
              (char_bracket c st))).buf ++ xhtml_entity c) ∧
    ((plain_dict .YDPDICT_ENCODING_UTF8 false).xhtml_header = 0 → ∀ rtf out : List Nat,
      xhtml_of_rtf (plain_dict .YDPDICT_ENCODING_UTF8 false) rtf = .ok out →
        TagsAndText out) :=
  C3_entities_escaped (plain_dict .YDPDICT_ENCODING_UTF8 false) rfl

/-! ## Properties of the index loader -/

/-- C6: an index file whose first four bytes, read as a little-endian 32-bit
value, differ from the magic is refused: `ydpdict_open` returns `NULL`,
whatever the rest of the file, the data file and the encoding. -/
theorem C6_bad_magic_fails (dat : Option (List Nat)) (idxf : List Nat)
    (encoding : ydpdict_encoding_t)
    (h : ydpdict_fix32 (idxf.take 4) ≠ YDPDICT_IDX_MAGIC) :
    ydpdict_open dat (some idxf) encoding = .failure := by
  unfold ydpdict_open
  cases dat with
  | none => rfl
  | some datf =>
    simp only [fread]
    split
    · rfl
    · rename_i magic f hread
      split at hread
      · simp only [Option.some.injEq, Prod.mk.injEq] at hread
        rw [← hread.1, if_pos h]
      · simp at hread

theorem C6_bad_magic_fails_witness :
    ydpdict_open (some []) (some [0xd5, 0x11, 0x4e, 0x8c, 0, 0, 0, 0, 1, 0])
      .YDPDICT_ENCODING_UTF8 = .failure :=
  C6_bad_magic_fails (some []) [0xd5, 0x11, 0x4e, 0x8c, 0, 0, 0, 0, 1, 0]
    .YDPDICT_ENCODING_UTF8 (by decide)

theorem buf_of_set (pre : List Nat) (c : Nat) (h : pre.length < BUF_SIZE) :
    (buf_of pre).set pre.length (some c) = buf_of (pre ++ [c]) := by
  unfold buf_of
  rw [List.set_append_right _ _ (by simp)]
  have : BUF_SIZE - pre.length = (BUF_SIZE - (pre ++ [c]).length) + 1 := by
    simp only [List.length_append, List.length_singleton]; omega
  rw [this, List.replicate_succ]
  simp

theorem buf_of_getD (pre : List Nat) (c : Nat) :
    (buf_of (pre ++ [c])).getD pre.length none = some c := by
  unfold buf_of
  rw [List.getD_append _ _ _ _ (by simp)]
  simp [List.getElem?_append_right]

theorem strdup_prefix (pre : List Nat) (rest : List (Option Nat)) (h : ∀ c ∈ pre, c ≠ 0) :
    strdup (pre.map some ++ some 0 :: rest) = .ok pre := by
  induction pre with
  | nil => simp [strdup]
  | cons c pre ih =>
    have hc : c ≠ 0 := h c (by simp)
    simp only [List.map_cons, List.cons_append, strdup, hc, if_false, List.append_eq]
    rw [ih (fun d hd => h d (by simp [hd]))]

theorem strdup_buf_of (pre : List Nat) (h : ∀ c ∈ pre, c ≠ 0) :
    strdup (buf_of (pre ++ [0])) = .ok pre := by
  unfold buf_of
  rw [List.map_append, List.append_assoc]
  exact strdup_prefix pre _ h

/-- The word loop in windows-1250 mode on a word that fits the buffer. -/
theorem read_word_windows1250 (w pre rest : List Nat) (hw : ∀ c ∈ w, c ≠ 0)
    (hpre : ∀ c ∈ pre, c ≠ 0) (hlen : pre.length + w.length < BUF_SIZE) :
    read_word .YDPDICT_ENCODING_WINDOWS1250 (w ++ 0 :: rest) (buf_of pre) pre.length
      = .ok (pre ++ w, rest) := by
  induction w generalizing pre with
  | nil =>
    have h1 : pre.length < BUF_SIZE := by simpa using hlen
    simp only [List.nil_append, read_word, word_body, buf_store, if_true, h1,
      buf_of_set, buf_of_getD, ne_eq, not_true_eq_false, if_false, strdup_buf_of pre hpre,
      List.append_nil]
  | cons c w ih =>
    have h1 : pre.length < BUF_SIZE := by simp at hlen; omega
    have hc : c ≠ 0 := hw c (by simp)
    simp only [List.cons_append, read_word, word_body, buf_store, if_true, h1,
      buf_of_set, buf_of_getD, ne_eq, hc, not_false_eq_true]
    have := ih (pre ++ [c]) (fun d hd => hw d (by simp [hd]))
      (by intro d hd; simp at hd; rcases hd with hd | hd; exact hpre d hd; rw [hd]; exact hc)
      (by simp at hlen ⊢; omega)
    simpa using this

theorem copy_entry_fits (s pre : List Nat) (h : pre.length + s.length ≤ BUF_SIZE) :
    copy_entry s (buf_of pre) pre.length = (buf_of (pre ++ s), pre.length + s.length) := by
  induction s generalizing pre with
  | nil => simp [copy_entry]
  | cons c s ih =>
    have h1 : pre.length < BUF_SIZE := by simp at h; omega
    simp only [copy_entry, h1, if_true, buf_of_set]
    have h2 := ih (pre ++ [c]) (by simp at h ⊢; omega)
    simp only [List.length_append, List.length_singleton, List.append_assoc,
      List.singleton_append] at h2
    rw [h2]
    simp only [List.length_cons, Prod.mk.injEq, true_and]
    omega

set_option maxRecDepth 100000 in
theorem windows1250_table_entries :
    ∀ e ∈ ydpdict_windows1250_to_utf8_table, e ≠ [] ∧ ∀ c ∈ e, c ≠ 0 := by
  decide

theorem windows1250_entry (c : Nat) (h1 : 128 ≤ c) (h2 : c < 256) :
    ydpdict_windows1250_to_utf8_table.getD (c - 128) [] ≠ [] ∧
    ∀ d ∈ ydpdict_windows1250_to_utf8_table.getD (c - 128) [], d ≠ 0 := by
  have hlen : c - 128 < ydpdict_windows1250_to_utf8_table.length := by
    have : ydpdict_windows1250_to_utf8_table.length = 128 := rfl
    omega
  rw [List.getD_eq_getElem _ _ hlen]
  exact windows1250_table_entries _ (List.getElem_mem hlen)

/-- The word loop in UTF-8 mode on a word whose decoded form fits the
buffer. -/
theorem read_word_utf8 (w pre rest : List Nat) (hw : ∀ c ∈ w, c ≠ 0 ∧ c < 256)
    (hpre : ∀ c ∈ pre, c ≠ 0)
    (hlen : pre.length + (ydpdict_windows1250_to_utf8 w).length < BUF_SIZE) :
    read_word .YDPDICT_ENCODING_UTF8 (w ++ 0 :: rest) (buf_of pre) pre.length
      = .ok (pre ++ ydpdict_windows1250_to_utf8 w, rest) := by
  induction w generalizing pre with
  | nil =>
    have h1 : pre.length < BUF_SIZE := by simpa [ydpdict_windows1250_to_utf8] using hlen
    simp only [List.nil_append, read_word, word_body, buf_store, h1, reduceCtorEq,
      if_false, if_true, gt_iff_lt, Nat.not_lt_zero, buf_of_set, buf_of_getD, ne_eq,
      not_true_eq_false, strdup_buf_of pre hpre, ydpdict_windows1250_to_utf8,
      List.append_nil]
  | cons c w ih =>
    have hc : c ≠ 0 := (hw c (by simp)).1
    have hc2 : c < 256 := (hw c (by simp)).2
    have hw2 : ∀ d ∈ w, d ≠ 0 ∧ d < 256 := fun d hd => hw d (by simp [hd])
    simp only [ydpdict_windows1250_to_utf8, hc, if_false, List.length_append] at hlen
    by_cases hhi : c > 127
    · have hge : c ≥ 128 := hhi
      simp only [hge, if_true] at hlen
      obtain ⟨hne, hnz⟩ := windows1250_entry c hge hc2
      generalize he : ydpdict_windows1250_to_utf8_table.getD (c - 128) [] = e at hlen hne hnz
      obtain ⟨e2, d, rfl⟩ : ∃ e2 d, e = e2 ++ [d] := by
        rcases List.eq_nil_or_concat e with h | ⟨e2, d, h⟩
        · exact absurd h hne
        · exact ⟨e2, d, by simpa using h⟩
      have hd : d ≠ 0 := hnz d (by simp)
      have hfit : pre.length + (e2 ++ [d]).length ≤ BUF_SIZE := by omega
      have hj : pre.length + (e2 ++ [d]).length - 1 = (pre ++ e2).length := by simp
      have hj2 : (pre ++ e2).length < BUF_SIZE := by
        simp only [List.length_append, List.length_singleton] at hlen ⊢; omega
      have hbuf : buf_of (pre ++ (e2 ++ [d])) = buf_of ((pre ++ e2) ++ [d]) := by
        rw [List.append_assoc]
      have h3 := ih (pre ++ (e2 ++ [d])) hw2
        (by
          intro x hx
          simp only [List.mem_append] at hx
          rcases hx with hx | hx
          · exact hpre x hx
          · exact hnz x (by simpa using hx))
        (by simp only [List.length_append, List.length_singleton] at hlen ⊢; omega)
      have hj3 : (pre ++ e2).length + 1 = (pre ++ (e2 ++ [d])).length := by simp; omega
      simp only [List.cons_append, read_word, word_body, reduceCtorEq, if_false, hhi,
        if_true, he, copy_entry_fits _ _ hfit, hj, hj2, hbuf, buf_of_getD, ne_eq, hd,
        not_false_eq_true, ydpdict_windows1250_to_utf8, hc, hge, List.append_eq]
      rw [← hbuf, hj3, h3, List.append_assoc]
    · have hlo : ¬ c ≥ 128 := by omega
      simp only [hlo, if_false, List.length_singleton] at hlen
      have h1 : pre.length < BUF_SIZE := by omega
      have h3 := ih (pre ++ [c]) hw2
        (by intro x hx; simp at hx; rcases hx with hx | hx; exact hpre x hx; rw [hx]; exact hc)
        (by simp only [List.length_append, List.length_singleton]; omega)
      simp only [List.cons_append, read_word, word_body, reduceCtorEq, if_false, hhi,
        buf_store, h1, if_true, buf_of_set, buf_of_getD, ne_eq, hc, not_false_eq_true,
        ydpdict_windows1250_to_utf8, hlo]
      simpa using h3

theorem fix32_le32_bytes (n : Nat) (h : n < 4294967296) :
    ydpdict_fix32 (le32_bytes n) = n := by
  simp only [ydpdict_fix32, le32_bytes, List.getD_cons_zero, List.getD_cons_succ]
  omega

theorem fix16_le16_bytes (n : Nat) (h : n < 65536) :
    ydpdict_fix16 (le16_bytes n) = n := by
  simp only [ydpdict_fix16, le16_bytes, List.getD_cons_zero, List.getD_cons_succ]
  omega

theorem fread_append (n : Nat) (a b : List Nat) (h : a.length = n) :
    fread n (a ++ b) = some (a, b) := by
  unfold fread
  rw [if_pos (by simp [h]), List.take_left' h, List.drop_left' h]

theorem set_middle {α : Type} (l : List α) (x y : α) (r : List α) :
    (l ++ x :: r).set l.length y = l ++ y :: r := by
  rw [List.set_append_right _ _ (by simp)]
  simp

/-- The loop over the index table on a well-formed table: every entry is
read and stored, in the order of the file. -/
theorem read_index_entries (encoding : ydpdict_encoding_t) (dec : List Nat → List Nat)
    (todo : List index_entry) (done : List ydpdict_word_t) (rest : List Nat)
    (fuel count : Nat)
    (hword : ∀ e ∈ todo, ∀ r, read_word encoding (e.word ++ 0 :: r) (buf_of []) 0
      = .ok (dec e.word, r))
    (hres : ∀ e ∈ todo, e.reserved.length = 4 ∧ e.offset < 4294967296)
    (hne : todo ≠ []) (hcount : count = done.length + todo.length)
    (hfuel : todo.length ≤ fuel) :
    read_index encoding count fuel done.length (encode_table todo ++ rest)
        (done ++ List.replicate todo.length ⟨none, 0⟩)
      = .ok (done ++ todo.map (fun e => ⟨some (dec e.word), e.offset⟩)) := by
  induction todo generalizing done fuel with
  | nil => exact absurd rfl hne
  | cons e todo ih =>
    obtain ⟨fuel, rfl⟩ : ∃ k, fuel = k + 1 := ⟨fuel - 1, by simp at hfuel; omega⟩
    obtain ⟨hr, ho⟩ := hres e (by simp)
    have hseek : fseek_cur (encode_table (e :: todo) ++ rest) 4
        = le32_bytes e.offset ++ (e.word ++ 0 :: (encode_table todo ++ rest)) := by
      simp only [fseek_cur, encode_table, encode_entry, List.append_assoc]
      rw [List.drop_left' hr]
      simp
    have hbuf : List.replicate BUF_SIZE (none : Option Nat) = buf_of [] := by
      simp [buf_of]
    have hlt : ∀ (x : ydpdict_word_t) (r : List ydpdict_word_t),
        done.length < (done ++ x :: r).length := by intro x r; simp
    rw [read_index, hseek, fread_append 4 _ _ (by simp [le32_bytes])]
    simp only [fix32_le32_bytes _ ho, words_store, hlt, if_true, List.length_cons,
      List.replicate_succ, set_middle, hbuf, hword e (by simp)]
    by_cases hnil : todo = []
    · subst hnil
      simp [hcount]
    · have hpos : 0 < todo.length := List.length_pos.mpr hnil
      have hcont : done.length + 1 < count := by simp at hcount; omega
      rw [if_pos hcont]
      have h := ih (done ++ [⟨some (dec e.word), e.offset⟩]) fuel
        (fun x hx => hword x (by simp [hx])) (fun x hx => hres x (by simp [hx])) hnil
        (by simp at hcount ⊢; omega) (by simp at hfuel; omega)
      simpa using h

/-- The loader on an index file that encodes the entries `es`, given what
the word loop does on each word. -/
theorem open_encoded (encoding : ydpdict_encoding_t) (dec : List Nat → List Nat)
    (datf gap1 gap2 gap3 rest : List Nat) (es : List index_entry)
    (hg1 : gap1.length = 4) (hg2 : gap2.length = 6) (hg3 : 20 + gap3.length < 4294967296)
    (hn1 : 1 ≤ es.length) (hn2 : es.length ≤ 65535)
    (hword : ∀ e ∈ es, ∀ r, read_word encoding (e.word ++ 0 :: r) (buf_of []) 0
      = .ok (dec e.word, r))
    (hres : ∀ e ∈ es, e.reserved.length = 4 ∧ e.offset < 4294967296) :
    ydpdict_open (some datf) (some (encode_index gap1 gap2 gap3 rest es)) encoding
      = .ok { dat := datf, idx := encode_index gap1 gap2 gap3 rest es,
              count := (es.length : Int),
              words := es.map (fun e => ⟨some (dec e.word), e.offset⟩),
              encoding := encoding, xhtml_header := 0, xhtml_title := none,
              xhtml_style := none, xhtml_use_style := 0 } := by
  have hmagic : fread 4 (encode_index gap1 gap2 gap3 rest es)
      = some (le32_bytes YDPDICT_IDX_MAGIC, gap1 ++ (le16_bytes es.length ++ (gap2 ++
          (le32_bytes (20 + gap3.length) ++ (gap3 ++ (encode_table es ++ rest)))))) :=
    fread_append 4 _ _ rfl
  have hs8 : fseek_set (encode_index gap1 gap2 gap3 rest es) 8
      = le16_bytes es.length ++ (gap2 ++
          (le32_bytes (20 + gap3.length) ++ (gap3 ++ (encode_table es ++ rest)))) := by
    unfold fseek_set encode_index
    rw [← List.append_assoc]
    exact List.drop_left' (by simp [le32_bytes, hg1])
  have hs16 : fseek_set (encode_index gap1 gap2 gap3 rest es) 16
      = le32_bytes (20 + gap3.length) ++ (gap3 ++ (encode_table es ++ rest)) := by
    unfold fseek_set encode_index
    rw [← List.append_assoc, ← List.append_assoc, ← List.append_assoc]
    exact List.drop_left' (by simp [le32_bytes, le16_bytes, hg1, hg2])
  have hst : fseek_set (encode_index gap1 gap2 gap3 rest es) (20 + gap3.length)
      = encode_table es ++ rest := by
    unfold fseek_set encode_index
    rw [← List.append_assoc, ← List.append_assoc, ← List.append_assoc, ← List.append_assoc,
      ← List.append_assoc]
    exact List.drop_left' (by simp [le32_bytes, le16_bytes, hg1, hg2]; omega)
  have hm : ydpdict_fix32 (le32_bytes YDPDICT_IDX_MAGIC) = YDPDICT_IDX_MAGIC := by decide
  have hloop := read_index_entries encoding dec es [] rest (es.length + 1) es.length hword
    hres (by intro h; simp [h] at hn1) (by simp) (by omega)
  simp only [List.length_nil, List.nil_append] at hloop
  simp only [ydpdict_open, hmagic, hm, ne_eq, not_true_eq_false, if_false, hs8,
    fread_append 2 (le16_bytes es.length) _ rfl, fix16_le16_bytes _ (by omega : es.length < 65536),
    hs16, fread_append 4 (le32_bytes (20 + gap3.length)) _ rfl, fix32_le32_bytes _ hg3, hst,
    hloop]

theorem buf_fresh : List.replicate BUF_SIZE (none : Option Nat) = buf_of [] := by
  simp [buf_of]

theorem get_word_of_map (dict : ydpdict_priv_t) (es : List index_entry)
    (dec : List Nat → List Nat) (hc : dict.count = (es.length : Int))
    (hw : dict.words = es.map (fun e => ⟨some (dec e.word), e.offset⟩))
    (i : Nat) (hi : i < es.length) :
    ydpdict_get_word (some dict) (i : Int) = .ok (dec es[i].word) ∧
    (dict.words.getD i ⟨none, 0⟩).index = es[i].offset := by
  have h1 : ¬ ((i : Int) ≥ dict.count) := by rw [hc]; omega
  have h2 : 0 ≤ (i : Int) ∧ (i : Int).toNat < dict.words.length := by
    rw [hw]; simp [hi]
  have h3 : dict.words.getD i ⟨none, 0⟩ = ⟨some (dec es[i].word), es[i].offset⟩ := by
    rw [hw, List.getD_eq_getElem _ _ (by simpa using hi)]
    simp
  constructor
  · have h4 : i < dict.words.length := by simpa using h2.2
    simp only [ydpdict_get_word, h1, if_false, h2, and_self, if_true, Int.toNat_ofNat, h3,
      h4, true_and]
  · rw [h3]

/-- C7: round trip of the index loader in windows-1250 mode. An index file
that encodes `n` entries (1 ≤ n ≤ 65535) with NUL-free words shorter than 256
bytes is opened with success; the count of the handle is `n` and, for every
`i < n`, word `i` of the handle is the `i`-th word of the file and its stored
offset the `i`-th offset, in the order of the file. -/
theorem C7_index_round_trip (datf gap1 gap2 gap3 rest : List Nat) (es : List index_entry)
    (hg1 : gap1.length = 4) (hg2 : gap2.length = 6) (hg3 : 20 + gap3.length < 4294967296)
    (hn1 : 1 ≤ es.length) (hn2 : es.length ≤ 65535)
    (hes : ∀ e ∈ es, e.reserved.length = 4 ∧ e.offset < 4294967296 ∧
      (∀ c ∈ e.word, c ≠ 0) ∧ e.word.length < 256) :
    ∃ dict, ydpdict_open (some datf) (some (encode_index gap1 gap2 gap3 rest es))
        .YDPDICT_ENCODING_WINDOWS1250 = .ok dict ∧
      ydpdict_get_count (some dict) = (es.length : Int) ∧
      dict.words.length = es.length ∧
      ∀ (i : Nat) (hi : i < es.length),
        ydpdict_get_word (some dict) (i : Int) = .ok es[i].word ∧
        (dict.words.getD i ⟨none, 0⟩).index = es[i].offset := by
  have hopen := open_encoded .YDPDICT_ENCODING_WINDOWS1250 id datf gap1 gap2 gap3 rest es
    hg1 hg2 hg3 hn1 hn2
    (fun e he r => by
      have h := read_word_windows1250 e.word [] r (hes e he).2.2.1 (by simp)
        (by simpa [BUF_SIZE] using (hes e he).2.2.2)
      simpa using h)
    (fun e he => ⟨(hes e he).1, (hes e he).2.1⟩)
  refine ⟨_, hopen, rfl, by simp, ?_⟩
  intro i hi
  exact get_word_of_map _ es id rfl rfl i hi

theorem C7_index_round_trip_witness :
    ∃ dict, ydpdict_open (some [])
        (some (encode_index [0, 0, 0, 0] [0, 0, 0, 0, 0, 0] [7] [9]
          [⟨[1, 2, 3, 4], 5, [97, 98]⟩, ⟨[0, 0, 0, 0], 300, [128, 99]⟩]))
        .YDPDICT_ENCODING_WINDOWS1250 = .ok dict ∧
      ydpdict_get_count (some dict)
        = (([⟨[1, 2, 3, 4], 5, [97, 98]⟩, ⟨[0, 0, 0, 0], 300, [128, 99]⟩] :
            List index_entry).length : Int) ∧
      dict.words.length
        = ([⟨[1, 2, 3, 4], 5, [97, 98]⟩, ⟨[0, 0, 0, 0], 300, [128, 99]⟩] :
            List index_entry).length ∧
      ∀ (i : Nat) (hi : i < ([⟨[1, 2, 3, 4], 5, [97, 98]⟩, ⟨[0, 0, 0, 0], 300, [128, 99]⟩] :
            List index_entry).length),
        ydpdict_get_word (some dict) (i : Int)
          = .ok ([⟨[1, 2, 3, 4], 5, [97, 98]⟩, ⟨[0, 0, 0, 0], 300, [128, 99]⟩] :
            List index_entry)[i].word ∧
        (dict.words.getD i ⟨none, 0⟩).index
          = ([⟨[1, 2, 3, 4], 5, [97, 98]⟩, ⟨[0, 0, 0, 0], 300, [128, 99]⟩] :
            List index_entry)[i].offset :=
  C7_index_round_trip [] [0, 0, 0, 0] [0, 0, 0, 0, 0, 0] [7] [9]
    [⟨[1, 2, 3, 4], 5, [97, 98]⟩, ⟨[0, 0, 0, 0], 300, [128, 99]⟩]
    (by decide) (by decide) (by decide) (by decide) (by decide) (by decide)

theorem decode_word_spec_eq (w : List Nat) (hw : ∀ c ∈ w, c ≠ 0) :
    decode_word_spec w = ydpdict_windows1250_to_utf8 w := by
  induction w with
  | nil => rfl
  | cons c w ih =>
    have hc : c ≠ 0 := hw c (by simp)
    have ih2 := ih (fun d hd => hw d (by simp [hd]))
    unfold decode_word_spec at ih2 ⊢
    simp only [List.map_cons, List.flatten_cons, ydpdict_windows1250_to_utf8, hc, if_false,
      ih2]
    by_cases h : c < 128
    · simp [h, Nat.not_le.mpr h]
    · simp [h, Nat.not_lt.mp h]

/-- C8: in UTF-8 output mode, on an index file whose words are NUL-free and
decode to fewer than 256 bytes, the word stored by `ydpdict_open` for entry
`i` is the concatenation, byte by byte, of the byte itself when it is below
128 and of the windows-1250 table entry for it otherwise; this is
`ydpdict_windows1250_to_utf8` of the on-disk word. -/
theorem C8_utf8_word_decoding (datf gap1 gap2 gap3 rest : List Nat) (es : List index_entry)
    (hg1 : gap1.length = 4) (hg2 : gap2.length = 6) (hg3 : 20 + gap3.length < 4294967296)
    (hn1 : 1 ≤ es.length) (hn2 : es.length ≤ 65535)
    (hes : ∀ e ∈ es, e.reserved.length = 4 ∧ e.offset < 4294967296 ∧
      (∀ c ∈ e.word, c ≠ 0 ∧ c < 256) ∧ (decode_word_spec e.word).length < 256) :
    ∃ dict, ydpdict_open (some datf) (some (encode_index gap1 gap2 gap3 rest es))
        .YDPDICT_ENCODING_UTF8 = .ok dict ∧
      ∀ (i : Nat) (hi : i < es.length),
        ydpdict_get_word (some dict) (i : Int) = .ok (decode_word_spec es[i].word) ∧
        decode_word_spec es[i].word = ydpdict_windows1250_to_utf8 es[i].word := by
  have hopen := open_encoded .YDPDICT_ENCODING_UTF8 ydpdict_windows1250_to_utf8 datf gap1
    gap2 gap3 rest es hg1 hg2 hg3 hn1 hn2
    (fun e he r => by
      have hnz : ∀ c ∈ e.word, c ≠ 0 := fun c hc => ((hes e he).2.2.1 c hc).1
      have h := read_word_utf8 e.word [] r (hes e he).2.2.1 (by simp)
        (by
          rw [← decode_word_spec_eq e.word hnz]
          simpa [BUF_SIZE] using (hes e he).2.2.2)
      simpa using h)
    (fun e he => ⟨(hes e he).1, (hes e he).2.1⟩)
  refine ⟨_, hopen, ?_⟩
  intro i hi
  have hnz : ∀ c ∈ es[i].word, c ≠ 0 := fun c hc =>
    ((hes es[i] (List.getElem_mem hi)).2.2.1 c hc).1
  have hspec := decode_word_spec_eq es[i].word hnz
  refine ⟨?_, hspec⟩
  rw [hspec]
  exact (get_word_of_map _ es ydpdict_windows1250_to_utf8 rfl rfl i hi).1

theorem C8_utf8_word_decoding_witness :
    ∃ dict, ydpdict_open (some [])
        (some (encode_index [0, 0, 0, 0] [0, 0, 0, 0, 0, 0] [] []
          [⟨[0, 0, 0, 0], 5, [97, 128]⟩, ⟨[0, 0, 0, 0], 300, [243, 99]⟩]))
        .YDPDICT_ENCODING_UTF8 = .ok dict ∧
      ∀ (i : Nat) (hi : i < ([⟨[0, 0, 0, 0], 5, [97, 128]⟩, ⟨[0, 0, 0, 0], 300, [243, 99]⟩] :
            List index_entry).length),
        ydpdict_get_word (some dict) (i : Int)
          = .ok (decode_word_spec
              ([⟨[0, 0, 0, 0], 5, [97, 128]⟩, ⟨[0, 0, 0, 0], 300, [243, 99]⟩] :
                List index_entry)[i].word) ∧
        decode_word_spec
            ([⟨[0, 0, 0, 0], 5, [97, 128]⟩, ⟨[0, 0, 0, 0], 300, [243, 99]⟩] :
              List index_entry)[i].word
          = ydpdict_windows1250_to_utf8
              ([⟨[0, 0, 0, 0], 5, [97, 128]⟩, ⟨[0, 0, 0, 0], 300, [243, 99]⟩] :
                List index_entry)[i].word :=
  C8_utf8_word_decoding [] [0, 0, 0, 0] [0, 0, 0, 0, 0, 0] [] []
    [⟨[0, 0, 0, 0], 5, [97, 128]⟩, ⟨[0, 0, 0, 0], 300, [243, 99]⟩]
    (by decide) (by decide) (by decide) (by decide) (by decide) (by decide)

set_option maxRecDepth 1000000 in
/-- C9 (the code departs from it): on an index file with one entry whose word
has 256 bytes `a` before its NUL, the word loop of `ydpdict_open` stores to
`buf[256]`, one cell past the 256-byte buffer, in both output encodings; at
that moment the 256 cells of the buffer all hold `a` and none holds a NUL. -/
theorem C9_word_buffer_overflow :
    ydpdict_open (some [])
        (some (encode_index [0, 0, 0, 0] [0, 0, 0, 0, 0, 0] [] []
          [⟨[0, 0, 0, 0], 0, List.replicate 256 97⟩]))
        .YDPDICT_ENCODING_WINDOWS1250
      = .undefined (.buf_overflow (List.replicate 256 (some 97)) 256) ∧
    ydpdict_open (some [])
        (some (encode_index [0, 0, 0, 0] [0, 0, 0, 0, 0, 0] [] []
          [⟨[0, 0, 0, 0], 0, List.replicate 256 97⟩]))
        .YDPDICT_ENCODING_UTF8
      = .undefined (.buf_overflow (List.replicate 256 (some 97)) 256) := by
  constructor <;> decide

set_option maxRecDepth 1000000 in
/-- C10 as stated fails: in UTF-8 output mode, on an index file with one
entry whose word is 254 bytes `a` followed by the byte 0x80 (decoded to the
three bytes E2 82 AC), the word loop fills the last two cells of the buffer
with E2 82, a proper prefix of the sequence; the loader then stores the
terminating NUL to `buf[256]`, outside the buffer. -/
theorem C10_counterexample :
    copy_entry (ydpdict_windows1250_to_utf8_table.getD (0x80 - 128) [])
        (buf_of (List.replicate 254 97)) 254
      = (buf_of (List.replicate 254 97 ++ [0xE2, 0x82]), 256) ∧
    ydpdict_open (some [])
        (some (encode_index [0, 0, 0, 0] [0, 0, 0, 0, 0, 0] [] []
          [⟨[0, 0, 0, 0], 0, List.replicate 254 97 ++ [0x80]⟩]))
        .YDPDICT_ENCODING_UTF8
      = .undefined (.buf_overflow
          (List.replicate 254 (some 97) ++ [some 0xE2, some 0x82]) 256) := by
  constructor <;> decide

/-- The copy of a table entry into the word buffer stops byte by byte at the
end of the buffer. -/
theorem copy_entry_cut (s pre : List Nat) (h : pre.length ≤ BUF_SIZE) :
    copy_entry s (buf_of pre) pre.length
      = (buf_of (pre ++ s.take (BUF_SIZE - pre.length)),
         pre.length + min s.length (BUF_SIZE - pre.length)) := by
  induction s generalizing pre with
  | nil => simp [copy_entry]
  | cons c s ih =>
    by_cases h1 : pre.length < BUF_SIZE
    · obtain ⟨k, hk⟩ : ∃ k, BUF_SIZE - pre.length = k + 1 :=
        ⟨BUF_SIZE - pre.length - 1, by omega⟩
      have h2 := ih (pre ++ [c]) (by simp; omega)
      have hk2 : BUF_SIZE - (pre ++ [c]).length = k := by simp; omega
      rw [hk2] at h2
      simp only [copy_entry, h1, if_true, buf_of_set, hk, List.take_succ_cons,
        List.length_cons]
      simp only [List.length_append, List.length_singleton, List.append_assoc,
        List.singleton_append] at h2
      rw [h2]
      simp only [Prod.mk.injEq, true_and]
      omega
    · have h0 : BUF_SIZE - pre.length = 0 := by omega
      simp [copy_entry, h1, h0]

/-- C10 (amended): in UTF-8 output mode the bytes of the table entry of a
translated byte are copied one at a time while the 256-byte buffer has
room, so that a sequence that does not fit is cut in the middle and the
buffer ends in a prefix of it; a word whose decoded form is shorter than 256
bytes is stored as the concatenation of whole table entries and single ASCII
bytes. -/
theorem C10_decoding_cut_bytewise (s pre w rest : List Nat)
    (hpre : pre.length ≤ 256) (hw : ∀ c ∈ w, c ≠ 0 ∧ c < 256)
    (hfit : (decode_word_spec w).length < 256) :
    copy_entry s (buf_of pre) pre.length
      = (buf_of (pre ++ s.take (256 - pre.length)),
         pre.length + min s.length (256 - pre.length)) ∧
    read_word .YDPDICT_ENCODING_UTF8 (w ++ 0 :: rest) (List.replicate BUF_SIZE none) 0
      = .ok (decode_word_spec w, rest) := by
  constructor
  · exact copy_entry_cut s pre hpre
  · have hnz : ∀ c ∈ w, c ≠ 0 := fun c hc => (hw c hc).1
    have h := read_word_utf8 w [] rest hw (by simp)
      (by rw [← decode_word_spec_eq w hnz]; simpa [BUF_SIZE] using hfit)
    rw [buf_fresh, decode_word_spec_eq w hnz]
    simpa using h

set_option maxRecDepth 100000 in
theorem C10_decoding_cut_bytewise_witness :
    copy_entry [0xE2, 0x82, 0xAC] (buf_of (List.replicate 254 97))
        (List.replicate 254 97).length
      = (buf_of (List.replicate 254 97
            ++ ([0xE2, 0x82, 0xAC] : List Nat).take (256 - (List.replicate 254 97).length)),
         (List.replicate 254 97).length
            + min ([0xE2, 0x82, 0xAC] : List Nat).length
                (256 - (List.replicate 254 97).length)) ∧
    read_word .YDPDICT_ENCODING_UTF8 ([97, 0x80] ++ 0 :: [7]) (List.replicate BUF_SIZE none) 0
      = .ok (decode_word_spec [97, 0x80], [7]) :=
  C10_decoding_cut_bytewise [0xE2, 0x82, 0xAC] (List.replicate 254 97) [97, 0x80] [7]
    (by decide) (by decide) (by decide)

/-! ## The iteration bounds of the model are large enough -/

theorem strdup_cases (buf : List (Option Nat)) :
    (∃ w, strdup buf = .ok w) ∨ (∃ e, strdup buf = .undefined e) := by
  induction buf with
  | nil => exact Or.inr ⟨_, rfl⟩
  | cons x buf ih =>
    cases x with
    | none => exact Or.inr ⟨_, rfl⟩
    | some c =>
      by_cases hc : c = 0
      · exact Or.inl ⟨[], by simp [strdup, hc]⟩
      · rcases ih with ⟨w, hw⟩ | ⟨e, he⟩
        · exact Or.inl ⟨c :: w, by simp [strdup, hc, hw]⟩
        · exact Or.inr ⟨e, by simp [strdup, hc, he]⟩

theorem word_body_cases (encoding : ydpdict_encoding_t) (ch : Nat)
    (buf : List (Option Nat)) (j : Nat) :
    (∃ r, word_body encoding ch buf j = .ok r) ∨
    (∃ e, word_body encoding ch buf j = .undefined e) := by
  unfold word_body buf_store
  split_ifs <;> first | exact Or.inl ⟨_, rfl⟩ | exact Or.inr ⟨_, rfl⟩

/-- The word loop reads one byte per iteration: it needs no iteration bound
and never reports `timeout`. -/
theorem read_word_ne_timeout (encoding : ydpdict_encoding_t) (f : List Nat)
    (buf : List (Option Nat)) (j : Nat) : read_word encoding f buf j ≠ .timeout := by
  induction f generalizing buf j with
  | nil => simp [read_word]
  | cons ch f ih =>
    unfold read_word
    rcases word_body_cases encoding ch buf j with ⟨⟨b, k⟩, hr⟩ | ⟨e, hr⟩
    · rw [hr]
      dsimp only
      have hs : ∀ g : List Nat,
          (match strdup b with
            | .ok w => (Res.ok (w, g) : Res (List Nat × List Nat))
            | .failure => .failure
            | .undefined e => .undefined e
            | .timeout => .timeout) ≠ .timeout := by
        intro g
        rcases strdup_cases b with ⟨w, hw⟩ | ⟨e, he⟩
        · rw [hw]; simp
        · rw [he]; simp
      split
      · split
        · simp
        · split
          · exact ih _ _
          · exact hs f
      · exact hs f
    · rw [hr]
      simp

/-- The loop over the index table ends within the iterations it is given by
`ydpdict_open`. -/
theorem read_index_ne_timeout (encoding : ydpdict_encoding_t) (count fuel i : Nat)
    (f : List Nat) (words : List ydpdict_word_t) (h1 : 0 < fuel) (h2 : count ≤ i + fuel) :
    read_index encoding count fuel i f words ≠ .timeout := by
  induction fuel generalizing i f words with
  | zero => omega
  | succ n ih =>
    unfold read_index
    cases hfr : fread 4 (fseek_cur f 4) with
    | none => simp
    | some p =>
      obtain ⟨index, f2⟩ := p
      dsimp only
      by_cases hi : i < words.length
      · simp only [words_store, hi, if_true]
        cases hrw : read_word encoding f2 (List.replicate BUF_SIZE none) 0 with
        | timeout => exact absurd hrw (read_word_ne_timeout _ _ _ _)
        | failure => simp
        | undefined e => simp
        | ok r =>
          obtain ⟨w, f3⟩ := r
          have hi2 : i < (words.set i ⟨none, ydpdict_fix32 index⟩).length := by
            simpa using hi
          simp only [hi2, if_true]
          split_ifs
          · exact ih _ _ _ (by omega) (by omega)
          · simp
      · simp [words_store, hi]

/-- The loader never runs out of the iterations of the model. -/
theorem ydpdict_open_ne_timeout (dat idx : Option (List Nat))
    (encoding : ydpdict_encoding_t) : ydpdict_open dat idx encoding ≠ .timeout := by
  unfold ydpdict_open
  split
  · simp
  · split
    · simp
    · split
      · simp
      · split_ifs
        · simp
        · split
          · simp
          · dsimp only
            split
            · simp
            · split
              · simp
              · simp
              · simp
              · rename_i hloop
                exact absurd hloop (read_index_ne_timeout _ _ _ _ _ _ (by omega) (by omega))

theorem close_tag_rtf (mask : Nat) (tag : List Nat) (st : State) :
    (close_tag mask tag st).rtf = st.rtf := by
  unfold close_tag
  split <;> rfl

theorem CLOSE_TAGS_rtf (st : State) : (CLOSE_TAGS st).rtf = st.rtf := by
  simp only [CLOSE_TAGS, close_tag_rtf]

theorem open_tag_rtf (flag : Nat) (tag : List Nat) (st : State) :
    (open_tag flag tag st).rtf = st.rtf := by
  unfold open_tag
  split <;> rfl

theorem open_span_rtf (dict : ydpdict_priv_t) (flag : Nat) (cls color : List Nat)
    (st : State) : (open_span dict flag cls color st).rtf = st.rtf := by
  unfold open_span APPEND_SPAN
  split
  · split <;> rfl
  · rfl

theorem open_sup_rtf (st : State) : (open_sup st).rtf = st.rtf := by
  unfold open_sup
  split <;> rfl

theorem char_bracket_rtf (c : Nat) (st : State) : (char_bracket c st).rtf = st.rtf := by
  unfold char_bracket
  split <;> rfl

theorem char_paragraph_rtf (dict : ydpdict_priv_t) (c : Nat) (st : State) :
    (char_paragraph dict c st).rtf = st.rtf := by
  unfold char_paragraph
  split
  · dsimp only
    split <;> split <;> simp only [APPEND, CLOSE_TAGS_rtf]
  · rfl

theorem char_attr_rtf (dict : ydpdict_priv_t) (c : Nat) (st : State) :
    (char_attr dict c st).rtf = st.rtf := by
  unfold char_attr
  split
  · simp only [open_sup_rtf, open_span_rtf, open_tag_rtf, CLOSE_TAGS_rtf]
  · rfl

theorem apply_token_rtf (token : List Nat) (st : State) :
    (apply_token token st).rtf = st.rtf := by
  have h1 : ∀ s, (tok_par token s).rtf = s.rtf := by
    intro s; unfold tok_par; split
    · split <;> rfl
    · rfl
  have h2 : ∀ s, (tok_line token s).rtf = s.rtf := by
    intro s; unfold tok_line; split <;> rfl
  have h3 : ∀ n f s, (tok_set n f token s).rtf = s.rtf := by
    intro n f s; unfold tok_set; split <;> rfl
  have h4 : ∀ n f s, (tok_clear n f token s).rtf = s.rtf := by
    intro n f s; unfold tok_clear; split <;> rfl
  have h5 : ∀ n f s, (tok_cf n f token s).rtf = s.rtf := by
    intro n f s; unfold tok_cf; split <;> rfl
  have h6 : ∀ s, (tok_qc token s).rtf = s.rtf := by
    intro s; unfold tok_qc; split <;> rfl
  have h7 : ∀ s, (tok_f token s).rtf = s.rtf := by
    intro s; unfold tok_f; split <;> rfl
  have h8 : ∀ s, (tok_f1 token s).rtf = s.rtf := by
    intro s; unfold tok_f1; split <;> rfl
  have h9 : ∀ s, (tok_sa token s).rtf = s.rtf := by
    intro s; unfold tok_sa; split
    · split <;> rfl
    · rfl
  simp only [apply_token, h1, h2, h3, h4, h5, h6, h7, h8, h9]

theorem read_token_length (rtf token : List Nat) :
    (read_token rtf token).2.length ≤ rtf.length := by
  induction rtf generalizing token with
  | nil => simp [read_token]
  | cons c rtf ih =>
    unfold read_token
    split
    · exact Nat.le_succ_of_le (ih _)
    · simp

theorem tail_length_lt (rtf : List Nat) (h : peek rtf ≠ 0) :
    rtf.tail.length < rtf.length := by
  cases rtf with
  | nil => simp [peek] at h
  | cons c r => simp

theorem step_open_rtf (st : State) : (step_open st).rtf = st.rtf.tail := by
  simp only [step_open, stack_store, stack_load]
  split_ifs <;> rfl

theorem step_close_rtf (st : State) (h : ¬ st.level < 1) :
    (step_close st).rtf = st.rtf.tail := by
  simp only [step_close, stack_load, h, if_false]
  split_ifs <;> simp only [CLOSE_TAGS_rtf]

theorem step_token_length (st : State) :
    (step_token st).rtf.length ≤ st.rtf.tail.length := by
  unfold step_token
  rw [apply_token_rtf]
  dsimp only
  have h := read_token_length st.rtf.tail []
  split
  · have : (read_token st.rtf.tail []).2.tail.length ≤ (read_token st.rtf.tail []).2.length := by
      simp
    omega
  · exact h

theorem step_char_rtf (dict : ydpdict_priv_t) (c : Nat) (st : State) :
    (step_char dict c st).rtf = st.rtf.tail := by
  simp only [step_char, APPEND, char_attr_rtf, char_paragraph_rtf, char_bracket_rtf]

/-- Every iteration of the loop consumes at least one byte of the blob,
except on a closing brace read with an empty attribute stack, where it
changes nothing at all. -/
theorem step_progress (dict : ydpdict_priv_t) (st : State) (h : peek st.rtf ≠ 0) :
    (peek st.rtf = 125 ∧ st.level < 1 ∧ step dict st = st) ∨
    (step dict st).rtf.length < st.rtf.length := by
  have ht := tail_length_lt st.rtf h
  unfold step
  dsimp only
  split_ifs with h1 h2 h3
  · right; rw [step_open_rtf]; exact ht
  · by_cases hl : st.level < 1
    · left; exact ⟨h2, hl, by simp [step_close, hl]⟩
    · right; rw [step_close_rtf st hl]; exact ht
  · right; exact Nat.lt_of_le_of_lt (step_token_length st) ht
  · right; rw [step_char_rtf]; exact ht

/-- If the loop is not left within more iterations than the blob has bytes,
it has reached a closing brace with an empty attribute stack, on which an
iteration changes nothing: the loop of the source never ends. -/
theorem xhtml_loop_none_stuck (dict : ydpdict_priv_t) (fuel : Nat) (st : State)
    (hf : st.rtf.length < fuel) (h : xhtml_loop dict fuel st = none) :
    ∃ k st2, (step dict)^[k] st = st2 ∧ peek st2.rtf = 125 ∧ st2.level < 1 ∧
      step dict st2 = st2 := by
  induction fuel generalizing st with
  | zero => omega
  | succ n ih =>
    unfold xhtml_loop at h
    split at h
    · simp at h
    · rename_i hp
      rcases step_progress dict st hp with ⟨h1, h2, h3⟩ | hlt
      · exact ⟨0, st, rfl, h1, h2, h3⟩
      · obtain ⟨k, st2, hk, hrest⟩ := ih (step dict st) (by omega) h
        exact ⟨k + 1, st2, by rw [Function.iterate_succ_apply]; exact hk, hrest⟩

/-- On a state on which an iteration changes nothing and the loop condition
holds, the loop is not left, whatever the number of iterations. -/
theorem xhtml_loop_stuck (dict : ydpdict_priv_t) (fuel : Nat) (st : State)
    (hp : peek st.rtf ≠ 0) (hs : step dict st = st) : xhtml_loop dict fuel st = none := by
  induction fuel with
  | zero => rfl
  | succ n ih =>
    unfold xhtml_loop
    rw [if_neg hp, hs]
    exact ih

/-! ## Properties of the definition reader and of the word lookup -/

/-- C12 (the code departs from it): `ydpdict_get_word` returns `NULL` for
every index not below the count, but for a negative index it passes the
only test it makes, `def >= dict->count`, and reads `words[def]` before the
start of the word array. -/
theorem C12_get_word_range (dict : ydpdict_priv_t) (hc : 0 ≤ dict.count) :
    (∀ de : Int, de ≥ dict.count → ydpdict_get_word (some dict) de = .failure) ∧
    (∀ de : Int, de < 0 →
      ydpdict_get_word (some dict) de = .undefined (.words_bounds de)) := by
  constructor
  · intro de h
    simp [ydpdict_get_word, h]
  · intro de h
    have h1 : ¬ de ≥ dict.count := by omega
    have h2 : ¬ (0 ≤ de ∧ de.toNat < dict.words.length) := by omega
    simp only [ydpdict_get_word, h1, h2, if_false]

theorem C12_get_word_range_witness :
    (∀ de : Int, de ≥ (1 : Int) →
      ydpdict_get_word (some { plain_dict .YDPDICT_ENCODING_UTF8 false with
        count := 1, words := [⟨some [97], 0⟩] }) de = .failure) ∧
    (∀ de : Int, de < 0 →
      ydpdict_get_word (some { plain_dict .YDPDICT_ENCODING_UTF8 false with
        count := 1, words := [⟨some [97], 0⟩] }) de = .undefined (.words_bounds de)) :=
  C12_get_word_range { plain_dict .YDPDICT_ENCODING_UTF8 false with
    count := 1, words := [⟨some [97], 0⟩] } (by decide)

/-- C13: for every handle and every `def` not below the count,
`ydpdict_read_rtf` and `ydpdict_read_xhtml` return `NULL`, and they do so
without any call on the data stream. -/
theorem C13_range_checked_before_io (dict : ydpdict_priv_t) (de : Int)
    (h : de ≥ dict.count) :
    ydpdict_read_rtf_io (some dict) de = (.failure, []) ∧
    ydpdict_read_xhtml_io (some dict) de = (.failure, []) ∧
    ydpdict_read_rtf (some dict) de = .failure ∧
    ydpdict_read_xhtml (some dict) de = .failure := by
  have h1 : ydpdict_read_rtf_io (some dict) de = (.failure, []) := by
    simp [ydpdict_read_rtf_io, h]
  have h2 : ydpdict_read_xhtml_io (some dict) de = (.failure, []) := by
    simp [ydpdict_read_xhtml_io, h1]
  exact ⟨h1, h2, by simp [ydpdict_read_rtf, h1], by simp [ydpdict_read_xhtml, h2]⟩

theorem C13_range_checked_before_io_witness :
    ydpdict_read_rtf_io (some { plain_dict .YDPDICT_ENCODING_UTF8 false with
        dat := [1, 0, 0, 0, 97], count := 1, words := [⟨some [97], 0⟩] }) 1
      = (.failure, []) ∧
    ydpdict_read_xhtml_io (some { plain_dict .YDPDICT_ENCODING_UTF8 false with
        dat := [1, 0, 0, 0, 97], count := 1, words := [⟨some [97], 0⟩] }) 1
      = (.failure, []) ∧
    ydpdict_read_rtf (some { plain_dict .YDPDICT_ENCODING_UTF8 false with
        dat := [1, 0, 0, 0, 97], count := 1, words := [⟨some [97], 0⟩] }) 1 = .failure ∧
    ydpdict_read_xhtml (some { plain_dict .YDPDICT_ENCODING_UTF8 false with
        dat := [1, 0, 0, 0, 97], count := 1, words := [⟨some [97], 0⟩] }) 1 = .failure :=
  C13_range_checked_before_io { plain_dict .YDPDICT_ENCODING_UTF8 false with
    dat := [1, 0, 0, 0, 97], count := 1, words := [⟨some [97], 0⟩] } 1 (by decide)

/-- What `ydpdict_read_rtf` does for a valid index when the length field is
not 0xFFFFFFFF: it fails when fewer than four bytes follow the offset of the
entry or fewer than `L` bytes follow the length field `L`, and otherwise
returns the `L` bytes that follow the length field, with a NUL after
them. -/
theorem read_rtf_record (dict : ydpdict_priv_t) (i : Nat) (hi : i < dict.words.length)
    (hc : (i : Int) < dict.count) :
    ((dict.dat.drop (dict.words.getD i ⟨none, 0⟩).index).length < 4 →
      ydpdict_read_rtf (some dict) i = .failure) ∧
    (4 ≤ (dict.dat.drop (dict.words.getD i ⟨none, 0⟩).index).length →
      ydpdict_fix32 ((dict.dat.drop (dict.words.getD i ⟨none, 0⟩).index).take 4)
        ≠ 4294967295 →
      ydpdict_fix32 ((dict.dat.drop (dict.words.getD i ⟨none, 0⟩).index).take 4)
        < 4294967296 →
      ydpdict_read_rtf (some dict) i =
        if ydpdict_fix32 ((dict.dat.drop (dict.words.getD i ⟨none, 0⟩).index).take 4)
            ≤ ((dict.dat.drop (dict.words.getD i ⟨none, 0⟩).index).drop 4).length
        then .ok (((dict.dat.drop (dict.words.getD i ⟨none, 0⟩).index).drop 4).take
            (ydpdict_fix32 ((dict.dat.drop (dict.words.getD i ⟨none, 0⟩).index).take 4))
              ++ [0])
        else .failure) := by
  have h1 : ¬ ((i : Int) ≥ dict.count) := by omega
  have h2 : 0 ≤ (i : Int) ∧ (i : Int).toNat < dict.words.length := by
    simp [hi]
  generalize hf : dict.dat.drop (dict.words.getD i ⟨none, 0⟩).index = f
  constructor
  · intro hlen
    have h4 : ¬ 4 ≤ f.length := by omega
    simp only [ydpdict_read_rtf, ydpdict_read_rtf_io, h1, if_false, h2, and_self, if_true,
      Int.toNat_ofNat, fseek_set, hf, fread, h4, hi, true_and]
  · intro hlen hne hlt
    generalize hL : ydpdict_fix32 (f.take 4) = L at hne hlt
    have hw : ¬ ((L + 1) % 4294967296 = 0) := by omega
    simp only [ydpdict_read_rtf, ydpdict_read_rtf_io, h1, if_false, h2, and_self, if_true,
      Int.toNat_ofNat, fseek_set, hf, fread, hlen, hL, hw, hi, true_and]
    by_cases hb : L ≤ (f.drop 4).length
    · simp only [hb, if_true]
    · simp only [hb, if_false]

/-- C14 (the code departs from it): on a data file whose record has the
length field FF FF FF FF followed by 64 bytes, `ydpdict_read_rtf` for the
valid index 0 allocates `malloc(len + 1)` with the sum wrapped to 0 and then
reads the bytes available into that buffer, past its end, where the claim
has it fail without more. -/
theorem C14_length_wraps :
    ydpdict_read_rtf
        (some { plain_dict .YDPDICT_ENCODING_UTF8 false with
          dat := [255, 255, 255, 255] ++ List.replicate 64 65, count := 1,
          words := [⟨some [97], 0⟩] }) 0
      = .undefined .text_overflow ∧
    (ydpdict_fix32 [255, 255, 255, 255] + 1) % 4294967296 = 0 := by
  decide

/-- C15 (the code departs from it): on the blob made of one closing brace,
read with an empty attribute stack, an iteration of the loop changes
nothing, the position in the blob included; the loop is not left, whatever
the number of iterations, and `ydpdict_read_xhtml` does not return. -/
theorem C15_unmatched_brace_loops (dict : ydpdict_priv_t) :
    step dict (xhtml_prologue dict (init_state [125]))
      = xhtml_prologue dict (init_state [125]) ∧
    (xhtml_prologue dict (init_state [125])).rtf = [125] ∧
    (∀ fuel : Nat, xhtml_loop dict fuel (xhtml_prologue dict (init_state [125])) = none) ∧
    xhtml_of_rtf dict [125] = .timeout := by
  have hr : (xhtml_prologue dict (init_state [125])).rtf = [125] := by
    unfold xhtml_prologue
    split
    · cases dict.encoding <;> cases dict.xhtml_style <;> rfl
    · rfl
  have hl : (xhtml_prologue dict (init_state [125])).level = 0 := by
    unfold xhtml_prologue
    split
    · cases dict.encoding <;> cases dict.xhtml_style <;> rfl
    · rfl
  have hs : step dict (xhtml_prologue dict (init_state [125]))
      = xhtml_prologue dict (init_state [125]) := by
    simp [step, hr, peek, step_close, hl]
  have hn : ∀ fuel : Nat,
      xhtml_loop dict fuel (xhtml_prologue dict (init_state [125])) = none :=
    fun fuel => xhtml_loop_stuck dict fuel _ (by simp [hr, peek]) hs
  refine ⟨hs, hr, hn, ?_⟩
  simp [xhtml_of_rtf, hn]

/-! ## The attribute stack -/

theorem same_stack.refl_stack (st : State) : same_stack st st := ⟨rfl, rfl, rfl⟩

theorem same_stack.trans_stack {s1 s2 s3 : State} (h12 : same_stack s1 s2)
    (h23 : same_stack s2 s3) : same_stack s1 s3 :=
  ⟨h23.1.trans h12.1, h23.2.1.trans h12.2.1, h23.2.2.trans h12.2.2⟩

theorem same_stack.inv {s1 s2 : State} (h : same_stack s1 s2) (hi : stack_inv s1) :
    stack_inv s2 := by
  unfold stack_inv
  rw [h.1, h.2.1, h.2.2]
  exact hi

theorem close_tag_stack (mask : Nat) (tag : List Nat) (st : State) :
    same_stack st (close_tag mask tag st) := by
  unfold close_tag
  split <;> exact ⟨rfl, rfl, rfl⟩

theorem CLOSE_TAGS_stack (st : State) : same_stack st (CLOSE_TAGS st) := by
  unfold CLOSE_TAGS
  exact (((close_tag_stack _ _ _).trans_stack (close_tag_stack _ _ _)).trans_stack
    (close_tag_stack _ _ _)).trans_stack (close_tag_stack _ _ _)

theorem open_tag_stack (flag : Nat) (tag : List Nat) (st : State) :
    same_stack st (open_tag flag tag st) := by
  unfold open_tag
  split <;> exact ⟨rfl, rfl, rfl⟩

theorem open_span_stack (dict : ydpdict_priv_t) (flag : Nat) (cls color : List Nat)
    (st : State) : same_stack st (open_span dict flag cls color st) := by
  unfold open_span APPEND_SPAN
  split
  · split <;> exact ⟨rfl, rfl, rfl⟩
  · exact ⟨rfl, rfl, rfl⟩

theorem open_sup_stack (st : State) : same_stack st (open_sup st) := by
  unfold open_sup
  split <;> exact ⟨rfl, rfl, rfl⟩

theorem char_bracket_stack (c : Nat) (st : State) : same_stack st (char_bracket c st) := by
  unfold char_bracket
  split <;> exact ⟨rfl, rfl, rfl⟩

theorem char_paragraph_stack (dict : ydpdict_priv_t) (c : Nat) (st : State) :
    same_stack st (char_paragraph dict c st) := by
  unfold char_paragraph
  split
  · refine (CLOSE_TAGS_stack st).trans_stack ?_
    dsimp only
    split <;> split <;> exact ⟨rfl, rfl, rfl⟩
  · exact same_stack.refl_stack st

theorem char_attr_stack (dict : ydpdict_priv_t) (c : Nat) (st : State) :
    same_stack st (char_attr dict c st) := by
  unfold char_attr
  split
  · have h : same_stack st (open_sup (open_span dict ATTR_CF5 (str "cf5") (str "magenta")
        (open_span dict ATTR_CF2 (str "cf2") (str "red")
        (open_span dict ATTR_CF1 (str "cf1") (str "green")
        (open_span dict ATTR_CF0 (str "cf0") (str "blue")
        (open_tag ATTR_I (str "<i>") (open_tag ATTR_B (str "<b>") (CLOSE_TAGS st)))))))) :=
      (((((((CLOSE_TAGS_stack st).trans_stack (open_tag_stack _ _ _)).trans_stack
        (open_tag_stack _ _ _)).trans_stack (open_span_stack dict _ _ _ _)).trans_stack
        (open_span_stack dict _ _ _ _)).trans_stack (open_span_stack dict _ _ _ _)).trans_stack
        (open_span_stack dict _ _ _ _)).trans_stack (open_sup_stack _)
    exact h.trans_stack ⟨rfl, rfl, rfl⟩
  · exact same_stack.refl_stack st

theorem apply_token_stack (token : List Nat) (st : State) :
    same_stack st (apply_token token st) := by
  have h1 : ∀ s, same_stack s (tok_par token s) := by
    intro s; unfold tok_par; split
    · split <;> exact ⟨rfl, rfl, rfl⟩
    · exact ⟨rfl, rfl, rfl⟩
  have h2 : ∀ s, same_stack s (tok_line token s) := by
    intro s; unfold tok_line; split <;> exact ⟨rfl, rfl, rfl⟩
  have h3 : ∀ n f s, same_stack s (tok_set n f token s) := by
    intro n f s; unfold tok_set; split <;> exact ⟨rfl, rfl, rfl⟩
  have h4 : ∀ n f s, same_stack s (tok_clear n f token s) := by
    intro n f s; unfold tok_clear; split <;> exact ⟨rfl, rfl, rfl⟩
  have h5 : ∀ n f s, same_stack s (tok_cf n f token s) := by
    intro n f s; unfold tok_cf; split <;> exact ⟨rfl, rfl, rfl⟩
  have h6 : ∀ s, same_stack s (tok_qc token s) := by
    intro s; unfold tok_qc; split <;> exact ⟨rfl, rfl, rfl⟩
  have h7 : ∀ s, same_stack s (tok_f token s) := by
    intro s; unfold tok_f; split <;> exact ⟨rfl, rfl, rfl⟩
  have h8 : ∀ s, same_stack s (tok_f1 token s) := by
    intro s; unfold tok_f1; split <;> exact ⟨rfl, rfl, rfl⟩
  have h9 : ∀ s, same_stack s (tok_sa token s) := by
    intro s; unfold tok_sa; split
    · split <;> exact ⟨rfl, rfl, rfl⟩
    · exact ⟨rfl, rfl, rfl⟩
  unfold apply_token
  exact ((((((((((((((h1 _).trans_stack (h2 _)).trans_stack (h3 _ _ _)).trans_stack (h4 _ _ _)).trans_stack
    (h3 _ _ _)).trans_stack (h4 _ _ _)).trans_stack (h5 _ _ _)).trans_stack (h5 _ _ _)).trans_stack
    (h5 _ _ _)).trans_stack (h5 _ _ _)).trans_stack (h3 _ _ _)).trans_stack (h6 _)).trans_stack (h7 _)).trans_stack
    (h8 _)).trans_stack (h9 _)

theorem step_token_stack (st : State) : same_stack st (step_token st) := by
  unfold step_token
  exact (show same_stack st { st with rtf := _ } from ⟨rfl, rfl, rfl⟩).trans_stack
    (apply_token_stack _ _)

theorem step_char_stack (dict : ydpdict_priv_t) (c : Nat) (st : State) :
    same_stack st (step_char dict c st) := by
  unfold step_char
  exact (((char_bracket_stack c st).trans_stack (char_paragraph_stack dict c _)).trans_stack
    (char_attr_stack dict c _)).trans_stack ⟨rfl, rfl, rfl⟩

theorem getD_set_cell (l : List (Option Nat)) (i j : Nat) (v : Option Nat) :
    (l.set i v).getD j none = if i = j ∧ i < l.length then v else l.getD j none := by
  simp only [List.getD_eq_getElem?_getD, List.getElem?_set]
  by_cases h : i = j
  · subst h
    by_cases h2 : i < l.length
    · simp [h2]
    · simp [h2, List.getElem?_eq_none (Nat.le_of_not_lt h2)]
  · simp [h]

/-- A read of the top of the stack of a sound state with at least one saved
set is defined. -/
theorem stack_load_top (st : State) (hi : stack_inv st) (i : Int) (h0 : 0 ≤ i)
    (h1 : i < st.level) : (stack_load st i).2 = true := by
  obtain ⟨hl0, hl16, hf, hlen, hsome, hnone⟩ := hi
  have hr : 0 ≤ i ∧ i < (STACK_SIZE : Int) := by
    simp only [STACK_SIZE]; omega
  have hc := hsome i.toNat (by omega)
  unfold stack_load
  rw [if_pos hr]
  cases hcell : st.attr_stack.getD i.toNat none with
  | none => exact absurd hcell hc
  | some v => rfl

/-- Case of the opening brace: the stack stays sound. -/
theorem step_open_inv (st : State) (hi : stack_inv st) : stack_inv (step_open st) := by
  have hpush : stack_inv (if st.level < 16 then
      { stack_store st st.level st.attr_pending with level := st.level + 1 } else st) ∧
      1 ≤ (if st.level < 16 then
      { stack_store st st.level st.attr_pending with level := st.level + 1 } else st).level := by
    obtain ⟨hl0, hl16, hf, hlen, hsome, hnone⟩ := hi
    by_cases hlt : st.level < 16
    · have hr : 0 ≤ st.level ∧ st.level < (STACK_SIZE : Int) := by
        simp only [STACK_SIZE]; omega
      simp only [hlt, if_true, stack_store, hr, and_self]
      refine ⟨⟨show 0 ≤ st.level + 1 by omega, show st.level + 1 ≤ 16 by omega, hf,
        by simpa using hlen, ?_, ?_⟩, show 1 ≤ st.level + 1 by omega⟩
      · intro i hilt
        replace hilt : (i : Int) < st.level + 1 := hilt
        simp only [getD_set_cell]
        split
        · simp
        · rename_i hne
          apply hsome i
          have : ¬ (st.level.toNat = i) := by
            intro he
            apply hne
            exact ⟨he, by rw [hlen]; simp only [STACK_SIZE]; omega⟩
          omega
      · intro i h16
        simp only [getD_set_cell]
        split
        · rename_i he
          omega
        · exact hnone i h16
    · simp only [hlt, if_false]
      exact ⟨⟨hl0, hl16, hf, hlen, hsome, hnone⟩, by omega⟩
  unfold step_open
  generalize (if st.level < 16 then
      { stack_store st st.level st.attr_pending with level := st.level + 1 } else st) = s1
    at hpush
  obtain ⟨h1, h2⟩ := hpush
  have htop := stack_load_top s1 h1 (s1.level - 1) (by omega) (by omega)
  have hss : same_stack s1 (if s1.margin ≠ 0 then
      (if ((stack_load s1 (s1.level - 1)).1 &&& ATTR_SA) = 0 then
        { (if (stack_load s1 (s1.level - 1)).2 then s1 else { s1 with stack_fault := true })
          with attr := (if (stack_load s1 (s1.level - 1)).2 then s1
            else { s1 with stack_fault := true }).attr ||| ATTR_SA }
      else (if (stack_load s1 (s1.level - 1)).2 then s1 else { s1 with stack_fault := true }))
    else s1) := by
    rw [htop]
    simp only [if_true]
    split
    · split <;> exact ⟨rfl, rfl, rfl⟩
    · exact ⟨rfl, rfl, rfl⟩
  exact (hss.trans_stack ⟨rfl, rfl, rfl⟩).inv h1

/-- Case of the closing brace: the stack stays sound. -/
theorem step_close_inv (st : State) (hi : stack_inv st) : stack_inv (step_close st) := by
  unfold step_close
  by_cases hl : st.level < 1
  · simp only [hl, if_true]
    exact hi
  · simp only [hl, if_false]
    have hs1 : same_stack st (if st.margin ≠ 0 ∧ (st.attr &&& ATTR_SA) ≠ 0 then
        { CLOSE_TAGS st with attr := 0, margin := 0 } else st) := by
      split
      · exact (CLOSE_TAGS_stack st).trans_stack ⟨rfl, rfl, rfl⟩
      · exact same_stack.refl_stack st
    generalize (if st.margin ≠ 0 ∧ (st.attr &&& ATTR_SA) ≠ 0 then
        { CLOSE_TAGS st with attr := 0, margin := 0 } else st) = s1 at hs1
    have h1 : stack_inv s1 := hs1.inv hi
    have hlev : s1.level = st.level := hs1.2.1
    have h2 : stack_inv { s1 with level := s1.level - 1 } := by
      obtain ⟨hl0, hl16, hf, hlen, hsome, hnone⟩ := h1
      exact ⟨show 0 ≤ s1.level - 1 by omega, show s1.level - 1 ≤ 16 by omega, hf, hlen,
        fun i hilt => hsome i (by
          replace hilt : (i : Int) < s1.level - 1 := hilt
          omega), hnone⟩
    have htop : (stack_load { s1 with level := s1.level - 1 } (s1.level - 1)).2 = true := by
      have := stack_load_top s1 h1 (s1.level - 1) (by omega) (by omega)
      simpa [stack_load] using this
    rw [htop]
    simp only [if_true]
    exact (show same_stack { s1 with level := s1.level - 1 } _ from ⟨rfl, rfl, rfl⟩).inv h2

/-- Every iteration of the loop keeps the attribute stack sound. -/
theorem step_inv (dict : ydpdict_priv_t) (st : State) (hi : stack_inv st) :
    stack_inv (step dict st) := by
  unfold step
  dsimp only
  split_ifs
  · exact step_open_inv st hi
  · exact step_close_inv st hi
  · exact (step_token_stack st).inv hi
  · exact (step_char_stack dict _ st).inv hi

theorem xhtml_prologue_stack (dict : ydpdict_priv_t) (st : State) :
    same_stack st (xhtml_prologue dict st) := by
  unfold xhtml_prologue same_stack
  split
  · cases dict.encoding <;> cases dict.xhtml_style <;> refine ⟨?_, ?_, ?_⟩ <;> rfl
  · exact ⟨rfl, rfl, rfl⟩

theorem init_state_inv (rtf : List Nat) : stack_inv (init_state rtf) := by
  refine ⟨by simp [init_state], by simp [init_state], rfl, by simp [init_state], ?_, ?_⟩
  · intro i hi
    simp only [init_state] at hi
    omega
  · intro i _
    simp only [init_state, List.getD_eq_getElem?_getD, List.getElem?_replicate]
    split <;> rfl

theorem iterate_step_inv (dict : ydpdict_priv_t) (k : Nat) (st : State)
    (hi : stack_inv st) : stack_inv ((step dict)^[k] st) := by
  induction k generalizing st with
  | zero => exact hi
  | succ n ih =>
    rw [Function.iterate_succ_apply]
    exact ih _ (step_inv dict st hi)

/-- C16: after any number of iterations of the loop on any blob, the depth of
the attribute stack is within 0..16, no access outside the array or to an
unwritten cell has happened, the cells below the depth hold saved sets and
no cell from index 16 on was ever written, so that every store and every
read used an index in 0..15; an opening brace read at depth 16 leaves the
depth and the contents of the stack unchanged. -/
theorem C16_stack_depth_bounded (dict : ydpdict_priv_t) (rtf : List Nat) (k : Nat) :
    stack_inv ((step dict)^[k] (xhtml_prologue dict (init_state rtf))) ∧
    (∀ st : State, peek st.rtf = 123 → st.level = 16 →
      (step dict st).level = 16 ∧ (step dict st).attr_stack = st.attr_stack) := by
  constructor
  · exact iterate_step_inv dict k _ ((xhtml_prologue_stack dict _).inv (init_state_inv rtf))
  · intro st hp hl
    have hlt : ¬ st.level < 16 := by omega
    simp only [step, hp, if_true, step_open, hlt, if_false]
    constructor
    · split
      · split <;> split <;> exact hl
      · exact hl
    · split
      · split <;> split <;> rfl
      · rfl

theorem xhtml_loop_iterate (dict : ydpdict_priv_t) (fuel : Nat) (st st2 : State)
    (h : xhtml_loop dict fuel st = some st2) : ∃ k, st2 = (step dict)^[k] st := by
  induction fuel generalizing st with
  | zero => simp [xhtml_loop] at h
  | succ n ih =>
    unfold xhtml_loop at h
    split at h
    · simp only [Option.some.injEq] at h
      exact ⟨0, h.symm⟩
    · obtain ⟨k, hk⟩ := ih _ h
      exact ⟨k + 1, by rw [Function.iterate_succ_apply]; exact hk⟩

/-- The conversion never leaves the defined behaviour of C through the
attribute stack: it returns a text or does not return. -/
theorem xhtml_of_rtf_defined (dict : ydpdict_priv_t) (rtf : List Nat) :
    (∃ out, xhtml_of_rtf dict rtf = .ok out) ∨ xhtml_of_rtf dict rtf = .timeout := by
  unfold xhtml_of_rtf
  split
  · exact Or.inr rfl
  · rename_i st hloop
    left
    obtain ⟨k, hk⟩ := xhtml_loop_iterate dict _ _ _ hloop
    have hinv : stack_inv st := by
      rw [hk]
      exact iterate_step_inv dict k _
        ((xhtml_prologue_stack dict _).inv (init_state_inv rtf))
    have hf : (CLOSE_TAGS st).stack_fault = false :=
      ((CLOSE_TAGS_stack st).inv hinv).2.2.1
    dsimp only
    split
    · exact ⟨(CLOSE_TAGS st).buf ++ str "</body></html>", by simp [APPEND, hf]⟩
    · exact ⟨(CLOSE_TAGS st).buf, by simp [hf]⟩

/-! ## Properties of the output buffer and of the string helpers -/

theorem strlen_nul_free (s : List Nat) (h : ∀ x ∈ s, x ≠ 0) : strlen s = s.length := by
  induction s with
  | nil => rfl
  | cons c s ih =>
    have hc : c ≠ 0 := h c (by simp)
    simp [strlen, hc, ih (fun x hx => h x (by simp [hx]))]

/-- The growth loop of `ydpdict_append` on a capacity of at least 1: it ends
within `f + 1` iterations when `f` doublings are enough, on the capacity
multiplied by a power of two that leaves room for `need` bytes and a NUL. -/
theorem append_grow_spec (need : Int) (f : Nat) (len : Int) (h1 : 1 ≤ len)
    (hf : need + 1 ≤ len * 2 ^ f) :
    ∃ k : Nat, append_grow need (f + 1) len = some (len * 2 ^ k) ∧
      need + 1 ≤ len * 2 ^ k := by
  induction f generalizing len with
  | zero =>
    refine ⟨0, ?_, by simpa using hf⟩
    have : ¬ need > len - 1 := by simp at hf; omega
    simp [append_grow, this]
  | succ n ih =>
    by_cases hc : need > len - 1
    · obtain ⟨k, hk, hk2⟩ := ih (len * 2) (by omega) (by
        have : len * 2 * 2 ^ n = len * 2 ^ (n + 1) := by ring
        rw [this]; exact hf)
      refine ⟨k + 1, ?_, ?_⟩
      · have e : len * 2 ^ (k + 1) = len * 2 * 2 ^ k := by ring
        rw [append_grow, if_pos hc, hk, e]
      · have e : len * 2 ^ (k + 1) = len * 2 * 2 ^ k := by ring
        rw [e]; exact hk2
    · refine ⟨0, ?_, by simp; omega⟩
      simp [append_grow, hc]

theorem pow_two_room (n : Nat) (len : Int) (h1 : 1 ≤ len) :
    (n : Int) + 1 ≤ len * 2 ^ (n + 1) := by
  have h2 : n + 1 < 2 ^ (n + 1) := Nat.lt_two_pow (n + 1)
  have h3 : ((n + 1 : Nat) : Int) < ((2 ^ (n + 1) : Nat) : Int) := by exact_mod_cast h2
  have h4 : ((2 ^ (n + 1) : Nat) : Int) = (2 : Int) ^ (n + 1) := by push_cast; rfl
  have h5 : (2 : Int) ^ (n + 1) ≤ len * 2 ^ (n + 1) := by
    have hp : (0 : Int) ≤ 2 ^ (n + 1) := by positivity
    nlinarith
  push_cast at h3
  omega

/-- C17: on a buffer of capacity `c` at least 1 that holds the string `s`
(shorter than `c` or not), `ydpdict_append` of the string `t` returns -1
only when `realloc` fails, and otherwise leaves the buffer holding `s`
followed by `t`, with a capacity `c * 2 ^ k` that is not smaller than `c`
and strictly greater than the length of the new string (integers taken as
exact). -/
theorem C17_append_grows (s t : List Nat) (c : Int) (hs : ∀ x ∈ s, x ≠ 0)
    (ht : ∀ x ∈ t, x ≠ 0) (hc : 1 ≤ c) :
    ∃ k : Nat, c ≤ c * 2 ^ k ∧ ((s ++ t).length : Int) < c * 2 ^ k ∧
      ydpdict_append true s c t = .ok (s ++ t, c * 2 ^ k) ∧
      (ydpdict_append false s c t = .ok (s ++ t, c * 2 ^ k) ∨
        ydpdict_append false s c t = .failure) := by
  have hs1 := strlen_nul_free s hs
  have ht1 := strlen_nul_free t ht
  have hcopy : ∀ len : Int, ((s.length + t.length : Nat) : Int) + 1 ≤ len →
      append_strcpy s len t = .ok (s ++ t, len) := by
    intro len hl
    have h2 : ((s.length + t.length + 1 : Nat) : Int) ≤ len := by
      push_cast; push_cast at hl; omega
    simp only [append_strcpy, hs1, ht1, h2, if_true]
    simp
  by_cases hg : ((s.length + t.length : Nat) : Int) > c - 1
  · obtain ⟨k, hk, hk2⟩ := append_grow_spec ((s.length + t.length : Nat) : Int)
      (s.length + t.length + 1) c hc (pow_two_room (s.length + t.length) c hc)
    have hge : c ≤ c * 2 ^ k := by
      have hp : (1 : Int) ≤ 2 ^ k := by
        have : (0 : Int) < 2 ^ k := by positivity
        omega
      nlinarith
    refine ⟨k, hge, ?_, ?_, ?_⟩
    · simp only [List.length_append]; omega
    · simp only [ydpdict_append, hs1, ht1, hg, if_true, hk, hcopy _ hk2]
    · right
      simp only [ydpdict_append, hs1, ht1, hg, if_true, hk]
      rfl
  · have hfit : ((s.length + t.length : Nat) : Int) + 1 ≤ c := by omega
    refine ⟨0, by simp, ?_, ?_, ?_⟩
    · simp only [List.length_append, pow_zero, mul_one]; omega
    · simp only [ydpdict_append, hs1, ht1, hg, if_false, hcopy _ hfit, pow_zero, mul_one]
    · left
      simp only [ydpdict_append, hs1, ht1, hg, if_false, hcopy _ hfit, pow_zero, mul_one]

theorem C17_append_grows_witness :
    ∃ k : Nat, (4 : Int) ≤ 4 * 2 ^ k ∧ ((([97, 98] : List Nat) ++ [99, 100]).length : Int)
        < 4 * 2 ^ k ∧
      ydpdict_append true [97, 98] 4 [99, 100] = .ok ([97, 98] ++ [99, 100], 4 * 2 ^ k) ∧
      (ydpdict_append false [97, 98] 4 [99, 100] = .ok ([97, 98] ++ [99, 100], 4 * 2 ^ k) ∨
        ydpdict_append false [97, 98] 4 [99, 100] = .failure) :=
  C17_append_grows [97, 98] [99, 100] 4 (by decide) (by decide) (by decide)

/-- C18 (the code departs from its documentation): the helper converts the
codes 1..9 to the superscript digits 1..9, but it tests `< 10`, so the code
10 is not converted to superscript 0 (E2 81 B0): it is copied unchanged. -/
theorem C18_super_code_10 :
    (∀ c ∈ [1, 2, 3, 4, 5, 6, 7, 8, 9],
      ydpdict_windows1250_super_to_utf8 [c] = ydpdict_superscript_to_utf8_table.getD c []) ∧
    ydpdict_superscript_to_utf8_table.getD 0 [] = [0xE2, 0x81, 0xB0] ∧
    ydpdict_windows1250_super_to_utf8 [10] = [10] ∧
    ydpdict_windows1250_super_to_utf8 [10] ≠ ydpdict_superscript_to_utf8_table.getD 0 [] := by
  decide

/-- C20 (the code departs from it): an index file with a valid magic, the
count 0 and the table offset 20 is not opened. The loop over the table is a
`do ... while`, so one entry is read whatever the count: when the file ends
at the table `ydpdict_open` returns `NULL`, and when bytes follow it stores
to `words[0]` of an array of no entry. -/
theorem C20_count_zero :
    ydpdict_open (some []) (some (encode_index [0, 0, 0, 0] [0, 0, 0, 0, 0, 0] [] [] []))
        .YDPDICT_ENCODING_WINDOWS1250 = .failure ∧
    ydpdict_open (some []) (some (encode_index [0, 0, 0, 0] [0, 0, 0, 0, 0, 0] [] [] []))
        .YDPDICT_ENCODING_UTF8 = .failure ∧
    ydpdict_open (some [])
        (some (encode_index [0, 0, 0, 0] [0, 0, 0, 0, 0, 0] [] [0, 0, 0, 0, 7, 0, 0, 0, 97, 0]
          []))
        .YDPDICT_ENCODING_UTF8 = .undefined (.words_bounds 0) ∧
    ydpdict_fix16 ((fseek_set
      (encode_index [0, 0, 0, 0] [0, 0, 0, 0, 0, 0] [] [] []) 8).take 2) = 0 := by
  decide

/-- An index file whose header count is 0 is never opened: the result of
`ydpdict_open` is `NULL` or a store outside the empty word array. -/
theorem open_count_zero (dat : Option (List Nat)) (idxf : List Nat)
    (encoding : ydpdict_encoding_t)
    (h0 : ydpdict_fix16 ((fseek_set idxf 8).take 2) = 0) (d : ydpdict_priv_t) :
    ydpdict_open dat (some idxf) encoding ≠ .ok d := by
  have hloop : ∀ f, (∃ e, read_index encoding 0 1 0 f [] = .undefined e) ∨
      read_index encoding 0 1 0 f [] = .failure := by
    intro f
    unfold read_index
    cases fread 4 (fseek_cur f 4) with
    | none => exact Or.inr rfl
    | some r => exact Or.inl ⟨.words_bounds 0, by simp [words_store]⟩
  unfold ydpdict_open
  cases dat with
  | none => simp
  | some datf =>
    dsimp only
    cases h4 : fread 4 idxf with
    | none => simp
    | some r =>
      dsimp only
      split_ifs
      · simp
      · cases h2 : fread 2 (fseek_set idxf 8) with
        | none => simp
        | some r2 =>
          have hr2 : r2.1 = (fseek_set idxf 8).take 2 := by
            unfold fread at h2
            split at h2
            · simp only [Option.some.injEq] at h2
              rw [← h2]
            · simp at h2
          dsimp only
          rw [hr2, h0]
          cases fread 4 (fseek_set idxf 16) with
          | none => simp
          | some r3 =>
            dsimp only
            rcases hloop (fseek_set idxf (ydpdict_fix32 r3.1)) with ⟨e, he⟩ | he
            · simp only [List.replicate_zero, Nat.zero_add, he]
              simp
            · simp only [List.replicate_zero, Nat.zero_add, he]
              simp

/-! ## Properties of the word search -/

theorem tolower_eq_zero (c : Nat) : tolower c = 0 ↔ c = 0 := by
  unfold tolower
  split <;> omega

/-- On strings without NUL, `strncasecmp(w, q, n)` is 0 exactly when the
first `n` bytes of `w` and of `q`, lowered, are the same. -/
theorem strncasecmp_eq_zero (w q : List Nat) (n : Nat) (hw : ∀ x ∈ w, x ≠ 0)
    (hq : ∀ x ∈ q, x ≠ 0) :
    strncasecmp w q n = 0 ↔ (w.take n).map tolower = (q.take n).map tolower := by
  induction n generalizing w q with
  | zero => simp [strncasecmp]
  | succ n ih =>
    cases w with
    | nil =>
      cases q with
      | nil => simp [strncasecmp, peek]
      | cons d q =>
        have hd : d ≠ 0 := hq d (by simp)
        have hd2 : tolower d ≠ 0 := fun h => hd ((tolower_eq_zero d).mp h)
        have h0 : tolower 0 = 0 := by decide
        have hne : ¬ (0 = tolower d) := fun h => hd2 h.symm
        simp only [strncasecmp, peek, List.headD_nil, List.headD_cons, h0, ne_eq, hne,
          not_false_eq_true, if_true, List.take_nil, List.map_nil, List.take_succ_cons,
          List.map_cons]
        constructor
        · intro h; exfalso; omega
        · intro h; simp at h
    | cons c w =>
      have hc : c ≠ 0 := hw c (by simp)
      have hc2 : tolower c ≠ 0 := fun h => hc ((tolower_eq_zero c).mp h)
      have hw2 : ∀ x ∈ w, x ≠ 0 := fun x hx => hw x (by simp [hx])
      cases q with
      | nil =>
        have h0 : tolower 0 = 0 := by decide
        simp only [strncasecmp, peek, List.headD_nil, List.headD_cons, h0, ne_eq, hc2,
          not_false_eq_true, if_true, List.take_nil, List.map_nil, List.take_succ_cons,
          List.map_cons]
        constructor
        · intro h; exfalso; omega
        · intro h; simp at h
      | cons d q =>
        have hq2 : ∀ x ∈ q, x ≠ 0 := fun x hx => hq x (by simp [hx])
        by_cases he : tolower c = tolower d
        · simp only [strncasecmp, peek, List.headD_cons, he, ne_eq, not_true_eq_false,
            if_false, hc, List.tail_cons, List.take_succ_cons, List.map_cons, List.cons.injEq,
            true_and]
          exact ih w q hw2 hq2
        · simp only [strncasecmp, peek, List.headD_cons, ne_eq, he, not_false_eq_true,
            if_true, List.take_succ_cons, List.map_cons, List.cons.injEq, false_and,
            iff_false]
          omega

theorem strncasecmp_prefix_iff (w q : List Nat) (hw : ∀ x ∈ w, x ≠ 0) (hq : ∀ x ∈ q, x ≠ 0) :
    strncasecmp w q (strlen q) = 0 ↔ ci_prefix q w := by
  rw [strlen_nul_free q hq, strncasecmp_eq_zero w q q.length hw hq, List.take_length]
  rfl

theorem word_of_map (dict : ydpdict_priv_t) (ws : List (List Nat))
    (hwords : dict.words.map (fun e => e.word) = ws.map some) (i : Nat)
    (hi : i < ws.length) :
    i < dict.words.length ∧ (dict.words.getD i ⟨none, 0⟩).word = some (ws.getD i []) := by
  have hlen : dict.words.length = ws.length := by
    have := congrArg List.length hwords
    simpa using this
  have hi2 : i < dict.words.length := by omega
  refine ⟨hi2, ?_⟩
  have h1 : (dict.words.map (fun e => e.word))[i]? = (ws.map some)[i]? := by rw [hwords]
  simp only [List.getElem?_map, List.getElem?_eq_getElem hi2, List.getElem?_eq_getElem hi,
    Option.map_some'] at h1
  rw [List.getD_eq_getElem _ _ hi2, List.getD_eq_getElem _ _ hi]
  simpa using h1

/-- The search loop from index `i`, when no word below `i` has the query as
a prefix. -/
theorem find_word_loop_spec (dict : ydpdict_priv_t) (ws : List (List Nat)) (q : List Nat)
    (hcount : dict.count = (ws.length : Int))
    (hwords : dict.words.map (fun e => e.word) = ws.map some)
    (hws : ∀ w ∈ ws, ∀ x ∈ w, x ≠ 0) (hq : ∀ x ∈ q, x ≠ 0) (fuel i : Nat)
    (hfuel : ws.length < i + fuel) (hi : i ≤ ws.length)
    (hbelow : ∀ j, j < i → ¬ ci_prefix q (ws.getD j [])) :
    ∃ r : Int, find_word_loop dict q fuel i = .ok r ∧
      ((r = -1 ∧ ∀ j, j < ws.length → ¬ ci_prefix q (ws.getD j [])) ∨
       (∃ m : Nat, r = (m : Int) ∧ m < ws.length ∧ ci_prefix q (ws.getD m []) ∧
          ∀ j, j < m → ¬ ci_prefix q (ws.getD j []))) := by
  induction fuel generalizing i with
  | zero => omega
  | succ n ih =>
    unfold find_word_loop
    by_cases hlt : i < ws.length
    · have hc : (i : Int) < dict.count := by rw [hcount]; omega
      obtain ⟨hi2, hword⟩ := word_of_map dict ws hwords i hlt
      have hwi : ∀ x ∈ ws.getD i [], x ≠ 0 := by
        rw [List.getD_eq_getElem _ _ hlt]
        exact hws _ (List.getElem_mem hlt)
      simp only [hc, if_true, hi2, hword]
      by_cases hm : ci_prefix q (ws.getD i [])
      · have h0 := (strncasecmp_prefix_iff (ws.getD i []) q hwi hq).mpr hm
        exact ⟨i, by simp only [h0, if_true], Or.inr ⟨i, rfl, hlt, hm, hbelow⟩⟩
      · have h0 : ¬ strncasecmp (ws.getD i []) q (strlen q) = 0 :=
          fun h => hm ((strncasecmp_prefix_iff (ws.getD i []) q hwi hq).mp h)
        simp only [h0, if_false]
        apply ih (i + 1) (by omega) (by omega)
        intro j hj
        by_cases hji : j = i
        · rw [hji]; exact hm
        · exact hbelow j (by omega)
    · have hc : ¬ (i : Int) < dict.count := by rw [hcount]; omega
      have hin : i = ws.length := by omega
      simp only [hc, if_false]
      exact ⟨-1, rfl, Or.inl ⟨rfl, fun j hj => hbelow j (by omega)⟩⟩

/-- C19: on a handle whose word table holds the words `ws`,
`ydpdict_find_word` returns the smallest index whose word has the query as a
case-insensitive prefix, and -1 exactly when no word has. -/
theorem C19_find_word_first_match (dict : ydpdict_priv_t) (ws : List (List Nat))
    (q : List Nat) (hcount : dict.count = (ws.length : Int))
    (hwords : dict.words.map (fun e => e.word) = ws.map some)
    (hws : ∀ w ∈ ws, ∀ x ∈ w, x ≠ 0) (hq : ∀ x ∈ q, x ≠ 0) :
    ∃ r : Int, ydpdict_find_word (some dict) q = .ok r ∧
      ((r = -1 ∧ ∀ j, j < ws.length → ¬ ci_prefix q (ws.getD j [])) ∨
       (∃ m : Nat, r = (m : Int) ∧ m < ws.length ∧ ci_prefix q (ws.getD m []) ∧
          ∀ j, j < m → ¬ ci_prefix q (ws.getD j []))) := by
  unfold ydpdict_find_word
  have hfuel : ws.length < 0 + (dict.count.toNat + 1) := by
    rw [hcount]; simp
  exact find_word_loop_spec dict ws q hcount hwords hws hq _ 0 hfuel (Nat.zero_le _)
    (fun j hj => absurd hj (Nat.not_lt_zero j))

theorem C19_find_word_first_match_witness :
    ∃ r : Int, ydpdict_find_word
        (some { plain_dict .YDPDICT_ENCODING_UTF8 false with
          count := 3, words := [⟨some [97, 98], 0⟩, ⟨some [65, 66, 99], 9⟩,
            ⟨some [97, 66, 67, 100], 20⟩] }) [97, 98, 67] = .ok r ∧
      ((r = -1 ∧ ∀ j, j < ([[97, 98], [65, 66, 99], [97, 66, 67, 100]] :
          List (List Nat)).length →
          ¬ ci_prefix [97, 98, 67]
            (([[97, 98], [65, 66, 99], [97, 66, 67, 100]] : List (List Nat)).getD j [])) ∨
       (∃ m : Nat, r = (m : Int) ∧
          m < ([[97, 98], [65, 66, 99], [97, 66, 67, 100]] : List (List Nat)).length ∧
          ci_prefix [97, 98, 67]
            (([[97, 98], [65, 66, 99], [97, 66, 67, 100]] : List (List Nat)).getD m []) ∧
          ∀ j, j < m → ¬ ci_prefix [97, 98, 67]
            (([[97, 98], [65, 66, 99], [97, 66, 67, 100]] : List (List Nat)).getD j []))) :=
  C19_find_word_first_match
    { plain_dict .YDPDICT_ENCODING_UTF8 false with
      count := 3, words := [⟨some [97, 98], 0⟩, ⟨some [65, 66, 99], 9⟩,
        ⟨some [97, 66, 67, 100], 20⟩] }
    [[97, 98], [65, 66, 99], [97, 66, 67, 100]] [97, 98, 67]
    (by decide) (by decide) (by decide) (by decide)

/-! ## Premature end of the index file -/

set_option maxRecDepth 1000000 in
/-- C11 as stated fails: the index file below has a valid header with the
count 1 and ends inside its only table entry, after 257 bytes `a` of the
word and before any NUL, and `ydpdict_open` does not take its failure path.
After 256 bytes the word loop goes on, reads the 257th byte and stores it to
`buf[256]`, past the buffer; the end of the stream is never met. -/
theorem C11_counterexample :
    ydpdict_open (some [])
        (some (le32_bytes YDPDICT_IDX_MAGIC ++ [0, 0, 0, 0] ++ le16_bytes 1
          ++ [0, 0, 0, 0, 0, 0] ++ le32_bytes 20 ++ [0, 0, 0, 0] ++ le32_bytes 0
          ++ List.replicate 257 97))
        .YDPDICT_ENCODING_WINDOWS1250
      = .undefined (.buf_overflow (List.replicate 256 (some 97)) 256) ∧
    ydpdict_open (some [])
        (some (le32_bytes YDPDICT_IDX_MAGIC ++ [0, 0, 0, 0] ++ le16_bytes 1
          ++ [0, 0, 0, 0, 0, 0] ++ le32_bytes 20 ++ [0, 0, 0, 0] ++ le32_bytes 0
          ++ List.replicate 257 97))
        .YDPDICT_ENCODING_WINDOWS1250
      ≠ .failure := by
  constructor <;> decide

/-- The word loop in windows-1250 mode on a stream that ends inside a word
that fits the buffer: the read at the end of the stream fails. -/
theorem read_word_truncated_windows1250 (w pre : List Nat) (hw : ∀ c ∈ w, c ≠ 0)
    (hlen : pre.length + w.length < BUF_SIZE) :
    read_word .YDPDICT_ENCODING_WINDOWS1250 w (buf_of pre) pre.length = .failure := by
  induction w generalizing pre with
  | nil => simp [read_word]
  | cons c w ih =>
    have h1 : pre.length < BUF_SIZE := by simp at hlen; omega
    have hc : c ≠ 0 := hw c (by simp)
    simp only [read_word, word_body, buf_store, if_true, h1, buf_of_set, buf_of_getD,
      ne_eq, hc, not_false_eq_true]
    have h3 := ih (pre ++ [c]) (fun d hd => hw d (by simp [hd])) (by simp at hlen ⊢; omega)
    simpa using h3

/-- The word loop in UTF-8 mode on a stream that ends inside a word whose
decoded form fits the buffer: the read at the end of the stream fails. -/
theorem read_word_truncated_utf8 (w pre : List Nat) (hw : ∀ c ∈ w, c ≠ 0 ∧ c < 256)
    (hlen : pre.length + (ydpdict_windows1250_to_utf8 w).length < BUF_SIZE) :
    read_word .YDPDICT_ENCODING_UTF8 w (buf_of pre) pre.length = .failure := by
  induction w generalizing pre with
  | nil => simp [read_word]
  | cons c w ih =>
    have hc : c ≠ 0 := (hw c (by simp)).1
    have hc2 : c < 256 := (hw c (by simp)).2
    have hw2 : ∀ d ∈ w, d ≠ 0 ∧ d < 256 := fun d hd => hw d (by simp [hd])
    simp only [ydpdict_windows1250_to_utf8, hc, if_false, List.length_append] at hlen
    by_cases hhi : c > 127
    · have hge : c ≥ 128 := hhi
      simp only [hge, if_true] at hlen
      obtain ⟨hne, hnz⟩ := windows1250_entry c hge hc2
      generalize he : ydpdict_windows1250_to_utf8_table.getD (c - 128) [] = e at hlen hne hnz
      obtain ⟨e2, d, rfl⟩ : ∃ e2 d, e = e2 ++ [d] := by
        rcases List.eq_nil_or_concat e with h | ⟨e2, d, h⟩
        · exact absurd h hne
        · exact ⟨e2, d, by simpa using h⟩
      have hd : d ≠ 0 := hnz d (by simp)
      have hfit : pre.length + (e2 ++ [d]).length ≤ BUF_SIZE := by omega
      have hj : pre.length + (e2 ++ [d]).length - 1 = (pre ++ e2).length := by simp
      have hj2 : (pre ++ e2).length < BUF_SIZE := by
        simp only [List.length_append, List.length_singleton] at hlen ⊢; omega
      have hbuf : buf_of (pre ++ (e2 ++ [d])) = buf_of ((pre ++ e2) ++ [d]) := by
        rw [List.append_assoc]
      have h3 := ih (pre ++ (e2 ++ [d])) hw2
        (by simp only [List.length_append, List.length_singleton] at hlen ⊢; omega)
      have hj3 : (pre ++ e2).length + 1 = (pre ++ (e2 ++ [d])).length := by simp; omega
      simp only [read_word, word_body, reduceCtorEq, if_false, hhi,
        if_true, he, copy_entry_fits _ _ hfit, hj, hj2, hbuf, buf_of_getD, ne_eq, hd,
        not_false_eq_true]
      rw [← hbuf, hj3, h3]
    · have hlo : ¬ c ≥ 128 := by omega
      simp only [hlo, if_false, List.length_singleton] at hlen
      have h1 : pre.length < BUF_SIZE := by omega
      have h3 := ih (pre ++ [c]) hw2
        (by simp only [List.length_append, List.length_singleton]; omega)
      simp only [read_word, word_body, reduceCtorEq, if_false, hhi,
        buf_store, h1, if_true, buf_of_set, buf_of_getD, ne_eq, hc, not_false_eq_true]
      simpa using h3

theorem windows1250_to_utf8_take_length (w : List Nat) (k : Nat) (hw : ∀ c ∈ w, c ≠ 0) :
    (ydpdict_windows1250_to_utf8 (w.take k)).length
      ≤ (ydpdict_windows1250_to_utf8 w).length := by
  induction w generalizing k with
  | nil => simp
  | cons c w ih =>
    cases k with
    | zero => simp [ydpdict_windows1250_to_utf8]
    | succ k =>
      have hc : c ≠ 0 := hw c (by simp)
      have h := ih k (fun d hd => hw d (by simp [hd]))
      simp only [List.take_succ_cons, ydpdict_windows1250_to_utf8, hc, if_false,
        List.length_append]
      omega

theorem fread_short (n : Nat) (f : List Nat) (h : f.length < n) : fread n f = none := by
  unfold fread
  rw [if_neg (by omega)]

theorem encode_table_take (e : index_entry) (todo : List index_entry) (m : Nat)
    (hr : e.reserved.length = 4) (hm : 8 ≤ m) :
    (encode_table (e :: todo)).take m
      = e.reserved ++ (le32_bytes e.offset
          ++ (e.word ++ 0 :: encode_table todo).take (m - 8)) := by
  have h4 : (le32_bytes e.offset).length = 4 := rfl
  simp only [encode_table, encode_entry, List.append_assoc, List.singleton_append]
  rw [List.take_append_eq_append_take, List.take_of_length_le (by omega), hr,
    List.take_append_eq_append_take, List.take_of_length_le (by rw [h4]; omega), h4]
  have : m - 4 - 4 = m - 8 := by omega
  rw [this]

/-- The loop over the index table on a table cut before its end: the read
that meets the end of the stream fails and the loop returns through
`failure`. -/
theorem read_index_truncated (encoding : ydpdict_encoding_t) (dec : List Nat → List Nat)
    (todo : List index_entry) (done : List ydpdict_word_t) (m fuel count : Nat)
    (hword : ∀ e ∈ todo, ∀ r, read_word encoding (e.word ++ 0 :: r) (buf_of []) 0
      = .ok (dec e.word, r))
    (htrunc : ∀ e ∈ todo, ∀ k, read_word encoding (e.word.take k) (buf_of []) 0 = .failure)
    (hres : ∀ e ∈ todo, e.reserved.length = 4 ∧ e.offset < 4294967296)
    (hcount : count = done.length + todo.length) (hfuel : todo.length ≤ fuel)
    (hm : m < (encode_table todo).length) :
    read_index encoding count fuel done.length ((encode_table todo).take m)
        (done ++ List.replicate todo.length ⟨none, 0⟩)
      = .failure := by
  induction todo generalizing done fuel m with
  | nil => simp [encode_table] at hm
  | cons e todo ih =>
    obtain ⟨fuel, rfl⟩ : ∃ k, fuel = k + 1 := ⟨fuel - 1, by simp at hfuel; omega⟩
    obtain ⟨hr, ho⟩ := hres e (by simp)
    have hbuf : List.replicate BUF_SIZE (none : Option Nat) = buf_of [] := by
      simp [buf_of]
    have hlt : ∀ (x : ydpdict_word_t) (r : List ydpdict_word_t),
        done.length < (done ++ x :: r).length := by intro x r; simp
    by_cases h8 : m < 8
    · rw [read_index, fread_short 4 _ (by simp [fseek_cur]; omega)]
    · have hX := encode_table_take e todo m hr (by omega)
      have hseek : fseek_cur ((encode_table (e :: todo)).take m) 4
          = le32_bytes e.offset ++ (e.word ++ 0 :: encode_table todo).take (m - 8) := by
        rw [hX, fseek_cur, List.drop_left' hr]
      rw [read_index, hseek, fread_append 4 _ _ (by simp [le32_bytes])]
      simp only [fix32_le32_bytes _ ho, words_store, hlt, if_true, List.length_cons,
        List.replicate_succ, set_middle, hbuf]
      by_cases hw : m - 8 ≤ e.word.length
      · rw [List.take_append_of_le_length hw, htrunc e (by simp)]
      · have hsplit : (e.word ++ 0 :: encode_table todo).take (m - 8)
            = e.word ++ 0 :: (encode_table todo).take (m - 8 - e.word.length - 1) := by
          rw [List.take_append_eq_append_take, List.take_of_length_le (by omega)]
          obtain ⟨j, hj⟩ : ∃ j, m - 8 - e.word.length = j + 1 :=
            ⟨m - 8 - e.word.length - 1, by omega⟩
          rw [hj, List.take_succ_cons]
          simp
        have hlen : (encode_table (e :: todo)).length
            = 9 + e.word.length + (encode_table todo).length := by
          simp [encode_table, encode_entry, hr, le32_bytes]
          omega
        have hm2 : m - 8 - e.word.length - 1 < (encode_table todo).length := by omega
        have hnil : todo ≠ [] := by
          intro h
          rw [h] at hm2
          simp [encode_table] at hm2
        have hpos : 0 < todo.length := List.length_pos.mpr hnil
        have hcont : done.length + 1 < count := by simp at hcount; omega
        rw [hsplit, hword e (by simp)]
        simp only [hlt, if_true, set_middle, hcont]
        have h := ih (done ++ [⟨some (dec e.word), e.offset⟩]) (m - 8 - e.word.length - 1) fuel
          (fun x hx => hword x (by simp [hx])) (fun x hx => htrunc x (by simp [hx]))
          (fun x hx => hres x (by simp [hx]))
          (by simp at hcount ⊢; omega) (by simp at hfuel; omega) hm2
        simpa using h

theorem fread_take (k j : Nat) (a b : List Nat) (h : a.length = k) :
    fread k ((a ++ b).take j) = if k ≤ j then some (a, b.take (j - k)) else none := by
  by_cases hk : k ≤ j
  · rw [if_pos hk, List.take_append_eq_append_take, List.take_of_length_le (by omega), h]
    exact fread_append k _ _ h
  · rw [if_neg hk]
    exact fread_short k _ (by simp; omega)

/-- Every index file obtained by cutting a well-formed index file before its
end (inside the header, before the table or inside the table, the NUL of
the last word included) is refused: `ydpdict_open` returns `NULL`. The
words are those the word loop reads without reaching the end of its
buffer. -/
theorem open_truncated (encoding : ydpdict_encoding_t) (dec : List Nat → List Nat)
    (datf gap1 gap2 gap3 : List Nat) (es : List index_entry) (n : Nat)
    (hg1 : gap1.length = 4) (hg2 : gap2.length = 6) (hg3 : 20 + gap3.length < 4294967296)
    (hn2 : es.length ≤ 65535)
    (hword : ∀ e ∈ es, ∀ r, read_word encoding (e.word ++ 0 :: r) (buf_of []) 0
      = .ok (dec e.word, r))
    (htrunc : ∀ e ∈ es, ∀ k, read_word encoding (e.word.take k) (buf_of []) 0 = .failure)
    (hres : ∀ e ∈ es, e.reserved.length = 4 ∧ e.offset < 4294967296)
    (hn : n < (encode_index gap1 gap2 gap3 [] es).length) :
    ydpdict_open (some datf) (some ((encode_index gap1 gap2 gap3 [] es).take n)) encoding
      = .failure := by
  have hF : encode_index gap1 gap2 gap3 [] es
      = le32_bytes YDPDICT_IDX_MAGIC ++ (gap1 ++ (le16_bytes es.length ++ (gap2 ++
          (le32_bytes (20 + gap3.length) ++ (gap3 ++ (encode_table es ++ [])))))) := rfl
  have hlenF : (encode_index gap1 gap2 gap3 [] es).length
      = 20 + gap3.length + (encode_table es).length := by
    simp [encode_index, le32_bytes, le16_bytes, hg1, hg2]
    omega
  have hs8 : (encode_index gap1 gap2 gap3 [] es).drop 8
      = le16_bytes es.length ++ (gap2 ++
          (le32_bytes (20 + gap3.length) ++ (gap3 ++ (encode_table es ++ [])))) := by
    rw [hF, ← List.append_assoc]
    exact List.drop_left' (by simp [le32_bytes, hg1])
  have hs16 : (encode_index gap1 gap2 gap3 [] es).drop 16
      = le32_bytes (20 + gap3.length) ++ (gap3 ++ (encode_table es ++ [])) := by
    rw [hF, ← List.append_assoc, ← List.append_assoc, ← List.append_assoc]
    exact List.drop_left' (by simp [le32_bytes, le16_bytes, hg1, hg2])
  have hst : (encode_index gap1 gap2 gap3 [] es).drop (20 + gap3.length)
      = encode_table es := by
    rw [hF, ← List.append_assoc, ← List.append_assoc, ← List.append_assoc,
      ← List.append_assoc, ← List.append_assoc, List.append_nil]
    exact List.drop_left' (by simp [le32_bytes, le16_bytes, hg1, hg2]; omega)
  have hm : ydpdict_fix32 (le32_bytes YDPDICT_IDX_MAGIC) = YDPDICT_IDX_MAGIC := by decide
  have h1 : fread 4 ((encode_index gap1 gap2 gap3 [] es).take n)
      = if 4 ≤ n then some (le32_bytes YDPDICT_IDX_MAGIC,
          (gap1 ++ (le16_bytes es.length ++ (gap2 ++ (le32_bytes (20 + gap3.length) ++
            (gap3 ++ (encode_table es ++ [])))))).take (n - 4)) else none := by
    rw [hF]
    exact fread_take 4 n _ _ rfl
  have h2 : fread 2 (fseek_set ((encode_index gap1 gap2 gap3 [] es).take n) 8)
      = if 2 ≤ n - 8 then some (le16_bytes es.length,
          (gap2 ++ (le32_bytes (20 + gap3.length) ++
            (gap3 ++ (encode_table es ++ [])))).take (n - 8 - 2)) else none := by
    rw [fseek_set, List.drop_take, hs8]
    exact fread_take 2 (n - 8) _ _ rfl
  have h3 : fread 4 (fseek_set ((encode_index gap1 gap2 gap3 [] es).take n) 16)
      = if 4 ≤ n - 16 then some (le32_bytes (20 + gap3.length),
          (gap3 ++ (encode_table es ++ [])).take (n - 16 - 4)) else none := by
    rw [fseek_set, List.drop_take, hs16]
    exact fread_take 4 (n - 16) _ _ rfl
  have h4 : fseek_set ((encode_index gap1 gap2 gap3 [] es).take n) (20 + gap3.length)
      = (encode_table es).take (n - (20 + gap3.length)) := by
    rw [fseek_set, List.drop_take, hst]
  have hloop : read_index encoding es.length (es.length + 1) 0
      ((encode_table es).take (n - (20 + gap3.length)))
      (List.replicate es.length ⟨none, 0⟩) = .failure := by
    cases hes : es with
    | nil => simp [encode_table, read_index, fread, fseek_cur]
    | cons e es2 =>
      have htab : 0 < (encode_table es).length := by
        rw [hes]; simp [encode_table, encode_entry]
      have h := read_index_truncated encoding dec es [] (n - (20 + gap3.length))
        (es.length + 1) es.length hword htrunc hres (by simp) (by omega)
        (by rw [hlenF] at hn; omega)
      simp only [List.length_nil, List.nil_append] at h
      rw [hes] at h
      exact h
  unfold ydpdict_open
  simp only [h1]
  by_cases hc1 : 4 ≤ n
  · simp only [hc1, if_true, hm, ne_eq, not_true_eq_false, if_false, h2]
    by_cases hc2 : 2 ≤ n - 8
    · simp only [hc2, if_true, fix16_le16_bytes _ (by omega : es.length < 65536), h3]
      by_cases hc3 : 4 ≤ n - 16
      · simp only [hc3, if_true, fix32_le32_bytes _ hg3, h4, hloop]
      · simp only [hc3, if_false]
    · simp only [hc2, if_false]
  · simp only [hc1, if_false]

/-- C11 (amended): an index file of the documented layout whose words are
stored in fewer than 256 bytes, cut anywhere before its end (before the
magic, the count or the table offset is complete, before the table, or
inside the table up to the NUL of the last entry), is refused:
`ydpdict_open` returns `NULL`, in both output encodings. -/
theorem C11_premature_end_fails (encoding : ydpdict_encoding_t)
    (datf gap1 gap2 gap3 : List Nat) (es : List index_entry) (n : Nat)
    (hg1 : gap1.length = 4) (hg2 : gap2.length = 6) (hg3 : 20 + gap3.length < 4294967296)
    (hn2 : es.length ≤ 65535)
    (hes : ∀ e ∈ es, e.reserved.length = 4 ∧ e.offset < 4294967296 ∧
      (∀ c ∈ e.word, c ≠ 0 ∧ c < 256) ∧ stored_length encoding e.word < 256)
    (hn : n < (encode_index gap1 gap2 gap3 [] es).length) :
    ydpdict_open (some datf) (some ((encode_index gap1 gap2 gap3 [] es).take n)) encoding
      = .failure := by
  have hres : ∀ e ∈ es, e.reserved.length = 4 ∧ e.offset < 4294967296 :=
    fun e he => ⟨(hes e he).1, (hes e he).2.1⟩
  cases encoding with
  | YDPDICT_ENCODING_WINDOWS1250 =>
    refine open_truncated _ id datf gap1 gap2 gap3 es n hg1 hg2 hg3 hn2 ?_ ?_ hres hn
    · intro e he r
      have hl : e.word.length < 256 := (hes e he).2.2.2
      have h := read_word_windows1250 e.word [] r (fun c hc => ((hes e he).2.2.1 c hc).1)
        (by simp) (by simpa [BUF_SIZE] using hl)
      simpa using h
    · intro e he k
      have hl : e.word.length < 256 := (hes e he).2.2.2
      have h := read_word_truncated_windows1250 (e.word.take k) []
        (fun c hc => ((hes e he).2.2.1 c (List.mem_of_mem_take hc)).1)
        (by simp [BUF_SIZE]; omega)
      simpa using h
  | YDPDICT_ENCODING_UTF8 =>
    refine open_truncated _ ydpdict_windows1250_to_utf8 datf gap1 gap2 gap3 es n hg1 hg2 hg3
      hn2 ?_ ?_ hres hn
    · intro e he r
      have hnz : ∀ c ∈ e.word, c ≠ 0 := fun c hc => ((hes e he).2.2.1 c hc).1
      have hl : (decode_word_spec e.word).length < 256 := (hes e he).2.2.2
      have h := read_word_utf8 e.word [] r (hes e he).2.2.1 (by simp)
        (by rw [← decode_word_spec_eq e.word hnz]; simpa [BUF_SIZE] using hl)
      simpa using h
    · intro e he k
      have hnz : ∀ c ∈ e.word, c ≠ 0 := fun c hc => ((hes e he).2.2.1 c hc).1
      have hl : (decode_word_spec e.word).length < 256 := (hes e he).2.2.2
      rw [decode_word_spec_eq e.word hnz] at hl
      have hk := windows1250_to_utf8_take_length e.word k hnz
      have h := read_word_truncated_utf8 (e.word.take k) []
        (fun c hc => (hes e he).2.2.1 c (List.mem_of_mem_take hc))
        (by simp [BUF_SIZE]; omega)
      simpa using h

theorem C11_premature_end_fails_witness :
    ydpdict_open (some [])
        (some ((encode_index [0, 0, 0, 0] [0, 0, 0, 0, 0, 0] [] []
          [⟨[1, 2, 3, 4], 5, [97, 98]⟩, ⟨[0, 0, 0, 0], 300, [128, 99]⟩]).take 38))
        .YDPDICT_ENCODING_UTF8
      = .failure :=
  C11_premature_end_fails .YDPDICT_ENCODING_UTF8 [] [0, 0, 0, 0] [0, 0, 0, 0, 0, 0] []
    [⟨[1, 2, 3, 4], 5, [97, 98]⟩, ⟨[0, 0, 0, 0], 300, [128, 99]⟩] 38
    (by decide) (by decide) (by decide) (by decide) (by decide) (by decide)

/-! ## The document wrapper -/

theorem APPEND_prepend (p : List Nat) (st : State) (x : List Nat) :
    APPEND (prepend_buf p st) x = prepend_buf p (APPEND st x) := by
  simp [APPEND, prepend_buf]

theorem APPEND_SPAN_prepend (dict : ydpdict_priv_t) (p : List Nat) (st : State)
    (cls color : List Nat) :
    APPEND_SPAN dict (prepend_buf p st) cls color
      = prepend_buf p (APPEND_SPAN dict st cls color) := by
  unfold APPEND_SPAN
  split <;> simp only [APPEND_prepend]

theorem close_tag_prepend (mask : Nat) (tag : List Nat) (p : List Nat) (st : State) :
    close_tag mask tag (prepend_buf p st) = prepend_buf p (close_tag mask tag st) := by
  unfold close_tag
  rw [APPEND_prepend]
  show (if (st.attr &&& mask) ≠ 0 then _ else _) = _
  split <;> rfl

theorem CLOSE_TAGS_prepend (p : List Nat) (st : State) :
    CLOSE_TAGS (prepend_buf p st) = prepend_buf p (CLOSE_TAGS st) := by
  simp only [CLOSE_TAGS, close_tag_prepend]

theorem step_open_prepend (p : List Nat) (st : State) :
    step_open (prepend_buf p st) = prepend_buf p (step_open st) := by
  rcases st with ⟨rtf, buf, attr, pend, stack, level, par, margin, fault⟩
  simp only [step_open, stack_store, stack_load, prepend_buf]
  split_ifs <;> rfl

theorem step_close_prepend (p : List Nat) (st : State) :
    step_close (prepend_buf p st) = prepend_buf p (step_close st) := by
  unfold step_close
  simp only [CLOSE_TAGS_prepend]
  generalize CLOSE_TAGS st = ct
  rcases st with ⟨rtf, buf, attr, pend, stack, level, par, margin, fault⟩
  rcases ct with ⟨rtf2, buf2, attr2, pend2, stack2, level2, par2, margin2, fault2⟩
  simp only [stack_load, prepend_buf]
  split_ifs <;> rfl

theorem apply_token_prepend (token : List Nat) (p : List Nat) (st : State) :
    apply_token token (prepend_buf p st) = prepend_buf p (apply_token token st) := by
  have hpar : ∀ s, tok_par token (prepend_buf p s) = prepend_buf p (tok_par token s) := by
    intro s; unfold tok_par prepend_buf; dsimp only; split <;> (try split) <;> rfl
  have hline : ∀ s, tok_line token (prepend_buf p s) = prepend_buf p (tok_line token s) := by
    intro s; unfold tok_line; rw [APPEND_prepend]
    show (if token = str "line" ∧ s.paragraph = 0 then _ else _) = _
    split <;> rfl
  have hset : ∀ name flag s, tok_set name flag token (prepend_buf p s)
      = prepend_buf p (tok_set name flag token s) := by
    intro name flag s; unfold tok_set prepend_buf; dsimp only; split <;> rfl
  have hclear : ∀ name flag s, tok_clear name flag token (prepend_buf p s)
      = prepend_buf p (tok_clear name flag token s) := by
    intro name flag s; unfold tok_clear prepend_buf; dsimp only; split <;> rfl
  have hcf : ∀ name flag s, tok_cf name flag token (prepend_buf p s)
      = prepend_buf p (tok_cf name flag token s) := by
    intro name flag s; unfold tok_cf prepend_buf; dsimp only; split <;> rfl
  have hqc : ∀ s, tok_qc token (prepend_buf p s) = prepend_buf p (tok_qc token s) := by
    intro s; unfold tok_qc prepend_buf; dsimp only; split <;> rfl
  have hf : ∀ s, tok_f token (prepend_buf p s) = prepend_buf p (tok_f token s) := by
    intro s; unfold tok_f prepend_buf; dsimp only; split <;> rfl
  have hf1 : ∀ s, tok_f1 token (prepend_buf p s) = prepend_buf p (tok_f1 token s) := by
    intro s; unfold tok_f1 prepend_buf; dsimp only; split <;> rfl
  have hsa : ∀ s, tok_sa token (prepend_buf p s) = prepend_buf p (tok_sa token s) := by
    intro s; unfold tok_sa prepend_buf; dsimp only; split <;> (try split) <;> rfl
  simp only [apply_token, hpar, hline, hset, hclear, hcf, hqc, hf, hf1, hsa]

theorem step_token_prepend (p : List Nat) (st : State) :
    step_token (prepend_buf p st) = prepend_buf p (step_token st) := by
  unfold step_token
  rw [← apply_token_prepend]
  rfl

theorem char_bracket_prepend (c : Nat) (p : List Nat) (st : State) :
    char_bracket c (prepend_buf p st) = prepend_buf p (char_bracket c st) := by
  unfold char_bracket prepend_buf
  dsimp only
  split <;> rfl

theorem char_paragraph_prepend (dict : ydpdict_priv_t) (c : Nat) (p : List Nat) (st : State) :
    char_paragraph dict c (prepend_buf p st) = prepend_buf p (char_paragraph dict c st) := by
  unfold char_paragraph
  simp only [CLOSE_TAGS_prepend]
  unfold prepend_buf APPEND
  dsimp only
  split
  · split <;> split <;> simp
  · rfl

theorem open_tag_prepend (flag : Nat) (tag : List Nat) (p : List Nat) (st : State) :
    open_tag flag tag (prepend_buf p st) = prepend_buf p (open_tag flag tag st) := by
  unfold open_tag
  rw [APPEND_prepend]
  show (if (st.attr_pending &&& flag) ≠ 0 then _ else _) = _
  split <;> rfl

theorem open_span_prepend (dict : ydpdict_priv_t) (flag : Nat) (cls color : List Nat)
    (p : List Nat) (st : State) :
    open_span dict flag cls color (prepend_buf p st)
      = prepend_buf p (open_span dict flag cls color st) := by
  unfold open_span
  rw [APPEND_SPAN_prepend]
  show (if (st.attr_pending &&& flag) ≠ 0 then _ else _) = _
  split <;> rfl

theorem open_sup_prepend (p : List Nat) (st : State) :
    open_sup (prepend_buf p st) = prepend_buf p (open_sup st) := by
  unfold open_sup
  rw [APPEND_prepend]
  show (if (st.attr_pending &&& ATTR_SUPER) ≠ 0 ∧ (st.attr &&& ATTR_SUPER) = 0 then _ else _) = _
  split <;> rfl

theorem char_attr_prepend (dict : ydpdict_priv_t) (c : Nat) (p : List Nat) (st : State) :
    char_attr dict c (prepend_buf p st) = prepend_buf p (char_attr dict c st) := by
  unfold char_attr
  simp only [CLOSE_TAGS_prepend, open_tag_prepend, open_span_prepend, open_sup_prepend]
  show (if ¬ isspace c ∧ st.attr ≠ st.attr_pending then _ else _) = _
  split <;> rfl

theorem step_char_prepend (dict : ydpdict_priv_t) (c : Nat) (p : List Nat) (st : State) :
    step_char dict c (prepend_buf p st) = prepend_buf p (step_char dict c st) := by
  unfold step_char
  simp only [char_bracket_prepend, char_paragraph_prepend, char_attr_prepend, APPEND_prepend]
  rfl

theorem step_prepend (dict : ydpdict_priv_t) (p : List Nat) (st : State) :
    step dict (prepend_buf p st) = prepend_buf p (step dict st) := by
  have hr : (prepend_buf p st).rtf = st.rtf := rfl
  unfold step
  simp only [step_open_prepend, step_close_prepend, step_token_prepend, step_char_prepend, hr]
  split_ifs <;> rfl

theorem xhtml_loop_prepend (dict : ydpdict_priv_t) (p : List Nat) (fuel : Nat) (st : State) :
    xhtml_loop dict fuel (prepend_buf p st) = (xhtml_loop dict fuel st).map (prepend_buf p) := by
  induction fuel generalizing st with
  | zero => rfl
  | succ n ih =>
    unfold xhtml_loop
    rw [step_prepend, ih]
    show (if peek st.rtf = 0 then _ else _) = _
    split <;> rfl

theorem xhtml_prologue_spec (dict : ydpdict_priv_t) (h : dict.xhtml_header ≠ 0)
    (rtf : List Nat) :
    xhtml_prologue dict (init_state rtf) = prepend_buf (prologue_spec dict) (init_state rtf) := by
  unfold xhtml_prologue prologue_spec prepend_buf APPEND init_state
  simp only [h, ne_eq, not_false_eq_true, if_true]
  cases dict.encoding <;> cases dict.xhtml_title <;> cases dict.xhtml_style <;>
    simp [List.append_assoc]

/-- On the text of the output, where every `ydpdict_append` is taken to
succeed, a handle with header output enabled produces what it produces with
header output disabled, put between the prologue and `</body></html>`; when
no text is returned without the header, none is returned with it. The `int`
capacity of the buffer is left out here. -/
theorem header_wraps_body_text (dict : ydpdict_priv_t) (h : dict.xhtml_header ≠ 0) :
    (∀ rtf : List Nat, xhtml_of_rtf dict rtf
      = wrap_document dict (xhtml_of_rtf { dict with xhtml_header := 0 } rtf)) ∧
    (∀ de : Int, ydpdict_read_xhtml (some dict) de
      = wrap_document dict (ydpdict_read_xhtml (some { dict with xhtml_header := 0 }) de)) := by
  have hconv : ∀ rtf : List Nat, xhtml_of_rtf dict rtf
      = wrap_document dict (xhtml_of_rtf { dict with xhtml_header := 0 } rtf) := by
    intro rtf
    have h0 : xhtml_prologue { dict with xhtml_header := 0 } (init_state rtf)
        = init_state rtf := by
      simp [xhtml_prologue]
    have hl : xhtml_loop { dict with xhtml_header := 0 } (rtf.length + 1) (init_state rtf)
        = xhtml_loop dict (rtf.length + 1) (init_state rtf) := by
      rw [xhtml_loop_plain, xhtml_loop_plain dict]
    unfold xhtml_of_rtf
    rw [xhtml_prologue_spec dict h rtf, xhtml_loop_prepend, h0, hl]
    cases xhtml_loop dict (rtf.length + 1) (init_state rtf) with
    | none => rfl
    | some st =>
      simp only [Option.map_some', CLOSE_TAGS_prepend, h, ne_eq, not_false_eq_true, if_true,
        not_true_eq_false, if_false]
      cases hf : (CLOSE_TAGS st).stack_fault <;>
        simp [APPEND, prepend_buf, hf, wrap_document]
  refine ⟨hconv, ?_⟩
  intro de
  have hr : ydpdict_read_rtf_io (some { dict with xhtml_header := 0 }) de
      = ydpdict_read_rtf_io (some dict) de := rfl
  unfold ydpdict_read_xhtml ydpdict_read_xhtml_io
  simp only [hr]
  rcases ydpdict_read_rtf_io (some dict) de with ⟨r, ops⟩
  cases r with
  | ok rtf => exact hconv rtf
  | failure => rfl
  | undefined e => rfl
  | timeout => rfl

/-! ## The colour flags -/

theorem colour_bits_or (a b : Nat) (hb : b &&& ATTR_CF_ALL = 0) :
    colour_bits (a ||| b) = colour_bits a := by
  unfold colour_bits
  rw [Nat.and_distrib_right, hb, Nat.or_zero]

theorem colour_bits_and_not (a m : Nat)
    (hm : (0xFFFFFFFF ^^^ m) &&& ATTR_CF_ALL = ATTR_CF_ALL) :
    colour_bits (and_not a m) = colour_bits a := by
  unfold colour_bits and_not
  rw [Nat.and_assoc, hm]

theorem colour_bits_set (a flag : Nat) (hf : flag &&& ATTR_CF_ALL = flag) :
    colour_bits (and_not a ATTR_CF_ALL ||| flag) = flag := by
  have h0 : (0xFFFFFFFF ^^^ ATTR_CF_ALL) &&& ATTR_CF_ALL = 0 := by decide
  unfold colour_bits and_not
  rw [Nat.and_distrib_right, Nat.and_assoc, h0, hf, Nat.and_zero, Nat.zero_or]

theorem colour_ok_zero : colour_ok 0 := by
  left; decide

theorem colour_ok_or (a b : Nat) (hb : b &&& ATTR_CF_ALL = 0) (h : colour_ok a) :
    colour_ok (a ||| b) := by
  unfold colour_ok
  rw [colour_bits_or a b hb]
  exact h

theorem colour_ok_and_not (a m : Nat)
    (hm : (0xFFFFFFFF ^^^ m) &&& ATTR_CF_ALL = ATTR_CF_ALL) (h : colour_ok a) :
    colour_ok (and_not a m) := by
  unfold colour_ok
  rw [colour_bits_and_not a m hm]
  exact h

theorem colour_ok_bracket (a : Nat) (h : colour_ok a) : colour_ok (and_not a ATTR_CF5) := by
  have hk : (0xFFFFFFFF ^^^ ATTR_CF5) &&& ATTR_CF_ALL = ATTR_CF_ALL &&& 14 := by decide
  have hb : colour_bits (and_not a ATTR_CF5) = colour_bits a &&& 14 := by
    unfold colour_bits and_not
    rw [Nat.and_assoc, hk, Nat.and_assoc]
  unfold colour_ok
  rw [hb]
  rcases h with h | h | h | h | h <;> rw [h] <;> decide

theorem colour_ok_set (a flag : Nat)
    (hf : flag = ATTR_CF0 ∨ flag = ATTR_CF1 ∨ flag = ATTR_CF2 ∨ flag = ATTR_CF5) :
    colour_ok (and_not a ATTR_CF_ALL ||| flag) := by
  unfold colour_ok
  rw [colour_bits_set a flag (by rcases hf with h | h | h | h <;> rw [h] <;> decide)]
  rcases hf with h | h | h | h <;> simp [h]

theorem one_colour_of_ok (a : Nat) (h : colour_ok a) : one_colour a := by
  have h0 : a &&& ATTR_CF0 = colour_bits a &&& ATTR_CF0 := by
    unfold colour_bits; rw [Nat.and_assoc]; rfl
  have h1 : a &&& ATTR_CF1 = colour_bits a &&& ATTR_CF1 := by
    unfold colour_bits; rw [Nat.and_assoc]; rfl
  have h2 : a &&& ATTR_CF2 = colour_bits a &&& ATTR_CF2 := by
    unfold colour_bits; rw [Nat.and_assoc]; rfl
  have h5 : a &&& ATTR_CF5 = colour_bits a &&& ATTR_CF5 := by
    unfold colour_bits; rw [Nat.and_assoc]; rfl
  unfold one_colour colour_flags
  rw [h0, h1, h2, h5]
  rcases h with h | h | h | h | h <;> rw [h] <;> decide

theorem colour_flags_of_bits (a flag : Nat)
    (hf : flag = ATTR_CF0 ∨ flag = ATTR_CF1 ∨ flag = ATTR_CF2 ∨ flag = ATTR_CF5)
    (h : colour_bits a = flag) : colour_flags a = [flag] := by
  have h0 : a &&& ATTR_CF0 = colour_bits a &&& ATTR_CF0 := by
    unfold colour_bits; rw [Nat.and_assoc]; rfl
  have h1 : a &&& ATTR_CF1 = colour_bits a &&& ATTR_CF1 := by
    unfold colour_bits; rw [Nat.and_assoc]; rfl
  have h2 : a &&& ATTR_CF2 = colour_bits a &&& ATTR_CF2 := by
    unfold colour_bits; rw [Nat.and_assoc]; rfl
  have h5 : a &&& ATTR_CF5 = colour_bits a &&& ATTR_CF5 := by
    unfold colour_bits; rw [Nat.and_assoc]; rfl
  unfold colour_flags
  rw [h0, h1, h2, h5, h]
  rcases hf with h | h | h | h <;> rw [h] <;> decide

theorem close_tag_colour (mask : Nat) (tag : List Nat) (st : State) (h : colour_inv st) :
    colour_inv (close_tag mask tag st) := by
  unfold close_tag
  split <;> exact h

theorem CLOSE_TAGS_colour (st : State) (h : colour_inv st) : colour_inv (CLOSE_TAGS st) := by
  unfold CLOSE_TAGS
  exact close_tag_colour _ _ _ (close_tag_colour _ _ _ (close_tag_colour _ _ _
    (close_tag_colour _ _ _ h)))

theorem CLOSE_TAGS_attrs (st : State) :
    (CLOSE_TAGS st).attr = st.attr ∧ (CLOSE_TAGS st).attr_pending = st.attr_pending ∧
    (CLOSE_TAGS st).attr_stack = st.attr_stack ∧ (CLOSE_TAGS st).paragraph = st.paragraph ∧
    (CLOSE_TAGS st).margin = st.margin := by
  have h : ∀ mask tag s, (close_tag mask tag s).attr = s.attr ∧
      (close_tag mask tag s).attr_pending = s.attr_pending ∧
      (close_tag mask tag s).attr_stack = s.attr_stack ∧
      (close_tag mask tag s).paragraph = s.paragraph ∧
      (close_tag mask tag s).margin = s.margin := by
    intro mask tag s
    unfold close_tag
    split <;> exact ⟨rfl, rfl, rfl, rfl, rfl⟩
  unfold CLOSE_TAGS
  simp only [h, and_self]

theorem step_open_colour (st : State) (h : colour_inv st) : colour_inv (step_open st) := by
  obtain ⟨ha, hp, hs⟩ := h
  have hsa : ATTR_SA &&& ATTR_CF_ALL = 0 := by decide
  have hset : ∀ v : Nat, some v ∈ st.attr_stack.set st.level.toNat (some st.attr_pending) →
      colour_ok v := by
    intro v hv
    rcases List.mem_or_eq_of_mem_set hv with h1 | h1
    · exact hs v h1
    · simp only [Option.some.injEq] at h1
      rw [h1]; exact hp
  rcases st with ⟨rtf, buf, attr, pend, stack, level, par, margin, fault⟩
  simp only [step_open, stack_store, stack_load, colour_inv]
  simp only at ha hp hs hset
  split_ifs <;> first
    | exact ⟨ha, hp, hs⟩
    | exact ⟨ha, hp, hset⟩
    | exact ⟨colour_ok_or _ _ hsa ha, hp, hs⟩
    | exact ⟨colour_ok_or _ _ hsa ha, hp, hset⟩

theorem stack_load_colour (st : State) (i : Int)
    (hs : ∀ v : Nat, some v ∈ st.attr_stack → colour_ok v) :
    colour_ok (stack_load st i).1 := by
  unfold stack_load
  split
  · split
    · rename_i v hv
      apply hs
      rw [List.getD_eq_getElem?_getD] at hv
      cases hg : st.attr_stack[i.toNat]? with
      | none => rw [hg] at hv; simp at hv
      | some w =>
        rw [hg] at hv
        simp only [Option.getD_some] at hv
        rw [← hv]
        exact List.getElem?_mem hg
    · exact colour_ok_zero
  · exact colour_ok_zero

theorem step_close_colour (st : State) (h : colour_inv st) : colour_inv (step_close st) := by
  obtain ⟨ha, hp, hs⟩ := h
  unfold step_close
  split
  · exact ⟨ha, hp, hs⟩
  · obtain ⟨h1, h2, h3, -, -⟩ := CLOSE_TAGS_attrs st
    split
    · refine ⟨?_, ?_, ?_⟩
      · dsimp only
        split <;> exact colour_ok_zero
      · exact stack_load_colour _ _ (by dsimp only; rw [h3]; exact hs)
      · dsimp only
        split <;> (dsimp only; rw [h3]; exact hs)
    · refine ⟨?_, ?_, ?_⟩
      · dsimp only
        split <;> exact ha
      · exact stack_load_colour _ _ hs
      · dsimp only
        split <;> exact hs

theorem tok_cf_colour (name : List Nat) (flag : Nat) (token : List Nat) (st : State)
    (hf : flag = ATTR_CF0 ∨ flag = ATTR_CF1 ∨ flag = ATTR_CF2 ∨ flag = ATTR_CF5)
    (h : colour_inv st) : colour_inv (tok_cf name flag token st) := by
  unfold tok_cf
  split
  · exact ⟨h.1, colour_ok_set _ _ hf, h.2.2⟩
  · exact h

theorem apply_token_colour (token : List Nat) (st : State) (h : colour_inv st) :
    colour_inv (apply_token token st) := by
  have hpar : ∀ s, colour_inv s → colour_inv (tok_par token s) := by
    intro s hs
    unfold tok_par
    split
    · split
      · exact ⟨hs.1, colour_ok_zero, hs.2.2⟩
      · exact hs
    · exact hs
  have hline : ∀ s, colour_inv s → colour_inv (tok_line token s) := by
    intro s hs
    unfold tok_line
    split <;> exact hs
  have hset : ∀ name flag s, flag &&& ATTR_CF_ALL = 0 → colour_inv s →
      colour_inv (tok_set name flag token s) := by
    intro name flag s hf hs
    unfold tok_set
    split
    · exact ⟨hs.1, colour_ok_or _ _ hf hs.2.1, hs.2.2⟩
    · exact hs
  have hclear : ∀ name flag s, (0xFFFFFFFF ^^^ flag) &&& ATTR_CF_ALL = ATTR_CF_ALL →
      colour_inv s → colour_inv (tok_clear name flag token s) := by
    intro name flag s hf hs
    unfold tok_clear
    split
    · exact ⟨hs.1, colour_ok_and_not _ _ hf hs.2.1, hs.2.2⟩
    · exact hs
  have hqc : ∀ s, colour_inv s → colour_inv (tok_qc token s) := by
    intro s hs
    unfold tok_qc
    split
    · exact ⟨colour_ok_or _ _ (by decide) hs.1, colour_ok_or _ _ (by decide) hs.2.1, hs.2.2⟩
    · exact hs
  have hf : ∀ s, colour_inv s → colour_inv (tok_f token s) := by
    intro s hs
    unfold tok_f
    split
    · exact ⟨colour_ok_or _ _ (by decide) hs.1, colour_ok_or _ _ (by decide) hs.2.1, hs.2.2⟩
    · exact hs
  have hf1 : ∀ s, colour_inv s → colour_inv (tok_f1 token s) := by
    intro s hs
    unfold tok_f1
    split
    · exact ⟨colour_ok_or _ _ (by decide) hs.1, colour_ok_or _ _ (by decide) hs.2.1, hs.2.2⟩
    · exact hs
  have hsa : ∀ s, colour_inv s → colour_inv (tok_sa token s) := by
    intro s hs
    unfold tok_sa
    split
    · split <;> exact hs
    · exact hs
  unfold apply_token
  have s1 := hpar _ h
  have s2 := hline _ s1
  have s3 := hset (str "b") ATTR_B _ (by decide) s2
  have s4 := hclear (str "b0") ATTR_B _ (by decide) s3
  have s5 := hset (str "i") ATTR_I _ (by decide) s4
  have s6 := hclear (str "i0") ATTR_I _ (by decide) s5
  have s7 := tok_cf_colour (str "cf0") ATTR_CF0 token _ (by simp) s6
  have s8 := tok_cf_colour (str "cf1") ATTR_CF1 token _ (by simp) s7
  have s9 := tok_cf_colour (str "cf2") ATTR_CF2 token _ (by simp) s8
  have s10 := tok_cf_colour (str "cf5") ATTR_CF5 token _ (by simp) s9
  have s11 := hset (str "super") ATTR_SUPER _ (by decide) s10
  exact hsa _ (hf1 _ (hf _ (hqc _ s11)))

theorem step_token_colour (st : State) (h : colour_inv st) : colour_inv (step_token st) := by
  unfold step_token
  exact apply_token_colour _ _ h

theorem char_bracket_colour (c : Nat) (st : State) (h : colour_inv st) :
    colour_inv (char_bracket c st) := by
  unfold char_bracket
  split
  · exact ⟨h.1, colour_ok_bracket _ h.2.1, h.2.2⟩
  · exact h

theorem char_paragraph_colour (dict : ydpdict_priv_t) (c : Nat) (st : State)
    (h : colour_inv st) : colour_inv (char_paragraph dict c st) := by
  obtain ⟨h1, h2, h3, -, -⟩ := CLOSE_TAGS_attrs st
  unfold char_paragraph
  split
  · refine ⟨colour_ok_zero, ?_, ?_⟩
    · dsimp only
      split <;> split <;> (dsimp only [APPEND]; rw [h2]; exact h.2.1)
    · dsimp only
      split <;> split <;> (dsimp only [APPEND]; rw [h3]; exact h.2.2)
  · exact h

theorem char_attr_colour (dict : ydpdict_priv_t) (c : Nat) (st : State)
    (h : colour_inv st) : colour_inv (char_attr dict c st) := by
  have htag : ∀ flag tag s, colour_inv s → colour_inv (open_tag flag tag s) := by
    intro flag tag s hs
    unfold open_tag
    split <;> exact hs
  have hspan : ∀ flag cls color s, colour_inv s →
      colour_inv (open_span dict flag cls color s) := by
    intro flag cls color s hs
    unfold open_span APPEND_SPAN
    split
    · split <;> exact hs
    · exact hs
  have hsup : ∀ s, colour_inv s → colour_inv (open_sup s) := by
    intro s hs
    unfold open_sup
    split <;> exact hs
  unfold char_attr
  split
  · have hall := hsup _ (hspan ATTR_CF5 (str "cf5") (str "magenta") _
      (hspan ATTR_CF2 (str "cf2") (str "red") _ (hspan ATTR_CF1 (str "cf1") (str "green") _
      (hspan ATTR_CF0 (str "cf0") (str "blue") _ (htag ATTR_I (str "<i>") _
      (htag ATTR_B (str "<b>") _ (CLOSE_TAGS_colour st h)))))))
    exact ⟨hall.2.1, hall.2.1, hall.2.2⟩
  · exact h

theorem step_char_colour (dict : ydpdict_priv_t) (c : Nat) (st : State)
    (h : colour_inv st) : colour_inv (step_char dict c st) := by
  unfold step_char
  exact char_attr_colour dict c _ (char_paragraph_colour dict c _ (char_bracket_colour c st h))

theorem step_colour (dict : ydpdict_priv_t) (st : State) (h : colour_inv st) :
    colour_inv (step dict st) := by
  unfold step
  dsimp only
  split
  · exact step_open_colour st h
  · split
    · exact step_close_colour st h
    · split
      · exact step_token_colour st h
      · exact step_char_colour dict _ st h

theorem iterate_step_colour (dict : ydpdict_priv_t) (k : Nat) (st : State)
    (h : colour_inv st) : colour_inv ((step dict)^[k] st) := by
  induction k generalizing st with
  | zero => exact h
  | succ n ih =>
    rw [Function.iterate_succ_apply]
    exact ih _ (step_colour dict st h)

theorem xhtml_prologue_colour (dict : ydpdict_priv_t) (rtf : List Nat) :
    colour_inv (xhtml_prologue dict (init_state rtf)) := by
  have h0 : colour_inv (init_state rtf) := by
    refine ⟨colour_ok_zero, colour_ok_zero, ?_⟩
    intro v hv
    simp [init_state] at hv
  unfold xhtml_prologue
  split
  · cases dict.encoding <;> cases dict.xhtml_style <;> exact h0
  · exact h0

theorem apply_token_cf (name : List Nat) (flag : Nat) (h : (name, flag) ∈ colour_tokens)
    (st : State) :
    (apply_token name st).attr_pending = and_not st.attr_pending ATTR_CF_ALL ||| flag := by
  simp only [colour_tokens, List.mem_cons, Prod.mk.injEq, List.mem_singleton,
    List.not_mem_nil, or_false] at h
  rcases h with ⟨rfl, rfl⟩ | ⟨rfl, rfl⟩ | ⟨rfl, rfl⟩ | ⟨rfl, rfl⟩ <;>
    simp [apply_token, tok_par, tok_line, tok_set, tok_clear, tok_cf, tok_qc, tok_f, tok_f1,
      tok_sa, str]

theorem read_token_cf (name : List Nat) (flag : Nat) (h : (name, flag) ∈ colour_tokens)
    (rest : List Nat) (hal : isalnum (peek rest) = false) :
    read_token (name ++ rest) [] = (name, rest) := by
  have hrest : ∀ token, read_token rest token = (token, rest) := by
    intro token
    cases rest with
    | nil => rfl
    | cons c r =>
      have hc : isalnum c = false := hal
      simp [read_token, hc]
  simp only [colour_tokens, List.mem_cons, Prod.mk.injEq, List.mem_singleton,
    List.not_mem_nil, or_false] at h
  rcases h with ⟨rfl, rfl⟩ | ⟨rfl, rfl⟩ | ⟨rfl, rfl⟩ | ⟨rfl, rfl⟩ <;>
    simp [str, read_token, isalnum, hrest]

/-- C22: after any number of iterations of the loop on any blob, the applied
attribute set, the pending attribute set and every set saved on the
attribute stack each contain at most one of the four colour flags; and the
step that reads a token `cf0`, `cf1`, `cf2` or `cf5` leaves the flag of that
token as the only colour flag of the pending set. -/
theorem C22_one_colour_flag (dict : ydpdict_priv_t) (rtf : List Nat) (k : Nat) :
    (one_colour ((step dict)^[k] (xhtml_prologue dict (init_state rtf))).attr ∧
     one_colour ((step dict)^[k] (xhtml_prologue dict (init_state rtf))).attr_pending ∧
     ∀ v : Nat, some v ∈ ((step dict)^[k] (xhtml_prologue dict (init_state rtf))).attr_stack →
       one_colour v) ∧
    (∀ (st : State) (name : List Nat) (flag : Nat) (rest : List Nat),
      (name, flag) ∈ colour_tokens → st.rtf = 92 :: (name ++ rest) →
      isalnum (peek rest) = false →
      colour_flags (step dict st).attr_pending = [flag]) := by
  constructor
  · have h := iterate_step_colour dict k _ (xhtml_prologue_colour dict rtf)
    exact ⟨one_colour_of_ok _ h.1, one_colour_of_ok _ h.2.1,
      fun v hv => one_colour_of_ok _ (h.2.2 v hv)⟩
  · intro st name flag rest hmem hrtf hal
    have hstep : step dict st = step_token st := by
      simp [step, hrtf, peek]
    have hflag : flag = ATTR_CF0 ∨ flag = ATTR_CF1 ∨ flag = ATTR_CF2 ∨ flag = ATTR_CF5 := by
      simp only [colour_tokens, List.mem_cons, Prod.mk.injEq, List.mem_singleton,
        List.not_mem_nil, or_false] at hmem
      rcases hmem with ⟨-, h⟩ | ⟨-, h⟩ | ⟨-, h⟩ | ⟨-, h⟩ <;> simp [h]
    rw [hstep]
    unfold step_token
    rw [hrtf, List.tail_cons, read_token_cf name flag hmem rest hal]
    apply colour_flags_of_bits _ _ hflag
    rw [apply_token_cf name flag hmem]
    exact colour_bits_set _ _ (by rcases hflag with h | h | h | h <;> rw [h] <;> decide)

theorem C22_one_colour_flag_witness :
    one_colour ((step (plain_dict .YDPDICT_ENCODING_UTF8 false))^[3]
      (xhtml_prologue (plain_dict .YDPDICT_ENCODING_UTF8 false)
        (init_state (str "\x7b\\cf1\\cf2 x\x7d")))).attr_pending ∧
    colour_flags (step (plain_dict .YDPDICT_ENCODING_UTF8 false)
      { init_state (str "\\cf2 x") with attr_pending := ATTR_CF1 }).attr_pending
        = [ATTR_CF2] :=
  ⟨(C22_one_colour_flag (plain_dict .YDPDICT_ENCODING_UTF8 false)
      (str "\x7b\\cf1\\cf2 x\x7d") 3).1.2.1,
   (C22_one_colour_flag (plain_dict .YDPDICT_ENCODING_UTF8 false) [] 0).2
      { init_state (str "\\cf2 x") with attr_pending := ATTR_CF1 }
      (str "cf2") ATTR_CF2 (str " x") (by decide) (by decide) (by decide)⟩

/-! ## Content bytes from 127 on in UTF-8 mode -/

theorem apply_token_f1 (st : State) :
    (apply_token (str "f1") st).attr = st.attr ||| ATTR_F1 := by
  simp [apply_token, tok_par, tok_line, tok_set, tok_clear, tok_cf, tok_qc, tok_f, tok_f1,
    tok_sa, str]

theorem or_flag_ne_zero (a : Nat) : ((a ||| ATTR_F1) &&& ATTR_F1) ≠ 0 := by
  intro h
  have h7 : ((a ||| ATTR_F1) &&& ATTR_F1).testBit 7 = true := by
    rw [Nat.testBit_and, Nat.testBit_or]
    have : ATTR_F1.testBit 7 = true := by decide
    simp [this]
  rw [h] at h7
  simp at h7

/-- C23: in UTF-8 output mode, a content byte `c` from 127 on that is read
while the comment flag is clear in the applied attribute set is appended as
`~` when it is 127, as the entry `c - 128` of the phonetic table when the
phonetic font flag is in the applied set and `c` is at most 159, and as the
entry `c - 128` of the windows-1250 table in every other case (from 160 on
with the phonetic font, and from 128 on without it); both tables have that
entry, and the token `f1` puts the phonetic font flag in the applied set. -/
theorem C23_high_bytes_utf8 (dict : ydpdict_priv_t)
    (henc : dict.encoding = .YDPDICT_ENCODING_UTF8) (st : State) (c : Nat)
    (hc : peek st.rtf = c) (h127 : 127 ≤ c) (h256 : c < 256)
    (hqc : ((char_attr dict c (char_paragraph dict c (char_bracket c st))).attr
      &&& ATTR_QC) = 0) :
    (step dict st).buf
      = (char_attr dict c (char_paragraph dict c (char_bracket c st))).buf ++
        (if c = 127 then str "~"
         else if ((char_attr dict c (char_paragraph dict c (char_bracket c st))).attr
            &&& ATTR_F1) ≠ 0 ∧ c ≤ 159 then
           ydpdict_phonetic_to_utf8_table.getD (c - 128) []
         else ydpdict_windows1250_to_utf8_table.getD (c - 128) []) ∧
    (128 ≤ c → c ≤ 159 → c - 128 < ydpdict_phonetic_to_utf8_table.length) ∧
    (128 ≤ c → c - 128 < ydpdict_windows1250_to_utf8_table.length) ∧
    (∀ s : State, ((apply_token (str "f1") s).attr &&& ATTR_F1) ≠ 0) := by
  have h1 : c ≠ 123 := by omega
  have h2 : c ≠ 125 := by omega
  have h3 : c ≠ 92 := by omega
  have hp : ydpdict_phonetic_to_utf8_table.length = 32 := rfl
  have hw : ydpdict_windows1250_to_utf8_table.length = 128 := rfl
  refine ⟨?_, by omega, by omega, ?_⟩
  · simp only [step, hc, h1, h2, h3, if_false, step_char, APPEND, henc]
    congr 1
    generalize (char_attr dict c (char_paragraph dict c (char_bracket c st))).attr = a at hqc
    unfold char_text
    have hu : a &&& ATTR_QC = 0 ∧ ydpdict_encoding_t.YDPDICT_ENCODING_UTF8
        = ydpdict_encoding_t.YDPDICT_ENCODING_UTF8 := ⟨hqc, rfl⟩
    have hw2 : ¬ (a &&& ATTR_QC = 0 ∧ ydpdict_encoding_t.YDPDICT_ENCODING_UTF8
        = ydpdict_encoding_t.YDPDICT_ENCODING_WINDOWS1250) := by simp
    rw [if_pos hu, if_neg hw2, List.append_nil]
    by_cases h7 : c = 127
    · subst h7
      simp
    · have hgt : c > 127 := by omega
      rw [if_neg h7]
      by_cases hf : (a &&& ATTR_F1) ≠ 0 ∧ c ≤ 159
      · have hf2 : (a &&& ATTR_F1) ≠ 0 ∧ c > 127 ∧ c < 160 := ⟨hf.1, hgt, by omega⟩
        rw [if_pos hf, if_pos hf2, if_neg h7]
      · have hf2 : ¬ ((a &&& ATTR_F1) ≠ 0 ∧ c > 127 ∧ c < 160) :=
          fun h => hf ⟨h.1, by omega⟩
        have hor : ((a &&& ATTR_F1) ≠ 0 ∧ c > 160) ∨ c > 127 := Or.inr hgt
        rw [if_neg hf, if_neg hf2, if_pos hor, if_neg h7]
  · intro s
    rw [apply_token_f1]
    exact or_flag_ne_zero _

theorem C23_high_bytes_utf8_witness :
    (step (plain_dict .YDPDICT_ENCODING_UTF8 false)
        { init_state [0x83] with attr := ATTR_F1, attr_pending := ATTR_F1 }).buf
      = [0xCA, 0x92] := by
  have h := (C23_high_bytes_utf8 (plain_dict .YDPDICT_ENCODING_UTF8 false) rfl
    { init_state [0x83] with attr := ATTR_F1, attr_pending := ATTR_F1 } 0x83
    (by decide) (by decide) (by decide) (by decide)).1
  rw [h]
  decide

/-! ## Pending paragraph breaks -/

/-- C24 as stated fails: in the blob `a\par  b` the second space after the
token `par` is a whitespace content byte read while the break is pending
(the first one ends the token); the step that reads it leaves the break
pending and appends the space to the output, so the text returned is
`a <br><br>b`, with the space in front of the line separator. -/
theorem C24_counterexample :
    ((step (plain_dict .YDPDICT_ENCODING_UTF8 false))^[2]
      (init_state (str "a\\par  b"))).paragraph = 1 ∧
    peek ((step (plain_dict .YDPDICT_ENCODING_UTF8 false))^[2]
      (init_state (str "a\\par  b"))).rtf = 32 ∧
    ((step (plain_dict .YDPDICT_ENCODING_UTF8 false))^[2]
      (init_state (str "a\\par  b"))).buf = str "a" ∧
    ((step (plain_dict .YDPDICT_ENCODING_UTF8 false))^[3]
      (init_state (str "a\\par  b"))).buf = str "a " ∧
    xhtml_of_rtf (plain_dict .YDPDICT_ENCODING_UTF8 false) (str "a\\par  b")
      = .ok (str "a <br><br>b") ∧
    xhtml_of_rtf (plain_dict .YDPDICT_ENCODING_WINDOWS1250 false) (str "a\\par  b")
      = .ok (str "a <br><br>b") := by
  decide

theorem apply_token_paragraph (token : List Nat) (st : State) (hp : st.paragraph ≠ 0) :
    (apply_token token st).paragraph ≠ 0 := by
  have hpar : ∀ s : State, s.paragraph ≠ 0 → (tok_par token s).paragraph ≠ 0 := by
    intro s hs
    unfold tok_par
    split
    · split <;> simp
    · exact hs
  have hline : ∀ s : State, s.paragraph ≠ 0 → (tok_line token s).paragraph ≠ 0 := by
    intro s hs; unfold tok_line; split <;> exact hs
  have hset : ∀ name flag (s : State), s.paragraph ≠ 0 →
      (tok_set name flag token s).paragraph ≠ 0 := by
    intro name flag s hs; unfold tok_set; split <;> exact hs
  have hclear : ∀ name flag (s : State), s.paragraph ≠ 0 →
      (tok_clear name flag token s).paragraph ≠ 0 := by
    intro name flag s hs; unfold tok_clear; split <;> exact hs
  have hcf : ∀ name flag (s : State), s.paragraph ≠ 0 →
      (tok_cf name flag token s).paragraph ≠ 0 := by
    intro name flag s hs; unfold tok_cf; split <;> exact hs
  have hqc : ∀ s : State, s.paragraph ≠ 0 → (tok_qc token s).paragraph ≠ 0 := by
    intro s hs; unfold tok_qc; split <;> exact hs
  have hf : ∀ s : State, s.paragraph ≠ 0 → (tok_f token s).paragraph ≠ 0 := by
    intro s hs; unfold tok_f; split <;> exact hs
  have hf1 : ∀ s : State, s.paragraph ≠ 0 → (tok_f1 token s).paragraph ≠ 0 := by
    intro s hs; unfold tok_f1; split <;> exact hs
  have hsa : ∀ s : State, s.paragraph ≠ 0 → (tok_sa token s).paragraph ≠ 0 := by
    intro s hs
    unfold tok_sa
    split
    · split
      · simp
      · exact hs
    · exact hs
  unfold apply_token
  exact hsa _ (hf1 _ (hf _ (hqc _ (hset _ _ _ (hcf _ _ _ (hcf _ _ _ (hcf _ _ _ (hcf _ _ _
    (hclear _ _ _ (hset _ _ _ (hclear _ _ _ (hset _ _ _ (hline _ (hpar _ hp))))))))))))))

theorem isspace_cases (c : Nat) (h : isspace c = true) : c = 32 ∨ (9 ≤ c ∧ c ≤ 13) := by
  simpa [isspace] using h

theorem char_text_space (encoding : ydpdict_encoding_t) (attr c : Nat)
    (h : isspace c = true) :
    char_text encoding attr c = if (attr &&& ATTR_QC) = 0 then [c] else [] := by
  have hc := isspace_cases c h
  have h1 : ¬ c > 127 := by omega
  have h2 : ¬ c > 160 := by omega
  have h3 : c ≠ 127 := by omega
  have h4 : c ≠ 38 := by omega
  have h5 : c ≠ 60 := by omega
  have h6 : c ≠ 62 := by omega
  by_cases hq : (attr &&& ATTR_QC) = 0 <;> cases encoding <;>
    simp [char_text, hq, h1, h2, h3, h4, h5, h6]

theorem step_open_paragraph (st : State) : (step_open st).paragraph = st.paragraph := by
  rcases st with ⟨rtf, buf, attr, pend, stack, level, par, margin, fault⟩
  simp only [step_open, stack_store, stack_load]
  split_ifs <;> rfl

theorem step_close_paragraph (st : State) : (step_close st).paragraph = st.paragraph := by
  obtain ⟨-, -, -, h4, -⟩ := CLOSE_TAGS_attrs st
  unfold step_close
  generalize CLOSE_TAGS st = ct at h4
  rcases st with ⟨rtf, buf, attr, pend, stack, level, par, margin, fault⟩
  rcases ct with ⟨rtf2, buf2, attr2, pend2, stack2, level2, par2, margin2, fault2⟩
  simp only [stack_load]
  simp only at h4
  split_ifs <;> first | rfl | exact h4

theorem close_tag_congr (mask : Nat) (tag : List Nat) (s1 s2 : State)
    (ha : s1.attr = s2.attr) (hb : s1.buf = s2.buf) :
    (close_tag mask tag s1).attr = (close_tag mask tag s2).attr ∧
    (close_tag mask tag s1).buf = (close_tag mask tag s2).buf := by
  unfold close_tag
  rw [ha]
  split
  · exact ⟨ha, by simp [APPEND, hb]⟩
  · exact ⟨ha, hb⟩

theorem CLOSE_TAGS_congr (s1 s2 : State) (ha : s1.attr = s2.attr) (hb : s1.buf = s2.buf) :
    (CLOSE_TAGS s1).buf = (CLOSE_TAGS s2).buf := by
  unfold CLOSE_TAGS
  have h1 := close_tag_congr ATTR_SUPER (str "</sup>") s1 s2 ha hb
  have h2 := close_tag_congr ATTR_CF_ALL (str "</font>") _ _ h1.1 h1.2
  have h3 := close_tag_congr ATTR_I (str "</i>") _ _ h2.1 h2.2
  exact (close_tag_congr ATTR_B (str "</b>") _ _ h3.1 h3.2).2

theorem char_paragraph_break (dict : ydpdict_priv_t) (c : Nat) (st : State)
    (hc : isspace c = false) (hp : st.paragraph ≠ 0) :
    (char_paragraph dict c st).buf
      = (CLOSE_TAGS st).buf ++
        (if st.paragraph = 2 then
          (if dict.xhtml_use_style ≠ 0 then str "<div class=\"example\">" else str "<br>")
         else str "<br><br>") ∧
    (char_paragraph dict c st).attr = 0 ∧ (char_paragraph dict c st).paragraph = 0 := by
  obtain ⟨-, -, -, h4, -⟩ := CLOSE_TAGS_attrs st
  have hcond : ¬ isspace c = true ∧ st.paragraph ≠ 0 := ⟨by simp [hc], hp⟩
  unfold char_paragraph
  rw [if_pos hcond]
  generalize CLOSE_TAGS st = ct at h4
  rcases ct with ⟨rtf2, buf2, attr2, pend2, stack2, level2, par2, margin2, fault2⟩
  simp only at h4
  subst h4
  simp only [APPEND, and_true]
  split_ifs <;> rfl

theorem char_attr_paragraph (dict : ydpdict_priv_t) (c : Nat) (st : State) :
    (char_attr dict c st).paragraph = st.paragraph := by
  obtain ⟨-, -, -, h4, -⟩ := CLOSE_TAGS_attrs st
  have htag : ∀ flag tag (s : State), (open_tag flag tag s).paragraph = s.paragraph := by
    intro flag tag s; unfold open_tag; split <;> rfl
  have hspan : ∀ flag cls color (s : State),
      (open_span dict flag cls color s).paragraph = s.paragraph := by
    intro flag cls color s
    unfold open_span APPEND_SPAN
    split
    · split <;> rfl
    · rfl
  have hsup : ∀ s : State, (open_sup s).paragraph = s.paragraph := by
    intro s; unfold open_sup; split <;> rfl
  unfold char_attr
  split
  · dsimp only
    rw [hsup, hspan, hspan, hspan, hspan, htag, htag, h4]
  · rfl

/-- C24 (amended): while a paragraph break is pending, a whitespace content
byte does not materialise it: the step that reads it leaves the break
pending and the attribute sets and the margin flag unchanged, and appends
the byte itself to the output (nothing when the comment flag is applied); a
brace or a token leaves the break pending as well; the break is materialised
by the step that reads the next non-whitespace content byte, which closes
the open tags, appends the line separator (`<br><br>`, or for a margin block
`<div class="example">` with class-based styling and `<br>` without), resets
the applied attributes and clears the pending break before the attributes
of that byte are applied. -/
theorem C24_break_deferred_past_whitespace (dict : ydpdict_priv_t) (st : State)
    (hp : st.paragraph ≠ 0) :
    (isspace (peek st.rtf) = true →
      (step dict st).paragraph = st.paragraph ∧ (step dict st).attr = st.attr ∧
      (step dict st).attr_pending = st.attr_pending ∧ (step dict st).margin = st.margin ∧
      (step dict st).buf
        = st.buf ++ (if (st.attr &&& ATTR_QC) = 0 then [peek st.rtf] else [])) ∧
    ((peek st.rtf = 123 ∨ peek st.rtf = 125 ∨ peek st.rtf = 92) →
      (step dict st).paragraph ≠ 0) ∧
    (isspace (peek st.rtf) = false → peek st.rtf ≠ 123 → peek st.rtf ≠ 125 →
      peek st.rtf ≠ 92 →
      (char_paragraph dict (peek st.rtf) (char_bracket (peek st.rtf) st)).buf
        = (CLOSE_TAGS st).buf ++
          (if st.paragraph = 2 then
            (if dict.xhtml_use_style ≠ 0 then str "<div class=\"example\">" else str "<br>")
           else str "<br><br>") ∧
      (char_paragraph dict (peek st.rtf) (char_bracket (peek st.rtf) st)).attr = 0 ∧
      (char_paragraph dict (peek st.rtf) (char_bracket (peek st.rtf) st)).paragraph = 0 ∧
      (step dict st).paragraph = 0 ∧
      (step dict st).buf
        = (char_attr dict (peek st.rtf)
            (char_paragraph dict (peek st.rtf) (char_bracket (peek st.rtf) st))).buf
          ++ char_text dict.encoding
            (char_attr dict (peek st.rtf)
              (char_paragraph dict (peek st.rtf) (char_bracket (peek st.rtf) st))).attr
            (peek st.rtf)) := by
  refine ⟨?_, ?_, ?_⟩
  · intro hs
    have hc := isspace_cases _ hs
    have h1 : peek st.rtf ≠ 123 := by omega
    have h2 : peek st.rtf ≠ 125 := by omega
    have h3 : peek st.rtf ≠ 92 := by omega
    have h4 : peek st.rtf ≠ 93 := by omega
    have hstep : step dict st
        = { APPEND st (char_text dict.encoding st.attr (peek st.rtf)) with
            rtf := st.rtf.tail } := by
      simp [step, h1, h2, h3, step_char, char_bracket, h4, char_paragraph, hs, char_attr, APPEND]
    rw [hstep, char_text_space _ _ _ hs]
    exact ⟨rfl, rfl, rfl, rfl, rfl⟩
  · intro hc
    unfold step
    dsimp only
    rcases hc with hc | hc | hc
    · rw [if_pos hc, step_open_paragraph]
      exact hp
    · have h1 : peek st.rtf ≠ 123 := by omega
      rw [if_neg h1, if_pos hc, step_close_paragraph]
      exact hp
    · have h1 : peek st.rtf ≠ 123 := by omega
      have h2 : peek st.rtf ≠ 125 := by omega
      rw [if_neg h1, if_neg h2, if_pos hc]
      unfold step_token
      exact apply_token_paragraph _ _ hp
  · intro hs h1 h2 h3
    have hb : (char_bracket (peek st.rtf) st).paragraph = st.paragraph := by
      unfold char_bracket; split <;> rfl
    have hbm : (char_bracket (peek st.rtf) st).buf = st.buf := by
      unfold char_bracket; split <;> rfl
    have hba : (char_bracket (peek st.rtf) st).attr = st.attr := by
      unfold char_bracket; split <;> rfl
    have hct : (CLOSE_TAGS (char_bracket (peek st.rtf) st)).buf = (CLOSE_TAGS st).buf :=
      CLOSE_TAGS_congr _ _ hba hbm
    obtain ⟨k1, k2, k3⟩ := char_paragraph_break dict (peek st.rtf)
      (char_bracket (peek st.rtf) st) hs (by rw [hb]; exact hp)
    rw [hct, hb] at k1
    refine ⟨k1, k2, k3, ?_, ?_⟩
    · simp only [step, h1, h2, h3, if_false, step_char, APPEND]
      rw [char_attr_paragraph, k3]
    · simp only [step, h1, h2, h3, if_false, step_char, APPEND]

theorem C24_break_deferred_past_whitespace_witness :
    (step (plain_dict .YDPDICT_ENCODING_UTF8 false) break_pending_state).paragraph = 1 ∧
    (step (plain_dict .YDPDICT_ENCODING_UTF8 false) break_pending_state).buf = str "a " := by
  have h := (C24_break_deferred_past_whitespace (plain_dict .YDPDICT_ENCODING_UTF8 false)
    break_pending_state (by decide)).1 (by decide)
  exact ⟨h.1, by rw [h.2.2.2.2]; decide⟩

/-! ## Margin blocks -/

theorem output_tags_and_text (dict : ydpdict_priv_t)
    (henc : dict.encoding = .YDPDICT_ENCODING_UTF8) (hh : dict.xhtml_header = 0)
    (rtf out : List Nat) (hout : xhtml_of_rtf dict rtf = .ok out) : TagsAndText out := by
  unfold xhtml_of_rtf at hout
  split at hout
  · simp at hout
  · rename_i st hloop
    simp only [hh, ne_eq, not_true_eq_false, if_false] at hout
    split at hout
    · simp at hout
    · simp only [Res.ok.injEq] at hout
      have h1 : AppendsTags (xhtml_prologue dict (init_state rtf)) st :=
        xhtml_loop_tags dict henc _ _ _ hloop
      obtain ⟨t, ht, hT⟩ := h1.trans (CLOSE_TAGS_tags st)
      rw [← hout, ht]
      simpa [xhtml_prologue, hh, init_state] using hT

theorem occurrences_div_tag (t : List Nat) (ht : t ∈ xhtml_tags) (rest : List Nat) :
    occurrences (str "</div>") (t ++ rest) = occurrences (str "</div>") rest := by
  simp only [xhtml_tags, List.mem_cons, List.mem_singleton, List.not_mem_nil, or_false] at ht
  rcases ht with rfl | rfl | rfl | rfl | rfl | rfl | rfl | rfl | rfl | rfl | rfl | rfl | rfl
    | rfl | rfl | rfl | rfl <;>
    simp [str, occurrences, List.isPrefixOf]

theorem occurrences_div_zero (t : List Nat) (h : TagsAndText t) :
    occurrences (str "</div>") t = 0 := by
  induction h with
  | nil => rfl
  | tag ht _ ih => rw [occurrences_div_tag _ ht, ih]
  | @byte c rest h1 _ _ ih =>
    have hc : ¬ (60 = c) := fun h => h1 h.symm
    have hpat : str "</div>" = [60, 47, 100, 105, 118, 62] := by decide
    rw [hpat] at ih ⊢
    simp [occurrences, List.isPrefixOf, hc, ih]

/-- C25 (the code departs from it): with header output disabled, the blob
`\sa x{}` is converted with class-based styling to `<div class="example">x`,
in both output encodings: the margin block is opened, the closing brace is
processed while the block is active, and no `</div>` follows. In UTF-8
output mode no text returned for any blob contains `</div>` at all. -/
theorem C25_margin_block_never_closed (dict : ydpdict_priv_t)
    (hh : dict.xhtml_header = 0) :
    (dict.xhtml_use_style ≠ 0 →
      xhtml_of_rtf dict (str "\\sa x\x7b\x7d") = .ok (str "<div class=\"example\">x")) ∧
    occurrences (str "<div class=\"example\">") (str "<div class=\"example\">x") = 1 ∧
    occurrences (str "</div>") (str "<div class=\"example\">x") = 0 ∧
    (dict.encoding = .YDPDICT_ENCODING_UTF8 → ∀ rtf out : List Nat,
      xhtml_of_rtf dict rtf = .ok out → occurrences (str "</div>") out = 0) := by
  refine ⟨?_, by decide, by decide, ?_⟩
  · intro hs
    rw [xhtml_of_rtf_plain dict hh]
    have hd : decide (dict.xhtml_use_style ≠ 0) = true := by simp [hs]
    rw [hd]
    cases dict.encoding <;> decide
  · intro henc rtf out hout
    exact occurrences_div_zero out (output_tags_and_text dict henc hh rtf out hout)

theorem C25_margin_block_never_closed_witness :
    xhtml_of_rtf (plain_dict .YDPDICT_ENCODING_UTF8 true) (str "\\sa x\x7b\x7d")
      = .ok (str "<div class=\"example\">x") :=
  (C25_margin_block_never_closed (plain_dict .YDPDICT_ENCODING_UTF8 true) (by decide)).1
    (by decide)

/-! ## The capacity of the output buffer -/

theorem append_strcpy_fits (buf s : List Nat) (len : Int) (hb : ∀ x ∈ buf, x ≠ 0)
    (hs : ∀ x ∈ s, x ≠ 0) (hl : ((buf.length + s.length : Nat) : Int) + 1 ≤ len) :
    append_strcpy buf len s = .ok (buf ++ s, len) := by
  have h2 : ((buf.length + s.length + 1 : Nat) : Int) ≤ len := by
    push_cast; push_cast at hl; omega
  simp only [append_strcpy, strlen_nul_free buf hb, strlen_nul_free s hs, h2, if_true]
  simp

theorem two_pow_le_int (j : Nat) (hj : j ≤ 30) : (2 : Int) ^ j ≤ 1073741824 := by
  have h : (2 : Int) ^ j ≤ 2 ^ 30 := pow_le_pow_right₀ (by norm_num) hj
  norm_num at h
  exact h

theorem append_grow_int_fault (need : Int) (hn : 1073741824 ≤ need) (fuel j : Nat)
    (hj : j ≤ 30) (hf : 31 ≤ fuel + j) :
    append_grow_int need fuel (2 ^ j) = .undefined .int_overflow := by
  induction fuel generalizing j with
  | zero => omega
  | succ n ih =>
    have hle := two_pow_le_int j hj
    have hpos : (0 : Int) < 2 ^ j := by positivity
    have h1 : need > (2 : Int) ^ j - 1 := by omega
    unfold append_grow_int
    rw [if_pos h1]
    by_cases h30 : j = 30
    · subst h30
      have h2 : (2 : Int) ^ 30 < 0 ∨ (2 : Int) ^ 30 * 2 > INT_MAX := by
        right; unfold INT_MAX; norm_num
      rw [if_pos h2]
    · have hle2 := two_pow_le_int (j + 1) (by omega)
      have hd : (2 : Int) ^ j * 2 = 2 ^ (j + 1) := by ring
      have h2 : ¬ ((2 : Int) ^ j < 0 ∨ (2 : Int) ^ j * 2 > INT_MAX) := by
        unfold INT_MAX
        rw [hd]
        omega
      rw [if_neg h2, hd]
      exact ih (j + 1) (by omega) (by omega)

theorem append_grow_int_fits (need : Int) (hn : need < 1073741824) (fuel j : Nat)
    (hj : j ≤ 30) (hf : 31 ≤ fuel + j) :
    ∃ k : Nat, j ≤ k ∧ k ≤ 30 ∧ need ≤ (2 : Int) ^ k - 1 ∧
      append_grow_int need fuel (2 ^ j) = .ok (2 ^ k) := by
  induction fuel generalizing j with
  | zero => omega
  | succ n ih =>
    have hle := two_pow_le_int j hj
    have hpos : (0 : Int) < 2 ^ j := by positivity
    unfold append_grow_int
    by_cases h1 : need > (2 : Int) ^ j - 1
    · rw [if_pos h1]
      have hj30 : j ≠ 30 := by
        intro h
        subst h
        norm_num at h1
        omega
      have hle2 := two_pow_le_int (j + 1) (by omega)
      have hd : (2 : Int) ^ j * 2 = 2 ^ (j + 1) := by ring
      have h2 : ¬ ((2 : Int) ^ j < 0 ∨ (2 : Int) ^ j * 2 > INT_MAX) := by
        unfold INT_MAX
        rw [hd]
        omega
      rw [if_neg h2, hd]
      obtain ⟨k, hk1, hk2, hk3, hk4⟩ := ih (j + 1) (by omega) (by omega)
      exact ⟨k, by omega, hk2, hk3, hk4⟩
    · rw [if_neg h1]
      exact ⟨j, le_refl j, hj, by omega, rfl⟩

theorem ydpdict_append_int_fault (buf s : List Nat) (j : Nat) (hb : ∀ x ∈ buf, x ≠ 0)
    (hs : ∀ x ∈ s, x ≠ 0) (hj : j ≤ 30) (hlo : 1073741824 ≤ buf.length + s.length)
    (hhi : buf.length + s.length ≤ 2147483647) :
    ydpdict_append_int buf (2 ^ j) s = .undefined .int_overflow := by
  have hle := two_pow_le_int j hj
  have h0 : ¬ (((buf.length : Nat) : Int) > INT_MAX ∨ ((s.length : Nat) : Int) > INT_MAX ∨
      ((buf.length + s.length : Nat) : Int) > INT_MAX) := by
    unfold INT_MAX
    push_cast
    omega
  have h1 : ((buf.length + s.length : Nat) : Int) > (2 : Int) ^ j - 1 := by
    push_cast
    omega
  unfold ydpdict_append_int
  simp only [strlen_nul_free buf hb, strlen_nul_free s hs]
  rw [if_neg h0, if_pos h1,
    append_grow_int_fault _ (by push_cast; omega) 33 j hj (by omega)]

theorem ydpdict_append_int_fits (buf s : List Nat) (j : Nat) (hb : ∀ x ∈ buf, x ≠ 0)
    (hs : ∀ x ∈ s, x ≠ 0) (hj : j ≤ 30) (hl : buf.length + s.length < 1073741824) :
    ∃ k : Nat, j ≤ k ∧ k ≤ 30 ∧ ydpdict_append_int buf (2 ^ j) s = .ok (buf ++ s, 2 ^ k) := by
  have h0 : ¬ (((buf.length : Nat) : Int) > INT_MAX ∨ ((s.length : Nat) : Int) > INT_MAX ∨
      ((buf.length + s.length : Nat) : Int) > INT_MAX) := by
    unfold INT_MAX
    push_cast
    omega
  unfold ydpdict_append_int
  simp only [strlen_nul_free buf hb, strlen_nul_free s hs]
  rw [if_neg h0]
  by_cases h1 : ((buf.length + s.length : Nat) : Int) > (2 : Int) ^ j - 1
  · rw [if_pos h1]
    obtain ⟨k, hk1, hk2, hk3, hk4⟩ := append_grow_int_fits
      ((buf.length + s.length : Nat) : Int) (by push_cast; omega) 33 j hj (by omega)
    rw [hk4]
    exact ⟨k, hk1, hk2, append_strcpy_fits buf s _ hb hs (by omega)⟩
  · rw [if_neg h1]
    exact ⟨j, le_refl j, hj, append_strcpy_fits buf s _ hb hs (by omega)⟩

theorem APPEND_int_fits (r : Res (List Nat × Int)) (buf s : List Nat)
    (hr : ∃ j : Nat, j ≤ 30 ∧ r = .ok (buf, 2 ^ j)) (hb : ∀ x ∈ buf, x ≠ 0)
    (hs : ∀ x ∈ s, x ≠ 0) (hl : (buf ++ s).length < 1073741824) :
    (∃ j : Nat, j ≤ 30 ∧ APPEND_int r s = .ok (buf ++ s, 2 ^ j)) ∧ ∀ x ∈ buf ++ s, x ≠ 0 := by
  obtain ⟨j, hj, rfl⟩ := hr
  rw [List.length_append] at hl
  obtain ⟨k, -, hk, hk2⟩ := ydpdict_append_int_fits buf s j hb hs hj hl
  refine ⟨⟨k, hk, hk2⟩, ?_⟩
  intro x hx
  rcases List.mem_append.mp hx with h | h
  · exact hb x h
  · exact hs x h

theorem APPEND_int_left (ps : List (List Nat)) (e : Fault) :
    ps.foldl APPEND_int (.undefined e) = .undefined e := by
  induction ps with
  | nil => rfl
  | cons p ps ih => exact ih

theorem foldl_APPEND_int_fits (ps : List (List Nat)) (buf : List Nat) (j : Nat)
    (hj : j ≤ 30) (hb : ∀ x ∈ buf, x ≠ 0) (hp : ∀ p ∈ ps, ∀ x ∈ p, x ≠ 0)
    (hl : (buf ++ ps.flatten).length < 1073741824) :
    ∃ k : Nat, k ≤ 30 ∧ ps.foldl APPEND_int (.ok (buf, 2 ^ j)) = .ok (buf ++ ps.flatten, 2 ^ k) := by
  induction ps generalizing buf j with
  | nil => exact ⟨j, hj, by simp⟩
  | cons p ps ih =>
    have hl2 : (buf ++ p).length < 1073741824 := by
      simp only [List.flatten_cons, List.length_append] at hl ⊢
      omega
    obtain ⟨⟨k, hk, hk2⟩, hn⟩ := APPEND_int_fits (.ok (buf, 2 ^ j)) buf p ⟨j, hj, rfl⟩ hb
      (hp p (List.mem_cons_self _ _)) hl2
    obtain ⟨k2, hk3, hk4⟩ := ih (buf ++ p) k hk hn
      (fun q hq => hp q (List.mem_cons_of_mem _ hq))
      (by simpa [List.append_assoc] using hl)
    refine ⟨k2, hk3, ?_⟩
    rw [List.foldl_cons, hk2, hk4]
    simp [List.append_assoc]

theorem xhtml_prologue_int_pieces (dict : ydpdict_priv_t) (hh : dict.xhtml_header ≠ 0) :
    xhtml_prologue_int dict = (prologue_pieces dict).foldl APPEND_int (.ok ([], 256)) := by
  unfold xhtml_prologue_int prologue_pieces
  rw [if_pos hh]
  cases dict.encoding <;> cases dict.xhtml_title <;> cases dict.xhtml_style <;>
    simp only [List.cons_append, List.nil_append, List.foldl_cons, List.foldl_nil,
      Option.getD_some, Option.getD_none]

theorem prologue_pieces_flatten (dict : ydpdict_priv_t) :
    (prologue_pieces dict).flatten = prologue_spec dict := by
  unfold prologue_pieces prologue_spec
  cases dict.encoding <;> cases dict.xhtml_title <;> cases dict.xhtml_style <;>
    simp [List.append_assoc]

set_option maxRecDepth 100000 in
theorem prologue_pieces_nul_free (dict : ydpdict_priv_t)
    (ht : ∀ t, dict.xhtml_title = some t → ∀ x ∈ t, x ≠ 0)
    (hs : ∀ s, dict.xhtml_style = some s → ∀ x ∈ s, x ≠ 0) :
    ∀ p ∈ prologue_pieces dict, ∀ x ∈ p, x ≠ 0 := by
  have h1 : ∀ x ∈ str "<?xml version=\"1.0\"?>\n<!DOCTYPE html PUBLIC \"-//W3C//DTD XHTML 1.1//EN\" \"http://www.w3.org/TR/xhtml11/DTD/xhtml11.dtd\">\n<html xmlns=\"http://www.w3.org/1999/xhtml\"><head>", x ≠ 0 := by decide
  have h2 : ∀ x ∈ str "<title>", x ≠ 0 := by decide
  have h3 : ∀ x ∈ str "</title>", x ≠ 0 := by decide
  have h4 : ∀ x ∈ str "<meta http-equiv=\"Content-type\" content=\"text/html; charset=", x ≠ 0 := by
    decide
  have h5 : ∀ x ∈ str "utf-8", x ≠ 0 := by decide
  have h6 : ∀ x ∈ str "windows-1250", x ≠ 0 := by decide
  have h7 : ∀ x ∈ str "\" />", x ≠ 0 := by decide
  have h8 : ∀ x ∈ str "<style>", x ≠ 0 := by decide
  have h9 : ∀ x ∈ str "</style>", x ≠ 0 := by decide
  have h10 : ∀ x ∈ str "</head><body>", x ≠ 0 := by decide
  have htitle : ∀ x ∈ dict.xhtml_title.getD [], x ≠ 0 := by
    cases h : dict.xhtml_title with
    | none => simp
    | some t => simpa using ht t h
  have hcs : ∀ x ∈ (match dict.encoding with
      | .YDPDICT_ENCODING_UTF8 => str "utf-8"
      | .YDPDICT_ENCODING_WINDOWS1250 => str "windows-1250"), x ≠ 0 := by
    cases dict.encoding
    · exact h6
    · exact h5
  have hstyle : ∀ p ∈ (match dict.xhtml_style with
      | some s => [str "<style>", s, str "</style>"]
      | none => []), ∀ x ∈ p, x ≠ 0 := by
    cases h : dict.xhtml_style with
    | none => simp
    | some s =>
      simp only [List.forall_mem_cons, List.not_mem_nil, false_implies, implies_true, and_true]
      exact ⟨h8, hs s h, h9⟩
  unfold prologue_pieces
  intro p hp
  rcases List.mem_append.mp hp with hp | hp
  · simp only [List.mem_cons, List.not_mem_nil, or_false] at hp
    rcases hp with hp | hp | hp | hp | hp | hp | hp <;> rw [hp]
    · exact h1
    · exact h2
    · exact htitle
    · exact h3
    · exact h4
    · exact hcs
    · exact h7
  · rcases List.mem_append.mp hp with hp | hp
    · exact hstyle p hp
    · rw [List.mem_singleton.mp hp]
      exact h10

/-- The prologue is built as the specification describes it whenever it is
shorter than 2^30 bytes: the buffer then holds it, with a capacity that is a
power of two of at most 2^30. -/
theorem xhtml_prologue_int_fits (dict : ydpdict_priv_t) (hh : dict.xhtml_header ≠ 0)
    (ht : ∀ t, dict.xhtml_title = some t → ∀ x ∈ t, x ≠ 0)
    (hs : ∀ s, dict.xhtml_style = some s → ∀ x ∈ s, x ≠ 0)
    (hl : (prologue_spec dict).length < 1073741824) :
    ∃ k : Nat, k ≤ 30 ∧ xhtml_prologue_int dict = .ok (prologue_spec dict, 2 ^ k) := by
  have h256 : (256 : Int) = 2 ^ 8 := by norm_num
  obtain ⟨k, hk, hk2⟩ := foldl_APPEND_int_fits (prologue_pieces dict) [] 8 (by omega)
    (by simp) (prologue_pieces_nul_free dict ht hs)
    (by rw [List.nil_append, prologue_pieces_flatten]; exact hl)
  refine ⟨k, hk, ?_⟩
  rw [xhtml_prologue_int_pieces dict hh, h256, hk2, List.nil_append, prologue_pieces_flatten]

set_option maxRecDepth 100000 in
/-- C21 (the code departs from it): with header output enabled and a title
of 2^30 bytes or more (up to 2147483000), the buffer does not get its
prologue. The declaration and `<title>` fit the first 256 bytes; the append
of the title doubles the `int` capacity from 256 up to 2^30, which is still
too small, and the next `*len <<= 1` leaves the range of `int`, before the
blob is looked at. With header output disabled the same handle starts from
the empty buffer of capacity 256 and converts the blob `x` to `x` with one
append that fits, so the text with the header is not the prologue followed
by the text without it. -/
theorem C21_header_capacity_overflow (dict : ydpdict_priv_t) (t : List Nat)
    (hh : dict.xhtml_header ≠ 0) (ht : dict.xhtml_title = some t) (hn : ∀ x ∈ t, x ≠ 0)
    (hlo : 1073741824 ≤ t.length) (hhi : t.length ≤ 2147483000) :
    xhtml_prologue_int dict = .undefined .int_overflow ∧
    xhtml_prologue_int { dict with xhtml_header := 0 } = .ok ([], 256) ∧
    ydpdict_append_int [] 256 (str "x") = .ok (str "x", 256) ∧
    xhtml_of_rtf { dict with xhtml_header := 0 } (str "x") = .ok (str "x") := by
  refine ⟨?_, ?_, by decide, ?_⟩
  · have h1 : ∀ x ∈ str "<?xml version=\"1.0\"?>\n<!DOCTYPE html PUBLIC \"-//W3C//DTD XHTML 1.1//EN\" \"http://www.w3.org/TR/xhtml11/DTD/xhtml11.dtd\">\n<html xmlns=\"http://www.w3.org/1999/xhtml\"><head>", x ≠ 0 := by decide
    have h2 : ∀ x ∈ str "<title>", x ≠ 0 := by decide
    have hl1 : (str "<?xml version=\"1.0\"?>\n<!DOCTYPE html PUBLIC \"-//W3C//DTD XHTML 1.1//EN\" \"http://www.w3.org/TR/xhtml11/DTD/xhtml11.dtd\">\n<html xmlns=\"http://www.w3.org/1999/xhtml\"><head>").length = 169 := by decide
    have hl2 : (str "<title>").length = 7 := by decide
    have h256 : (256 : Int) = 2 ^ 8 := by norm_num
    obtain ⟨rest, hrest⟩ : ∃ rest, prologue_pieces dict
        = str "<?xml version=\"1.0\"?>\n<!DOCTYPE html PUBLIC \"-//W3C//DTD XHTML 1.1//EN\" \"http://www.w3.org/TR/xhtml11/DTD/xhtml11.dtd\">\n<html xmlns=\"http://www.w3.org/1999/xhtml\"><head>" :: str "<title>" :: t :: rest := by
      unfold prologue_pieces
      rw [ht]
      exact ⟨_, rfl⟩
    obtain ⟨⟨j1, hj1, ha1⟩, hn1⟩ := APPEND_int_fits (.ok ([], 256)) []
      (str "<?xml version=\"1.0\"?>\n<!DOCTYPE html PUBLIC \"-//W3C//DTD XHTML 1.1//EN\" \"http://www.w3.org/TR/xhtml11/DTD/xhtml11.dtd\">\n<html xmlns=\"http://www.w3.org/1999/xhtml\"><head>") ⟨8, by omega, by rw [h256]⟩ (by simp) h1
      (by rw [List.nil_append, hl1]; omega)
    obtain ⟨⟨j2, hj2, ha2⟩, hn2⟩ := APPEND_int_fits _ _ (str "<title>") ⟨j1, hj1, ha1⟩ hn1 h2
      (by rw [List.length_append, List.nil_append, hl1, hl2]; omega)
    have hlen : ([] ++ str "<?xml version=\"1.0\"?>\n<!DOCTYPE html PUBLIC \"-//W3C//DTD XHTML 1.1//EN\" \"http://www.w3.org/TR/xhtml11/DTD/xhtml11.dtd\">\n<html xmlns=\"http://www.w3.org/1999/xhtml\"><head>" ++ str "<title>").length = 176 := by
      rw [List.length_append, List.nil_append, hl1, hl2]
    have ha3 : APPEND_int (.ok ([] ++ str "<?xml version=\"1.0\"?>\n<!DOCTYPE html PUBLIC \"-//W3C//DTD XHTML 1.1//EN\" \"http://www.w3.org/TR/xhtml11/DTD/xhtml11.dtd\">\n<html xmlns=\"http://www.w3.org/1999/xhtml\"><head>" ++ str "<title>", 2 ^ j2)) t
        = .undefined .int_overflow :=
      ydpdict_append_int_fault _ t j2 hn2 hn hj2 (by rw [hlen]; omega) (by rw [hlen]; omega)
    rw [xhtml_prologue_int_pieces dict hh, hrest, List.foldl_cons, List.foldl_cons,
      List.foldl_cons, ha2, ha3, APPEND_int_left]
  · simp [xhtml_prologue_int]
  · rw [xhtml_of_rtf_plain _ rfl]
    dsimp only
    cases dict.encoding <;> cases decide (dict.xhtml_use_style ≠ 0) <;> decide

theorem C21_header_capacity_overflow_witness :
    xhtml_prologue_int { plain_dict .YDPDICT_ENCODING_UTF8 false with
        xhtml_header := 1, xhtml_title := some (List.replicate 1073741824 97) }
      = .undefined .int_overflow :=
  (C21_header_capacity_overflow { plain_dict .YDPDICT_ENCODING_UTF8 false with
      xhtml_header := 1, xhtml_title := some (List.replicate 1073741824 97) }
    (List.replicate 1073741824 97) (by decide) rfl
    (by intro x hx; rw [List.eq_of_mem_replicate hx]; decide)
    (by rw [List.length_replicate]) (by rw [List.length_replicate]; decide)).1

end Ydpdict
